import Mathlib

/-!
# Dataframe shard store of featurebase (apply.go): a shallow embedding

The write path of apply.go (ChangesetRequest, ShardFile, EnsureSchema, process,
Save, Process, getDataframeWritelock, ApplyDataframeChangeset), its read path
(filterDataframe, executeApplyShard, runIvyString, IvyReduce with its reduce and
finalize closures), its schema endpoint (GetDataframeSchema) and the SQL entry
of dax/queryer/queryer.go (QuerySQL, parseAndQueryPQL, datatypeToBaseType,
rowToSliceInterface, tableResponseToQueryResult) are embedded as pure Lean
functions.

Conventions of the embedding:

* A Go function that may return an error or panic returns `Except Fault α`;
  `Fault.error` is a returned Go error value, `Fault.panic` a run-time panic.
* Go `int` / `int64` values are `Int`.  The `int64` computations of the write
  path, `maxid - beforeRows + 1`, `row - beforeRows` and `beforeRows + added`,
  wrap around (`wrap64`), and `make` panics for a length that is negative or
  above `maxSliceLen`.  A value that comes from outside (a row id, the row count
  of a table) is not forced into the `int64` range: a theorem that needs the
  range says so (`ShardFile.Fits`).  Running out of memory for a length `make`
  accepts is a fatal error of the run time that depends on the machine; it is
  not represented.
* An arrow array or a Go slice held in an `interface{}` is a `Values`: the
  dynamic element type together with the cells.  An int64 cell is its value, a
  float64 cell is its IEEE-754 bit pattern read as an integer (0.0 is 0); cells
  are only ever copied, never computed with.
* `arrow.DataType` values are compared structurally.
* arrow tables, columns, arrays and schemas (package arrow, not under src/) are
  plain structures; what the arrow, dataframe and parquet libraries and the
  operating system compute is modelled where the write path calls them, each in
  a definition whose comment says so.
* The file system maps paths to files and keeps a log of the file operations
  performed; which operations the operating system refuses is part of it.
* The closures `IvyReduce` returns share variables: these are a `Reducer`, which
  the reduce function takes and returns.  The ivy interpreter is a parameter
  `Ivy V` over the type `V` of ivy values; a call that may invoke it returns the
  invocations it made next to its result.
-/

namespace Featurebase

/-! ## Faults -/

/-- The two ways a Go call of the write path can fail. -/
inductive Fault where
  | error (msg : String)
  | panic (msg : String)
  deriving DecidableEq, Repr

/-- Run-time panic "index out of range". -/
def indexPanic : Fault := Fault.panic "index out of range"

/-- Run-time panic of a failed type assertion `x.(T)`. -/
def assertPanic : Fault := Fault.panic "interface conversion"

/-- Run-time panic of a nil pointer dereference. -/
def nilPanic : Fault := Fault.panic "nil pointer dereference"

/-- Run-time panic of `make` for a length that is negative or too large. -/
def makeslicePanic : Fault := Fault.panic "makeslice: len out of range"

/-- The `int64` result of an operation whose exact result is `x`: two's
complement wrap-around into `[-2^63, 2^63)`. -/
def wrap64 (x : Int) : Int := (x + 2 ^ 63) % 2 ^ 64 - 2 ^ 63

/-- The largest length `make` accepts for a slice of 8-byte elements
(`[]int64`, `[]float64`) on a 64-bit platform: the run time refuses a slice of
more than `maxAlloc` = 2^48 bytes. -/
def maxSliceLen : Int := 2 ^ 45

/-- Go slice indexing `xs[i]` with an `int` index. -/
def sliceGet {α : Type} (xs : List α) (i : Int) : Except Fault α :=
  if i < 0 then Except.error indexPanic
  else
    match xs[i.toNat]? with
    | some x => Except.ok x
    | none => Except.error indexPanic

/-- Go slice assignment `xs[i] = v` with an `int` index. -/
def sliceSet {α : Type} (xs : List α) (i : Int) (v : α) : Except Fault (List α) :=
  if i < 0 then Except.error indexPanic
  else if i.toNat < xs.length then Except.ok (xs.set i.toNat v)
  else Except.error indexPanic

/-! ## Data model -/

/-- An `arrow.DataType`: the two primitive types the store supports, and every
other arrow type (named). -/
inductive DataType where
  | int64
  | float64
  | other (name : String)
  deriving DecidableEq, Repr

/-- An `arrow.Field` (name and type; the Go field `Type` is `Typ` here). -/
structure Field where
  Name : String
  Typ : DataType
  deriving DecidableEq, Repr

/-- An `arrow.Schema`: the ordered field list. -/
abbrev Schema := List Field

/-- A typed buffer: an arrow array (chunk) or a Go slice stored in an
`interface{}`; `elem` is its dynamic element type. -/
structure Values where
  elem : DataType
  data : List Int
  deriving DecidableEq, Repr

/-- An `arrow.Column`: its field and its chunked data. -/
structure Column where
  field : Field
  chunks : List Values
  deriving DecidableEq, Repr

/-- An `arrow.Table`. -/
structure Table where
  cols : List Column
  rows : Int
  deriving DecidableEq, Repr

/-- Go `table.Schema()`. -/
def Table.Schema (t : Table) : Schema := t.cols.map Column.field

/-- Go `table.NumRows()`. -/
def Table.NumRows (t : Table) : Int := t.rows

/-- Go `table.Column(i)`: indexes the column slice. -/
def Table.Column (t : Table) (i : Nat) : Except Fault Column :=
  match t.cols[i]? with
  | some c => Except.ok c
  | none => Except.error indexPanic

/-- Go `column.DataType()`. -/
def Column.DataType (c : Column) : DataType := c.field.Typ

/-- Go struct `NameType`. -/
structure NameType where
  Name : String
  DataType : DataType
  deriving DecidableEq, Repr

/-- Go struct `ChangesetRequest`. -/
structure ChangesetRequest where
  ShardIds : List Int
  Columns : List Values
  SimpleSchema : List NameType
  deriving DecidableEq, Repr

/-- Go struct `ShardFile`; `table` and `schema` are nilable. -/
structure ShardFile where
  table : Option Table
  schema : Option Schema
  beforeRows : Int
  added : Int
  columns : List Values
  dest : String
  deriving DecidableEq, Repr

/-- The dynamic values `cast` switches on: an arrow data type, a Go `int64`,
a Go `float64`, or anything else. -/
inductive Dyn where
  | dataType (d : DataType)
  | int64Val (v : Int)
  | float64Val (bits : Int)
  | otherVal
  deriving DecidableEq, Repr

/-! ## Schema reconciliation -/

/-- Go `cast`: the type switch with its fall-through `return Int64`. -/
def cast (v : Dyn) : DataType :=
  match v with
  | Dyn.dataType DataType.int64 => DataType.int64
  | Dyn.int64Val _ => DataType.int64
  | Dyn.dataType DataType.float64 => DataType.float64
  | Dyn.float64Val _ => DataType.float64
  | _ => DataType.int64

/-- Go `(*ChangesetRequest).ArrowSchema`. -/
def ChangesetRequest.ArrowSchema (cr : ChangesetRequest) : Schema :=
  cr.SimpleSchema.map (fun nt => { Name := nt.Name, Typ := cast (Dyn.dataType nt.DataType) })

/-- The field loop of `compareSchema`, run on two field lists of equal length. -/
def compareFields : List Field → List Field → Bool
  | f1 :: r1, f2 :: r2 =>
    if f1.Name ≠ f2.Name then false
    else if f1.Typ ≠ f2.Typ then false
    else compareFields r1 r2
  | _, _ => true

/-- Go `compareSchema`. -/
def compareSchema (s1 s2 : Option Schema) : Bool :=
  match s1, s2 with
  | some a, some b =>
    if a.length ≠ b.length then false
    else compareFields a b
  | _, _ => false

/-- The nil `interface{}` a freshly made `[]interface{}` holds. -/
def nilValue : Values := { elem := DataType.other "nil", data := [] }

/-- Go `(*ShardFile).EnsureSchema`: the receiver after the call, and the
returned error (`none` is Go `nil`). -/
def ShardFile.EnsureSchema (sf : ShardFile) (cs : ChangesetRequest) : ShardFile × Option Fault :=
  let schema := cs.ArrowSchema
  match sf.schema with
  | none =>
    ({ sf with schema := some schema, columns := List.replicate schema.length nilValue }, none)
  | some existing =>
    if !compareSchema (some existing) (some schema) then
      (sf, some (Fault.error "dataframe schema's don't match"))
    else
      ({ sf with columns := List.replicate existing.length nilValue }, none)

/-! ## Loops and chunk resolution -/

/-- Go `xs[i]` with a non-negative index. -/
def getN {α : Type} (xs : List α) (i : Nat) : Except Fault α :=
  match xs[i]? with
  | some x => Except.ok x
  | none => Except.error indexPanic

/-- Go `xs[i] = v` with a non-negative index. -/
def setN {α : Type} (xs : List α) (i : Nat) (v : α) : Except Fault (List α) :=
  if i < xs.length then Except.ok (xs.set i v) else Except.error indexPanic

/-- The remaining `k` iterations of a counted loop whose counter stands at `i`. -/
def loopFrom {σ : Type} (body : Nat → σ → Except Fault σ) : Nat → Nat → σ → Except Fault σ
  | 0, _, s => Except.ok s
  | k + 1, i, s =>
    match body i s with
    | Except.ok s1 => loopFrom body k (i + 1) s1
    | Except.error e => Except.error e

/-- Go `for i := 0; i < n; i++ { body }` over a state `σ`. -/
def forRange {σ : Type} (n : Nat) (body : Nat → σ → Except Fault σ) (s : σ) : Except Fault σ :=
  loopFrom body n 0 s

/-- Modelled from the spec: `dataframe.ChunkResolver` (package gomem/dataframe,
not under src/) keeps the chunk lengths of one column; "Row id → (chunk,
offset) is a pure function of cumulative chunk lengths". -/
structure ChunkResolver where
  lens : List Nat
  deriving DecidableEq, Repr

/-- Modelled from the spec: `dataframe.NewChunkResolver(column)`, not under
src/, reads the chunk lengths of the column. -/
def NewChunkResolver (c : Column) : ChunkResolver :=
  { lens := c.chunks.map (fun v => v.data.length) }

/-- Modelled from the spec: the search of `Resolve`, "linear search forward
from chunk 0", with `c` the index of the chunk under inspection. -/
def resolveFrom : List Nat → Nat → Nat → Option (Nat × Nat)
  | [], _, _ => none
  | len :: rest, c, idx =>
    if idx < len then some (c, idx) else resolveFrom rest (c + 1) (idx - len)

/-- Modelled from the spec: `ChunkResolver.Resolve(rowId) -> (chunkIndex,
offset)`, not under src/.  A row id that lies in no chunk (negative, or at or
beyond the row count) has no position; using it is an index fault. -/
def ChunkResolver.Resolve (r : ChunkResolver) (idx : Int) : Except Fault (Nat × Nat) :=
  if idx < 0 then Except.error indexPanic
  else
    match resolveFrom r.lens 0 idx.toNat with
    | some p => Except.ok p
    | none => Except.error indexPanic

/-! ## The merge: process -/

/-- Go `len(sf.schema.Fields())` / `sf.schema.Field(i)`: the field list of the
schema pointer, a nil dereference when the schema is nil. -/
def ShardFile.Fields (sf : ShardFile) : Except Fault (List Field) :=
  match sf.schema with
  | some s => Except.ok s
  | none => Except.error nilPanic

/-- One arm of the type switch in the update pass of `process`, for the
element type `ty`:
`v := column.Data().Chunk(chunk).(*array.T).TValues(); v[l] = cs.Columns[col].([]T)[i]`. -/
def writeChunk (ty : DataType) (t : Table) (cs : ChangesetRequest) (column : Column)
    (chunk l i col : Nat) : Except Fault Table := do
  let arr ← getN column.chunks chunk
  if arr.elem ≠ ty then Except.error assertPanic
  else
    let src ← getN cs.Columns col
    if src.elem ≠ ty then Except.error assertPanic
    else
      let x ← getN src.data i
      let data ← setN arr.data l x
      let column1 : Column := { column with chunks := column.chunks.set chunk { arr with data := data } }
      Except.ok { t with cols := t.cols.set col column1 }

/-- Body of the column loop in the update pass of `process`. -/
def updateCell (cs : ChangesetRequest) (chunk l i : Nat) (col : Nat) (t : Table) :
    Except Fault Table := do
  let column ← t.Column col
  match column.DataType with
  | DataType.int64 => writeChunk DataType.int64 t cs column chunk l i col
  | DataType.float64 => writeChunk DataType.float64 t cs column chunk l i col
  | DataType.other _ => Except.error (Fault.panic "Unknown Type")

/-- The update pass of `process`: `for i, rowid := range cs.ShardIds` from
position `i` on, with its `break`; the state is `offset` and the table. -/
def updatePass (schema : Option Schema) (resolver : ChunkResolver) (cs : ChangesetRequest) :
    Nat → List Int → Nat × Table → Except Fault (Nat × Table)
  | _, [], st => Except.ok st
  | i, rowid :: rest, (_, t) =>
    if rowid ≥ t.NumRows then Except.ok (i, t)
    else
      match resolver.Resolve rowid with
      | Except.error e => Except.error e
      | Except.ok (chunk, l) =>
        match schema with
        | none => Except.error nilPanic
        | some fields =>
          match forRange fields.length (updateCell cs chunk l i) t with
          | Except.error e => Except.error e
          | Except.ok t1 => updatePass schema resolver cs (i + 1) rest (i, t1)

/-- Go `make([]T, n)` for `T` one of `int64`, `float64`: `n` zero cells of
element type `ty`, and a panic for a length the run time refuses. -/
def makeSlice (ty : DataType) (n : Int) : Except Fault Values :=
  if n < 0 ∨ maxSliceLen < n then Except.error makeslicePanic
  else Except.ok { elem := ty, data := List.replicate n.toNat 0 }

/-- Body of the field loop of `buildAppenders`; the switch has no default.
The slice is made before the slot `sf.columns[i]` is assigned. -/
def allocColumn (fields : List Field) (newSize : Int) (i : Nat) (columns : List Values) :
    Except Fault (List Values) := do
  let f ← getN fields i
  match f.Typ with
  | DataType.int64 =>
    let v ← makeSlice DataType.int64 newSize
    setN columns i v
  | DataType.float64 =>
    let v ← makeSlice DataType.float64 newSize
    setN columns i v
  | DataType.other _ => Except.ok columns

/-- Go `(*ShardFile).buildAppenders`; `newSize` is computed in `int64`. -/
def ShardFile.buildAppenders (sf : ShardFile) (maxid : Int) : Except Fault ShardFile :=
  let sf1 : ShardFile :=
    match sf.table with
    | some t => { sf with beforeRows := t.NumRows }
    | none => sf
  if maxid < sf1.beforeRows then Except.ok sf1
  else
    let newSize := wrap64 (wrap64 (maxid - sf1.beforeRows) + 1)
    match sf1.Fields with
    | Except.error e => Except.error e
    | Except.ok fields =>
      match forRange fields.length (allocColumn fields newSize) sf1.columns with
      | Except.error e => Except.error e
      | Except.ok columns => Except.ok { sf1 with columns := columns, added := newSize }

/-- Go `SetIntValue` / `SetFloatValue` for the element type `ty`:
`v := sf.columns[col].([]T); v[row-sf.beforeRows] = val`, the index computed in
`int64`. -/
def ShardFile.setValue (ty : DataType) (sf : ShardFile) (col : Nat) (row : Int) (val : Int) :
    Except Fault ShardFile := do
  let v ← getN sf.columns col
  if v.elem ≠ ty then Except.error assertPanic
  else
    let data ← sliceSet v.data (wrap64 (row - sf.beforeRows)) val
    Except.ok { sf with columns := sf.columns.set col { v with data := data } }

/-- Go `(*ShardFile).SetIntValue`. -/
def ShardFile.SetIntValue (sf : ShardFile) (col : Nat) (row : Int) (val : Int) :
    Except Fault ShardFile :=
  sf.setValue DataType.int64 col row val

/-- Go `(*ShardFile).SetFloatValue`. -/
def ShardFile.SetFloatValue (sf : ShardFile) (col : Nat) (row : Int) (val : Int) :
    Except Fault ShardFile :=
  sf.setValue DataType.float64 col row val

/-- The argument `cs.Columns[col].([]T)[i]` of the setter calls in `process`. -/
def changesetCell (ty : DataType) (cs : ChangesetRequest) (col i : Nat) : Except Fault Int := do
  let src ← getN cs.Columns col
  if src.elem ≠ ty then Except.error assertPanic
  else getN src.data i

/-- Body of the column loop in the append pass of `process`. -/
def appendCell (cs : ChangesetRequest) (rowid : Int) (i : Nat) (col : Nat) (sf : ShardFile) :
    Except Fault ShardFile := do
  let fields ← sf.Fields
  let f ← getN fields col
  match f.Typ with
  | DataType.int64 =>
    let x ← changesetCell DataType.int64 cs col i
    sf.SetIntValue col rowid x
  | DataType.float64 =>
    let x ← changesetCell DataType.float64 cs col i
    sf.SetFloatValue col rowid x
  | DataType.other _ => Except.error (Fault.panic "2 Unknown Type")

/-- The append pass of `process`: `for i, rowid := range cs.ShardIds[offset:]`
with `i += offset`; `i` is the already shifted index. -/
def appendPass (cs : ChangesetRequest) : Nat → List Int → ShardFile → Except Fault ShardFile
  | _, [], sf => Except.ok sf
  | i, rowid :: rest, sf =>
    match sf.Fields with
    | Except.error e => Except.error e
    | Except.ok fields =>
      match forRange fields.length (appendCell cs rowid i) sf with
      | Except.error e => Except.error e
      | Except.ok sf1 => appendPass cs (i + 1) rest sf1

/-- The first half of `process`: the update pass over an existing table,
giving `offset` and the receiver with its table updated in place. -/
def updateExisting (sf : ShardFile) (cs : ChangesetRequest) : Except Fault (Nat × ShardFile) :=
  match sf.table with
  | none => Except.ok (0, sf)
  | some t =>
    match t.Column 0 with
    | Except.error e => Except.error e
    | Except.ok column =>
      match updatePass sf.schema (NewChunkResolver column) cs 0 cs.ShardIds (0, t) with
      | Except.error e => Except.error e
      | Except.ok (offset, t1) => Except.ok (offset, { sf with table := some t1 })

/-- Go `(*ShardFile).process`; its returned error is always nil, so a result
is the receiver after the call and a fault is a panic. -/
def ShardFile.process (sf : ShardFile) (cs : ChangesetRequest) : Except Fault ShardFile :=
  match updateExisting sf cs with
  | Except.error e => Except.error e
  | Except.ok (offset, sf1) =>
    match sliceGet cs.ShardIds ((cs.ShardIds.length : Int) - 1) with
    | Except.error e => Except.error e
    | Except.ok max =>
      match sf1.buildAppenders max with
      | Except.error e => Except.error e
      | Except.ok sf2 =>
        if sf2.added > 0 then appendPass cs offset (cs.ShardIds.drop offset) sf2
        else Except.ok sf2

/-! ## Save and the commit -/

/-- Modelled from the spec: arrow's `array.Concatenate`, not under src/:
"concatenate, per column, the original chunks with the newly-built chunk".
It returns an error for no input and for inputs of different types. -/
def Concatenate (arrs : List Values) : Except Fault Values :=
  match arrs with
  | [] => Except.error (Fault.error "array/concat: must pass at least one array")
  | a :: rest =>
    if rest.all (fun b => b.elem = a.elem) then
      Except.ok { elem := a.elem, data := ((a :: rest).map Values.data).flatten }
    else Except.error (Fault.error "arrays to be concatenated must be identically typed")

/-- An arrow record: schema, one array per column, row count. -/
structure Record where
  schema : Schema
  parts : List Values
  rows : Int
  deriving DecidableEq, Repr

/-- One arm of the type switch of `Save` for the element type `ty`: append the
new chunk when rows were added, concatenate, append the result to `parts`. -/
def saveArm (ty : DataType) (sf : ShardFile) (col : Nat) (chunks parts : List Values) :
    Except Fault (List Values) := do
  let chunks1 ←
    if sf.added > 0 then do
      let b ← getN sf.columns col
      if b.elem ≠ ty then Except.error assertPanic
      else Except.ok (chunks ++ [{ elem := ty, data := b.data }])
    else Except.ok chunks
  let record ← Concatenate chunks1
  Except.ok (parts ++ [record])

/-- The start of the column loop body of `Save`: `chunks` holds the chunks of
the existing column when there is a table. -/
def existingChunks (sf : ShardFile) (col : Nat) : Except Fault (List Values) :=
  match sf.table with
  | some t =>
    match t.Column col with
    | Except.ok column => Except.ok column.chunks
    | Except.error e => Except.error e
  | none => Except.ok []

/-- Body of the column loop of `Save`; the default arm only prints. -/
def saveColumn (sf : ShardFile) (col : Nat) (parts : List Values) : Except Fault (List Values) := do
  let chunks ← existingChunks sf col
  let fields ← sf.Fields
  let f ← getN fields col
  match f.Typ with
  | DataType.int64 => saveArm DataType.int64 sf col chunks parts
  | DataType.float64 => saveArm DataType.float64 sf col chunks parts
  | DataType.other _ => Except.ok parts

/-- Modelled from the spec: arrow's `array.NewRecord(schema, parts, rows)`, not
under src/: "assemble the new ShardTable".  It panics when the arrays do not
fit the schema (count, length at least `rows`, type). -/
def NewRecord (schema : Schema) (parts : List Values) (rows : Int) : Except Fault Record :=
  let rows1 : Int :=
    if rows < 0 then
      match parts with
      | [] => 0
      | a :: _ => (a.data.length : Int)
    else rows
  if rows1 = 0 ∧ parts = [] then Except.ok { schema := schema, parts := parts, rows := rows1 }
  else if parts.length ≠ schema.length then
    Except.error (Fault.panic "arrow/array: number of columns/fields mismatch")
  else if (List.zip schema parts).all
      (fun fp => decide (rows1 ≤ (fp.2.data.length : Int)) && decide (fp.1.Typ = fp.2.elem)) then
    Except.ok { schema := schema, parts := parts, rows := rows1 }
  else Except.error (Fault.panic "arrow/array: column does not fit the schema")

/-- The in-memory half of `Save`: the column loop and `array.NewRecord`, whose
row count `sf.beforeRows+sf.added` is computed in `int64`. -/
def ShardFile.assemble (sf : ShardFile) : Except Fault Record :=
  match sf.Fields with
  | Except.error e => Except.error e
  | Except.ok fields =>
    match forRange fields.length (saveColumn sf) [] with
    | Except.error e => Except.error e
    | Except.ok parts => NewRecord fields parts (wrap64 (sf.beforeRows + sf.added))

/-- Modelled from the spec: the table a parquet file written from the record
holds ("Save then Load of a shard table yields a table with identical schema,
row count, and per-row values"); the parquet library is not under src/. -/
def Record.toTable (r : Record) : Table :=
  { cols := List.zipWith (fun f p => { field := f, chunks := [p] }) r.schema r.parts,
    rows := r.rows }

/-- Modelled from the spec: what a path of the file system holds, a parquet
file ("one file per (table, shard), columnar file format") or bytes that do
not decode. -/
inductive File where
  | parquet (t : Table)
  | corrupt
  deriving DecidableEq, Repr

/-- A file operation that changed the file system. -/
inductive FileOp where
  | create (path : String)
  | rename (src dst : String)
  deriving DecidableEq, Repr

/-- Modelled from the spec: the file system the write path works on (package
os, not under src/): the files, the log of operations performed on it, and
which operations the operating system refuses. -/
structure Disk where
  files : String → Option File
  log : List FileOp
  createFails : String → Bool
  writeFails : String → Bool
  renameFails : String → Bool

/-- Go `readTableParquet`: open and decode `filename + ".parquet"`. -/
def readTableParquet (d : Disk) (filename : String) : Except Fault Table :=
  match d.files (filename ++ ".parquet") with
  | none => Except.error (Fault.error "open: no such file or directory")
  | some File.corrupt => Except.error (Fault.error "parquet: invalid file")
  | some (File.parquet t) => Except.ok t

/-- Go `NewShardFile`. -/
def NewShardFile (d : Disk) (name : String) : Except Fault ShardFile :=
  match d.files (name ++ ".parquet") with
  | none =>
    Except.ok { table := none, schema := none, beforeRows := 0, added := 0, columns := [],
                dest := name }
  | some _ =>
    match readTableParquet d name with
    | Except.error e => Except.error e
    | Except.ok table =>
      Except.ok { table := some table, schema := some table.Schema, beforeRows := 0, added := 0,
                  columns := [], dest := name }

/-- Go `(*ShardFile).Save`: the file system after the call and the result.
`dataframe.NewDataFrameFromRecord` only wraps the record; `os.Create` and
`df.ToParquet` fail when the file system refuses them. -/
def ShardFile.Save (sf : ShardFile) (name : String) (d : Disk) : Disk × Except Fault Unit :=
  match sf.assemble with
  | Except.error e => (d, Except.error e)
  | Except.ok rec =>
    let path := name ++ ".parquet"
    if d.createFails path then (d, Except.error (Fault.error "create failed"))
    else
      let log := d.log ++ [FileOp.create path]
      if d.writeFails path then
        ({ d with files := Function.update d.files path (some File.corrupt), log := log },
          Except.error (Fault.error "write failed"))
      else
        ({ d with files := Function.update d.files path (some (File.parquet rec.toTable)),
                  log := log },
          Except.ok ())

/-- Modelled from the spec: `os.Rename(src, dst)`, not under src/: "atomically
rename the temporary file over the shard's canonical file path". -/
def Rename (d : Disk) (src dst : String) : Disk × Except Fault Unit :=
  if d.renameFails src then (d, Except.error (Fault.error "rename failed"))
  else
    match d.files src with
    | none => (d, Except.error (Fault.error "rename: no such file or directory"))
    | some f =>
      ({ d with files := Function.update (Function.update d.files src none) dst (some f),
                log := d.log ++ [FileOp.rename src dst] },
        Except.ok ())

/-- Go `(*ShardFile).Process`. -/
def ShardFile.Process (sf : ShardFile) (cs : ChangesetRequest) (d : Disk) :
    Disk × Except Fault Unit :=
  match sf.process cs with
  | Except.error e => (d, Except.error e)
  | Except.ok sf1 =>
    let rtemp := sf1.dest ++ ".temp"
    match sf1.Save rtemp d with
    | (d1, Except.error e) => (d1, Except.error e)
    | (d1, Except.ok _) => Rename d1 (rtemp ++ ".parquet") (sf1.dest ++ ".parquet")

/-! ## The lock registry and the API entry point -/

/-- The package variable `dataframeShardLocks`: the map from shard id to lock
pointer (a lock object is identified by its address), with the next address
the allocator hands out. -/
structure LockRegistry where
  dataframeShardLocks : Nat → Option Nat
  nextAddr : Nat

/-- Go `init`: the empty map. -/
def LockRegistry.init : LockRegistry :=
  { dataframeShardLocks := fun _ => none, nextAddr := 0 }

/-- Go `getDataframeWritelock`: the registry after the call and the returned
lock pointer. -/
def getDataframeWritelock (r : LockRegistry) (shard : Nat) : LockRegistry × Nat :=
  match r.dataframeShardLocks shard with
  | some lock => (r, lock)
  | none =>
    let newLock := r.nextAddr
    ({ dataframeShardLocks := Function.update r.dataframeShardLocks shard (some newLock),
       nextAddr := r.nextAddr + 1 }, newLock)

/-- Process state the API call works on. -/
structure World where
  disk : Disk
  registry : LockRegistry

/-- Go `(*API).ApplyDataframeChangeset`, with `fname` the value of
`idx.GetDataFramePath(shard)` (the index holder is not under src/).  The
shard's mutex is locked for the whole body and unlocked on return; in a
sequential run only the registry entry made by `getDataframeWritelock` shows. -/
def ApplyDataframeChangeset (w : World) (fname : String) (cs : ChangesetRequest) (shard : Nat) :
    World × Except Fault Unit :=
  let reg := (getDataframeWritelock w.registry shard).1
  match NewShardFile w.disk fname with
  | Except.error e => ({ w with registry := reg }, Except.error e)
  | Except.ok shardFile =>
    match shardFile.EnsureSchema cs with
    | (_, some e) => ({ w with registry := reg }, Except.error e)
    | (sf, none) =>
      let res := sf.Process cs w.disk
      ({ disk := res.1, registry := reg }, res.2)

/-! ## Well-formed inputs and observations -/

/-- Chunk lengths of a column. -/
def Column.lens (c : Column) : List Nat := c.chunks.map (fun v => v.data.length)

/-- The cells of a column in row order (its chunks laid end to end). -/
def Column.flat (c : Column) : List Int := (c.chunks.map Values.data).flatten

/-- A shard table as a shard file holds it: at least one column, every column
chunked like the first one, every chunk of the column's type, and the row
count equal to the number of cells of a column. -/
def Table.WellFormed (t : Table) : Prop :=
  match t.cols with
  | [] => False
  | c0 :: _ =>
    (∀ c ∈ t.cols, c.lens = c0.lens ∧ ∀ a ∈ c.chunks, a.elem = c.field.Typ) ∧
    t.rows = (c0.lens.sum : Int)

instance (t : Table) : Decidable t.WellFormed := by
  unfold Table.WellFormed
  split <;> infer_instance

/-- The table a ShardFile holds, if any, is a well-formed shard table. -/
def ShardFile.WellFormed (sf : ShardFile) : Prop :=
  match sf.table with
  | some t => t.WellFormed
  | none => True

instance (sf : ShardFile) : Decidable sf.WellFormed := by
  unfold ShardFile.WellFormed
  split <;> infer_instance

/-- A changeset the merge is specified for: at least one row id, row ids
non-negative and non-decreasing, and one buffer per schema field that has the
field's type and one cell per row id. -/
def ChangesetRequest.Valid (cs : ChangesetRequest) : Prop :=
  cs.ShardIds ≠ [] ∧ (∀ r ∈ cs.ShardIds, 0 ≤ r) ∧ cs.ShardIds.Pairwise (fun a b => a ≤ b) ∧
  cs.Columns.length = cs.SimpleSchema.length ∧
  ∀ p ∈ List.zip cs.ArrowSchema cs.Columns,
    p.2.elem = p.1.Typ ∧ p.2.data.length = cs.ShardIds.length

instance (cs : ChangesetRequest) : Decidable cs.Valid := by
  unfold ChangesetRequest.Valid
  infer_instance

/-- Number of committed rows of the shard: the row count of the table read
from the shard file, 0 when there is no file. -/
def ShardFile.committedRows (sf : ShardFile) : Int :=
  match sf.table with
  | some t => t.NumRows
  | none => 0

/-- The sizes of a merge are ones the machine holds: the committed row count
is an `int64` value and every row id lies below the largest slice length (row
ids are shard-relative: the source comment on `ShardIds` says "only shardwidth
bits"). -/
def ShardFile.Fits (sf : ShardFile) (cs : ChangesetRequest) : Prop :=
  sf.committedRows < 2 ^ 63 ∧ ∀ r ∈ cs.ShardIds, r < maxSliceLen

instance (sf : ShardFile) (cs : ChangesetRequest) : Decidable (sf.Fits cs) := by
  unfold ShardFile.Fits
  infer_instance

/-- The zero cells `make` returns for a length it accepts. -/
def zeroSlice (ty : DataType) (n : Int) : Values :=
  { elem := ty, data := List.replicate n.toNat 0 }

/-- The last row id of a changeset (0 for the empty list). -/
def ChangesetRequest.maxId (cs : ChangesetRequest) : Int := cs.ShardIds.getLastD 0

/-- Successive writes `init[pos[j]] = vals[j]`, in list order. -/
def writeAll (init : List Int) : List Nat → List Int → List Int
  | q :: pos, x :: vals => writeAll (init.set q x) pos vals
  | _, _ => init

/-- Length of the longest prefix of row ids below `n`. -/
def splitPoint (n : Int) (ids : List Int) : Nat :=
  (ids.takeWhile (fun r => decide (r < n))).length

deriving instance DecidableEq for Except

/-- Shape facts about one column of a table under update: its field, its
chunk lengths, the type of its chunks, and that the type is supported. -/
def ColumnOK (lens : List Nat) (f : Field) (c : Column) : Prop :=
  c.field = f ∧ c.lens = lens ∧ (∀ a ∈ c.chunks, a.elem = f.Typ) ∧
  (f.Typ = DataType.int64 ∨ f.Typ = DataType.float64)

/-- Shape facts about a table under update, relative to the schema `fields`
and the common chunk lengths `lens`. -/
def TableOK (fields : List Field) (lens : List Nat) (t : Table) : Prop :=
  t.rows = (lens.sum : Int) ∧ t.cols.length = fields.length ∧
  ∀ (k : Nat) (f : Field), fields[k]? = some f → ∃ c, t.cols[k]? = some c ∧ ColumnOK lens f c

/-- The changeset has, for every schema field, a buffer of the field's type
with one cell per row id. -/
def BufsOK (fields : List Field) (cs : ChangesetRequest) : Prop :=
  ∀ (k : Nat) (f : Field), fields[k]? = some f →
    ∃ src, cs.Columns[k]? = some src ∧ src.elem = f.Typ ∧ src.data.length = cs.ShardIds.length

/-- Shape facts about the append buffers `sf.columns`: one buffer per field,
of the field's type, which is a supported one, with `m` cells. -/
def ColsOK (fields : List Field) (m : Nat) (cols : List Values) : Prop :=
  cols.length = fields.length ∧
  ∀ (k : Nat) (f : Field), fields[k]? = some f →
    ∃ v, cols[k]? = some v ∧ v.elem = f.Typ ∧ v.data.length = m ∧
      (f.Typ = DataType.int64 ∨ f.Typ = DataType.float64)

/-- The cells of column `k` of the table held by the ShardFile, in row order
(empty when there is no table). -/
def ShardFile.oldData (sf : ShardFile) (k : Nat) : List Int :=
  match sf.table with
  | some t =>
    match t.cols[k]? with
    | some c => c.flat
    | none => []
  | none => []

/-- The cells of the append buffer of column `k` (empty when no row was added). -/
def ShardFile.newData (sf : ShardFile) (k : Nat) : List Int :=
  if sf.added > 0 then
    match sf.columns[k]? with
    | some v => v.data
    | none => []
  else []

/-! ## Invariants used in the proofs -/

/-- What `process` relies on: the ShardFile is as `NewShardFile` and
`EnsureSchema` leave it (schema `fields`, all of supported type, one empty
column slot per field, counters at zero), its table, if any, is well formed
with chunk lengths `lens`, and the changeset is valid for `fields`. -/
structure Ready (sf : ShardFile) (cs : ChangesetRequest) (fields : List Field)
    (lens : List Nat) : Prop where
  schema : sf.schema = some fields
  sup : ∀ f ∈ fields, f.Typ = DataType.int64 ∨ f.Typ = DataType.float64
  cols : sf.columns.length = fields.length
  before : sf.beforeRows = 0
  added : sf.added = 0
  bufs : BufsOK fields cs
  tab : ∀ t, sf.table = some t →
    TableOK fields lens t ∧ ∃ c0, t.cols[0]? = some c0 ∧ c0.lens = lens
  notab : sf.table = none → lens = []
  ne : cs.ShardIds ≠ []
  nonneg : ∀ r ∈ cs.ShardIds, 0 ≤ r
  sorted : cs.ShardIds.Pairwise (fun a b => a ≤ b)

/-- The cells of a merged column: the old cells with the update-pass writes,
followed by the new zero cells with the append-pass writes. -/
def mergedData (old : List Int) (a : Nat) (ids vals : List Int) (p : Nat) : List Int :=
  writeAll old ((ids.take p).map Int.toNat) vals ++
    writeAll (List.replicate a 0) ((ids.drop p).map (fun r => (r - (old.length : Int)).toNat))
      (vals.drop p)

/-- The state of a ShardFile that `NewShardFile` returned and `EnsureSchema`
accepted: schema `fields`, all of supported type, one empty column slot per
field, counters at zero, and the table, if any, well formed with chunk lengths
`lens`. -/
structure Loaded (sf : ShardFile) (fields : List Field) (lens : List Nat) : Prop where
  schema : sf.schema = some fields
  sup : ∀ f ∈ fields, f.Typ = DataType.int64 ∨ f.Typ = DataType.float64
  cols : sf.columns.length = fields.length
  before : sf.beforeRows = 0
  added : sf.added = 0
  tab : ∀ t, sf.table = some t →
    TableOK fields lens t ∧ ∃ c0, t.cols[0]? = some c0 ∧ c0.lens = lens
  notab : sf.table = none → lens = []

/-- The cell of column `col` the update pass of `process` addresses for row
id `rowid`: resolved through the chunk resolver of column 0, then read from
chunk `chunk` of the column at offset `l`. -/
def Table.cell (t : Table) (col : Nat) (rowid : Int) : Except Fault Int :=
  match t.Column 0 with
  | Except.error e => Except.error e
  | Except.ok column0 =>
    match (NewChunkResolver column0).Resolve rowid with
    | Except.error e => Except.error e
    | Except.ok (chunk, l) =>
      match t.Column col with
      | Except.error e => Except.error e
      | Except.ok column =>
        match getN column.chunks chunk with
        | Except.error e => Except.error e
        | Except.ok arr => getN arr.data l

/-! ## Sample data -/

/-- A shard table with one Int64 column `a` in two chunks: rows `[10, 20]`. -/
def sampleTable : Table :=
  { cols := [{ field := { Name := "a", Typ := DataType.int64 },
               chunks := [{ elem := DataType.int64, data := [10] },
                          { elem := DataType.int64, data := [20] }] }],
    rows := 2 }

/-- The changeset `[{1, 99}, {3, 40}]` for column `a`. -/
def sampleChangeset : ChangesetRequest :=
  { ShardIds := [1, 3],
    Columns := [{ elem := DataType.int64, data := [99, 40] }],
    SimpleSchema := [{ Name := "a", DataType := DataType.int64 }] }

/-- A file system holding `sampleTable` as shard file `shard.parquet`, on
which no operation fails. -/
def sampleDisk : Disk :=
  { files := fun path => if path = "shard.parquet" then some (File.parquet sampleTable) else none,
    log := [],
    createFails := fun _ => false,
    writeFails := fun _ => false,
    renameFails := fun _ => false }

/-- The ShardFile `NewShardFile` returns for `shard` on `sampleDisk`. -/
def sampleShardFile : ShardFile :=
  { table := some sampleTable, schema := some sampleTable.Schema, beforeRows := 0, added := 0,
    columns := [], dest := "shard" }

/-- The sample ShardFile after `EnsureSchema` accepted `sampleChangeset`. -/
def sampleReady : ShardFile := (sampleShardFile.EnsureSchema sampleChangeset).1

/-- The world of `sampleDisk` with the empty lock registry. -/
def sampleWorld : World := { disk := sampleDisk, registry := LockRegistry.init }

/-- A file system with no file, on which no operation fails. -/
def emptyDisk : Disk :=
  { files := fun _ => none,
    log := [],
    createFails := fun _ => false,
    writeFails := fun _ => false,
    renameFails := fun _ => false }

/-- A changeset that declares column `a` with the unsupported arrow type
`utf8` and carries an int64 buffer for it. -/
def unsupportedChangeset : ChangesetRequest :=
  { ShardIds := [0],
    Columns := [{ elem := DataType.int64, data := [5] }],
    SimpleSchema := [{ Name := "a", DataType := DataType.other "utf8" }] }

/-! ## Runs of the lock registry -/

/-- A sequence of `getDataframeWritelock` calls, one per shard id of the list:
the registry after the calls and the lock pointers returned, in call order. -/
def runLocks (r : LockRegistry) : List Nat → LockRegistry × List Nat
  | [] => (r, [])
  | shard :: rest =>
    ((runLocks (getDataframeWritelock r shard).1 rest).1,
      (getDataframeWritelock r shard).2 :: (runLocks (getDataframeWritelock r shard).1 rest).2)

/-- Every lock pointer in the map was handed out by the allocator, and no two
shard ids map to the same pointer. -/
def LockRegistry.Consistent (r : LockRegistry) : Prop :=
  (∀ (k l : Nat), r.dataframeShardLocks k = some l → l < r.nextAddr) ∧
  (∀ (k1 k2 l : Nat), r.dataframeShardLocks k1 = some l → r.dataframeShardLocks k2 = some l →
    k1 = k2)

/-- A changeset for column `a` declared as Float64. -/
def floatChangeset : ChangesetRequest :=
  { ShardIds := [0],
    Columns := [{ elem := DataType.float64, data := [0] }],
    SimpleSchema := [{ Name := "a", DataType := DataType.float64 }] }

/-- The ShardFile `NewShardFile` returns when there is no shard file. -/
def freshShardFile : ShardFile :=
  { table := none, schema := none, beforeRows := 0, added := 0, columns := [], dest := "shard" }

/-! ## The read path: filtered resolvers -/

/-- Modelled from the spec: the interface `dataframe.Resolver` (package
gomem/dataframe, not under src/) with its two methods, `NumRows()` and
`Resolve(idx) (chunk, offset)`. -/
structure Resolver where
  NumRows : Int
  Resolve : Int → Except Fault (Nat × Nat)

/-- Modelled from the spec: `(*ChunkResolver).NumRows()`, not under src/: the
rows of the column, the sum of its chunk lengths. -/
def ChunkResolver.NumRows (r : ChunkResolver) : Int := (r.lens.sum : Nat)

/-- A `*ChunkResolver` used as a `dataframe.Resolver`. -/
def ChunkResolver.toResolver (r : ChunkResolver) : Resolver :=
  { NumRows := r.NumRows, Resolve := r.Resolve }

/-- Modelled from the spec: `dataframe.IndexResolver` (not under src/), the
"reusable (chunk, offset) index" of a row filter: a slice of one packed
`uint32` slot per position and the offset mask it was created with.  A slot is
kept here as the (chunk, offset) it decodes to. -/
structure IndexResolver where
  index : List (Nat × Nat)
  mask : Nat
  deriving DecidableEq, Repr

/-- Modelled from the spec: `dataframe.NewIndexResolver(size, mask)`, not under
src/: an index of `size` slots made by `make([]uint32, size)`, so every slot is
zero, and a zero slot decodes to chunk 0, offset 0. -/
def NewIndexResolver (size : Nat) (mask : Nat) : IndexResolver :=
  { index := List.replicate size (0, 0), mask := mask }

/-- Modelled from the spec: `(*IndexResolver).Set(i, chunk, offset)`, not under
src/: slot `i` now holds `(chunk, offset)`. -/
def IndexResolver.Set (r : IndexResolver) (i c o : Nat) : Except Fault IndexResolver :=
  if i < r.index.length then Except.ok { r with index := r.index.set i (c, o) }
  else Except.error indexPanic

/-- Modelled from the spec: `(*IndexResolver).NumRows()`, not under src/: the
slots of the index, which is what a reader of the resolver iterates. -/
def IndexResolver.NumRows (r : IndexResolver) : Int := (r.index.length : Nat)

/-- Modelled from the spec: `(*IndexResolver).Resolve(idx)`, not under src/: the
(chunk, offset) held in slot `idx`. -/
def IndexResolver.Resolve (r : IndexResolver) (idx : Int) : Except Fault (Nat × Nat) :=
  sliceGet r.index idx

/-- The loop of `filterDataframe` from position `i` of the filter on. -/
def filterLoop (resolver : Resolver) : Nat → List Int → IndexResolver → Except Fault IndexResolver
  | _, [], ir => Except.ok ir
  | i, id :: rest, ir =>
    if id ≥ resolver.NumRows then filterLoop resolver (i + 1) rest ir
    else
      match resolver.Resolve id with
      | Except.ok (c, o) =>
        match ir.Set i c o with
        | Except.ok ir1 => filterLoop resolver (i + 1) rest ir1
        | Except.error e => Except.error e
      | Except.error e => Except.error e

/-- Go `filterDataframe`; `ShardWidth` is the package constant (not under
src/), converted to `uint32` for the mask. -/
def filterDataframe (ShardWidth : Nat) (resolver : Resolver) (filter : List Int) :
    Except Fault IndexResolver :=
  if resolver.NumRows = 0 then Except.error (Fault.error "No data")
  else filterLoop resolver 0 filter (NewIndexResolver filter.length ((ShardWidth - 1) % 2 ^ 32))

/-- A resolver as `executeApplyShard` passes it to the evaluator: the chunk
resolver of the first column, or the index built from the filter. -/
inductive AnyResolver where
  | chunk (r : ChunkResolver)
  | index (r : IndexResolver)
  deriving DecidableEq, Repr

/-! ## The read path: reduction -/

/-- A dataframe of package gomem/dataframe: its columns. -/
abbrev DataFrame := List Column

/-- A map result as the reduce function receives it in `v interface{}`: nil, a
`*dataframe.DataFrame`, a `value.Value`, or a value of any other type, given
by the name of that type.  `V` is the type of ivy values. -/
inductive MapResult (V : Type) where
  | nil
  | dataframe (df : DataFrame)
  | value (val : V)
  | other (typeName : String)
  deriving DecidableEq, Repr

/-- What the reduce function returns in its `interface{}` result: the `prev`
it was called with, nil, or an error value. -/
inductive Returned (P : Type) where
  | prev (p : P)
  | nil
  | error (msg : String)
  deriving DecidableEq, Repr

/-- How `run.Run` ends: it returns `ok`, it panics with a `value.Error`, or it
panics with a value of another type. -/
inductive RunExit where
  | returned (ok : Bool)
  | raised (err : String)
  | crashed (msg : String)
  deriving DecidableEq, Repr

/-- Modelled from the spec: the ivy interpreter and the dataframe constructors
the read path calls (packages robpike.io/ivy and gomem/dataframe, not under
src/), "treated as an opaque evaluator invoked by the core".  `BinaryOps` is the
table `value.BinaryOps` with `EvalBinary` applied; `ToArrowColumn` returns a
column pointer, which may be nil; `Run` is `run.Run` on a context whose global
`_` holds the given value, with the value of `_` after the run; `RunArrow` is
`ivy.RunArrow` on a dataframe, a program and a resolver, followed by
`context.Global("_")`. -/
structure Ivy (V : Type) where
  BinaryOps : String → Option (V → V → V)
  NewArrowVector : Column → V
  NewVector : List V → V
  ToArrowColumn : Option V → Except Fault (Option Column)
  NewDataFrameFromColumns : List Column → Except Fault DataFrame
  NewDataFrameFromTable : Table → Except Fault DataFrame
  Run : Option V → String → RunExit × Option V
  RunArrow : DataFrame → String → AnyResolver → Except String (Option V)

/-- What `runIvyString` hands back: `ok`, `err` and the global `_` of the
context after the run. -/
structure Ran (V : Type) where
  ok : Bool
  err : Option String
  underscore : Option V
  deriving DecidableEq, Repr

/-- Go `runIvyString` on a context whose global `_` is `underscore`.  The
deferred function stores a recovered `value.Error` in `err`; its type assertion
panics on any other recovered value. -/
def runIvyString {V : Type} (ivy : Ivy V) (underscore : Option V) (str : String) :
    Except Fault (Ran V) :=
  match ivy.Run underscore str with
  | (RunExit.returned ok, g) => Except.ok { ok := ok, err := none, underscore := g }
  | (RunExit.raised e, g) => Except.ok { ok := false, err := some e, underscore := g }
  | (RunExit.crashed _, _) => Except.error assertPanic

/-- The variables the two closures of `IvyReduce` share: the arguments
`reduceCode`, `opCode` and `opt.Remote`, and `accumulator`. -/
structure Reducer (V : Type) where
  reduceCode : String
  opCode : String
  remote : Bool
  accumulator : Option V
  deriving DecidableEq, Repr

/-- Go `IvyReduce`: the closure state both returned functions start from. -/
def IvyReduce {V : Type} (reduceCode opCode : String) (remote : Bool) : Reducer V :=
  { reduceCode := reduceCode, opCode := opCode, remote := remote, accumulator := none }

/-- Go `concat.EvalBinary(ctxIvy, accumulator, x)` with
`concat := value.BinaryOps[opCode]`: a code that is not in the table gives a nil
operator. -/
def Reducer.combine {V : Type} (ivy : Ivy V) (r : Reducer V) (a x : V) : Except Fault V :=
  match ivy.BinaryOps r.opCode with
  | some op => Except.ok (op a x)
  | none => Except.error nilPanic

/-- Go `reduceFn` of `IvyReduce`: the closure state after the call and the
value returned. -/
def Reducer.reduceFn {V P : Type} (ivy : Ivy V) (r : Reducer V) (prev : P) (v : MapResult V) :
    Except Fault (Reducer V × Returned P) :=
  match v, r.accumulator with
  | MapResult.nil, _ => Except.ok (r, Returned.prev prev)
  | MapResult.dataframe df, none =>
    match getN df 0 with
    | Except.ok col =>
      Except.ok ({ r with accumulator := some (ivy.NewArrowVector col) }, Returned.nil)
    | Except.error e => Except.error e
  | MapResult.value val, none => Except.ok ({ r with accumulator := some val }, Returned.nil)
  | MapResult.other t, none =>
    Except.ok (r, Returned.error ("ivy reduction failed first unexpected type " ++ t))
  | MapResult.dataframe df, some a =>
    match getN df 0 with
    | Except.ok col =>
      match r.combine ivy a (ivy.NewArrowVector col) with
      | Except.ok x => Except.ok ({ r with accumulator := some x }, Returned.nil)
      | Except.error e => Except.error e
    | Except.error e => Except.error e
  | MapResult.value val, some a =>
    match r.combine ivy a val with
    | Except.ok x => Except.ok ({ r with accumulator := some x }, Returned.nil)
    | Except.error e => Except.error e
  | MapResult.other t, some _ =>
    Except.ok (r, Returned.error ("ivy reduction failed unexpected type " ++ t))

/-- The `interface{}` value a caller that starts from nil holds after a call
of the reduce function: nil or an error value. -/
def Returned.held (ret : Returned (Option String)) : Option String :=
  match ret with
  | Returned.prev p => p
  | Returned.nil => none
  | Returned.error msg => some msg

/-- Modelled from the spec: the reduce phase of `mapReduce` (not under src/),
"results arrive in arbitrary order": the map results are fed to the reduce
function one after another in arrival order, each call getting the value the
previous call returned. -/
def feed {V : Type} (ivy : Ivy V) :
    Reducer V → Option String → List (MapResult V) → Except Fault (Reducer V × Option String)
  | r, prev, [] => Except.ok (r, prev)
  | r, prev, v :: rest =>
    match r.reduceFn ivy prev v with
    | Except.ok (r1, ret) => feed ivy r1 ret.held rest
    | Except.error e => Except.error e

/-- The accumulator after the map results were fed to a fresh reduce function. -/
def finalAccumulator {V : Type} (ivy : Ivy V) (r : Reducer V) (results : List (MapResult V)) :
    Except Fault (Option V) :=
  match feed ivy r none results with
  | Except.ok (r1, _) => Except.ok r1.accumulator
  | Except.error e => Except.error e

/-- The ivy value a map result brings to the accumulator: a value itself, a
dataframe the arrow vector of its first column, a nil result or a result of
another type nothing. -/
def MapResult.contribution {V : Type} (ivy : Ivy V) : MapResult V → Option V
  | MapResult.value val => some val
  | MapResult.dataframe (col :: _) => some (ivy.NewArrowVector col)
  | _ => none

/-- The accumulator one more value leaves, written with the combine operation
`op`: the value itself when nothing is stored yet, `op a v` otherwise. -/
def accumulate {V : Type} (op : V → V → V) (acc : Option V) (v : V) : Option V :=
  match acc with
  | none => some v
  | some a => some (op a v)

/-- What a call of the finalize function did: the runs of the reduce program it
started, each with the value bound to `_` and the program, and its result. -/
structure Finalized (V : Type) where
  runs : List (Option V × String)
  result : Except Fault DataFrame
  deriving DecidableEq, Repr

/-- Go `value.ToArrowColumn(v, pool)` followed by
`dataframe.NewDataFrameFromColumns(pool, []arrow.Column{*col})`. -/
def oneColumnFrame {V : Type} (ivy : Ivy V) (v : Option V) : Except Fault DataFrame :=
  match ivy.ToArrowColumn v with
  | Except.ok (some col) => ivy.NewDataFrameFromColumns [col]
  | Except.ok none => Except.error nilPanic
  | Except.error e => Except.error e

/-- Go `tablerFn` of `IvyReduce`. -/
def Reducer.tablerFn {V : Type} (ivy : Ivy V) (r : Reducer V) : Finalized V :=
  if r.remote then { runs := [], result := oneColumnFrame ivy r.accumulator }
  else
    match runIvyString ivy r.accumulator r.reduceCode with
    | Except.error e => { runs := [(r.accumulator, r.reduceCode)], result := Except.error e }
    | Except.ok ran =>
      match ran.err with
      | some e =>
        { runs := [(r.accumulator, r.reduceCode)], result := Except.error (Fault.error e) }
      | none =>
        if ran.ok then
          match ran.underscore with
          | none =>
            { runs := [(r.accumulator, r.reduceCode)],
              result := Except.error (Fault.error "ivy reduction no result ") }
          | some g =>
            { runs := [(r.accumulator, r.reduceCode)], result := oneColumnFrame ivy (some g) }
        else
          { runs := [(r.accumulator, r.reduceCode)],
            result := Except.error (Fault.error "ivy reduction failed ") }

/-- The closure state `executeApply` builds for the reduction, from what
`c.StringArg("_ivyReduce")` returned: `IvyReduce("_", ",", opt)`, replaced by
`IvyReduce(ivyReduce, ",", opt)` when the argument is there. -/
def applyReducer {V : Type} (ivyReduce : String) (ok : Bool) (remote : Bool) : Reducer V :=
  if ok then IvyReduce ivyReduce "," remote else IvyReduce "_" "," remote

/-! ## The read path: executeApplyShard -/

/-- Modelled from the spec: a bitmap `Row` (not under src/) as the read path
uses it, "RowFilter: a set of row ids ... shard-relative after un-sharding":
the ids `ShardColumns()` lists. -/
structure Row where
  columns : List Int
  deriving DecidableEq, Repr

/-- Modelled from the spec: `(*Row).Any()`, not under src/: the row has a set
bit. -/
def Row.Any (r : Row) : Bool := !r.columns.isEmpty

/-- Modelled from the spec: `filter.ShardColumns()` on the `*Row` variable
`filter`, not under src/; a nil filter lists no ids. -/
def ShardColumns (filter : Option Row) : List Int :=
  match filter with
  | some r => r.columns
  | none => []

/-- What `executeApplyShard` reads of its call and of the executor:
`c.StringArg("_ivy")` (value, found, error), `len(c.Children)`, what
`e.executeBitmapCallShard` returns for `c.Children[0]` on the shard, the index
name, and `idx.GetDataFramePath(shard)` of `e.Holder.Index(index)` (none for a
nil index). -/
structure ApplyCall where
  ivyArg : String × Bool × Option String
  children : Nat
  bitmap : Except Fault Row
  index : String
  dataframePath : Option String
  deriving DecidableEq, Repr

/-- What a call of `executeApplyShard` did: the evaluator invocations, each
with the program and the resolver, and the returned pair, where `ok none` is a
nil value with a nil error. -/
structure ShardOutcome (V : Type) where
  evaluations : List (String × AnyResolver)
  result : Except Fault (Option V)
  deriving DecidableEq, Repr

/-- Go `errors.Wrap(err, msg)` of pkg/errors (not under src/): nil for a nil
error. -/
def wrapError (err : Option String) (msg : String) : Option String :=
  err.map (fun e => msg ++ ": " ++ e)

/-- Go `return nil, err` for an error value that may be nil. -/
def returnNil {V : Type} (err : Option String) : Except Fault (Option V) :=
  match err with
  | some e => Except.error (Fault.error e)
  | none => Except.ok none

/-- The end of `executeApplyShard`: `ivy.RunArrow` on the dataframe with the
resolver, then `context.Global("_")`. -/
def evaluate {V : Type} (ivy : Ivy V) (df : DataFrame) (ivyProgram : String)
    (resolver : AnyResolver) : ShardOutcome V :=
  match ivy.RunArrow df ivyProgram resolver with
  | Except.ok g => { evaluations := [(ivyProgram, resolver)], result := Except.ok g }
  | Except.error e =>
    { evaluations := [(ivyProgram, resolver)],
      result := Except.error (Fault.error ("ivy map error: " ++ e)) }

/-- Go `executeApplyShard` from the chunk resolver on: the filter, when there
is one, is turned into an index resolver, then the program is evaluated. -/
def evaluateFiltered {V : Type} (ivy : Ivy V) (ShardWidth : Nat) (df : DataFrame)
    (ivyProgram : String) (filter : Option Row) (p : ChunkResolver) : ShardOutcome V :=
  match filter with
  | none => evaluate ivy df ivyProgram (AnyResolver.chunk p)
  | some _ =>
    if (ShardColumns filter).length = 0 then
      { evaluations := [], result := Except.ok (some (ivy.NewVector [])) }
    else
      match filterDataframe ShardWidth p.toResolver (ShardColumns filter) with
      | Except.ok ir => evaluate ivy df ivyProgram (AnyResolver.index ir)
      | Except.error e => { evaluations := [], result := Except.error e }

/-- Go `executeApplyShard` from the index lookup on. -/
def readShard {V : Type} (ivy : Ivy V) (ShardWidth : Nat) (d : Disk) (c : ApplyCall)
    (ivyProgram : String) (filter : Option Row) : ShardOutcome V :=
  match c.dataframePath with
  | none =>
    { evaluations := [], result := Except.error (Fault.error ("index not found: " ++ c.index)) }
  | some fname =>
    match d.files (fname ++ ".parquet") with
    | none => { evaluations := [], result := Except.ok (some (ivy.NewVector [])) }
    | some _ =>
      match readTableParquet d fname with
      | Except.error e => { evaluations := [], result := Except.error e }
      | Except.ok table =>
        match ivy.NewDataFrameFromTable table with
        | Except.error e => { evaluations := [], result := Except.error e }
        | Except.ok df =>
          match getN df 0 with
          | Except.error e => { evaluations := [], result := Except.error e }
          | Except.ok col =>
            evaluateFiltered ivy ShardWidth df ivyProgram filter (NewChunkResolver col)

/-- Go `executeApplyShard` on the file system `d`. -/
def executeApplyShard {V : Type} (ivy : Ivy V) (ShardWidth : Nat) (d : Disk) (c : ApplyCall) :
    ShardOutcome V :=
  if c.ivyArg.2.2.isSome || !c.ivyArg.2.1 then
    { evaluations := [], result := returnNil (wrapError c.ivyArg.2.2 "finding ivy program") }
  else if c.children = 1 then
    match c.bitmap with
    | Except.error e => { evaluations := [], result := Except.error e }
    | Except.ok row =>
      if !row.Any then { evaluations := [], result := Except.ok (some (ivy.NewVector [])) }
      else readShard ivy ShardWidth d c c.ivyArg.1 (some row)
  else readShard ivy ShardWidth d c c.ivyArg.1 none

/-! ## The schema endpoint -/

/-- Go struct `column` of apply.go (the Go field `Type` is `Typ` here). -/
structure column where
  Name : String
  Typ : String
  deriving DecidableEq, Repr

/-- Modelled from the spec: `col.DataType().String()` of package arrow, not
under src/: the name of the type, "column names/types". -/
def typeString (d : DataType) : String :=
  match d with
  | DataType.int64 => "int64"
  | DataType.float64 => "float64"
  | DataType.other name => name

/-- Go `strings.HasSuffix(s, suffix)`. -/
def HasSuffix (s suffix : String) : Bool := suffix.data.isSuffixOf s.data

/-- Go `filepath.Ext(path)`: the suffix that starts at the last dot of the last
element of `path`, empty when that element has no dot. -/
def Ext (path : String) : String :=
  let tail := path.data.reverse.takeWhile (fun ch => ch ≠ '.' && ch ≠ '/')
  match path.data.reverse.drop tail.length with
  | '.' :: _ => String.mk ('.' :: tail.reverse)
  | _ => ""

/-- Go `strings.TrimSuffix(s, suffix)`. -/
def TrimSuffix (s suffix : String) : String :=
  if HasSuffix s suffix then String.mk (s.data.take (s.data.length - suffix.data.length)) else s

/-- Go `filepath.Join(base, name)` for a clean `base` and a `name` without
separators: empty elements are ignored, the others joined by a slash. -/
def Join (base name : String) : String :=
  if base = "" then name
  else if name = "" then base
  else base ++ "/" ++ name

/-- The inner loop of `GetDataframeSchema`: one `column` per column of the
table, in column order. -/
def schemaParts (table : Table) : List column :=
  table.cols.map (fun col => { Name := col.field.Name, Typ := typeString col.DataType })

/-- The file loop of `GetDataframeSchema` over the names of the directory
listing, with its `break` after the first name that ends in ".parquet". -/
def schemaOfFirst (base : String) (d : Disk) : List String → Except Fault (List column)
  | [] => Except.ok []
  | name :: rest =>
    if HasSuffix name ".parquet" then
      match readTableParquet d (Join base (TrimSuffix name (Ext name))) with
      | Except.ok table => Except.ok (schemaParts table)
      | Except.error e => Except.error e
    else schemaOfFirst base d rest

/-- Go `(*API).GetDataframeSchema` on the file system `d`.  `index` is what
`api.Index` returned, with `idx.DataframesPath()` for an index; `files` are the
names `dir.Readdir(0)` returned, in its order (none when the directory could
not be opened or read: both errors are dropped). -/
def GetDataframeSchema (index : Except Fault String) (files : List String) (d : Disk) :
    Except Fault (List column) :=
  match index with
  | Except.error e => Except.error e
  | Except.ok base => schemaOfFirst base d files

/-! ## The queryer -/

/-- A Go string of queryer.go that is indexed and sliced: the sequence of its
bytes, each written as the character with that code. -/
abbrev Bytes := List Char

/-- A `dax.BaseType` (package dax, not under src/): the constants the queryer
names. -/
inductive BaseType where
  | BaseTypeString
  | BaseTypeID
  | BaseTypeInt
  | BaseTypeBool
  | BaseTypeDecimal
  | BaseTypeTimestamp
  | BaseTypeStringSet
  | BaseTypeIDSet
  deriving DecidableEq, Repr

/-- A value held in a `[]interface{}` row of a response. -/
inductive WireValue where
  | str (s : String)
  | uint64 (n : Nat)
  | int64 (i : Int)
  | bool (b : Bool)
  | blob (bytes : List Nat)
  | uint64Array (ns : List Nat)
  | stringArray (ss : List String)
  | float64 (bits : Int)
  | decimal (value scale : Int)
  | timestamp (s : String)
  deriving DecidableEq, Repr

/-- The `Type` string of a `WireQueryField`: the lowered type description of a
plan column, or the string of a base type. -/
inductive FieldType where
  | description (s : String)
  | base (b : BaseType)
  deriving DecidableEq, Repr

/-- Go struct `featurebase.WireQueryField` (the Go field `Type` is `Typ`). -/
structure WireQueryField where
  Name : String
  Typ : FieldType
  BaseType : BaseType
  TypeInfo : String
  deriving DecidableEq, Repr

/-- Go struct `featurebase.WireQueryResponse`, the fields queryer.go sets. -/
structure WireQueryResponse where
  Schema : List WireQueryField
  Data : List (List WireValue)
  Error : String
  ExecutionTime : Int
  deriving DecidableEq, Repr

/-- Go `&featurebase.WireQueryResponse{}`: every field at its zero value. -/
def WireQueryResponse.zero : WireQueryResponse :=
  { Schema := [], Data := [], Error := "", ExecutionTime := 0 }

/-- A column of the plan's schema, as `QuerySQL` reads it: `ColumnName`,
`Type.TypeDescription()`, `Type.BaseTypeName()` and `Type.TypeInfo()`. -/
structure PlanColumn where
  ColumnName : String
  TypeDescription : String
  BaseTypeName : String
  TypeInfo : String
  deriving DecidableEq, Repr

/-- What the row iterator of a plan hands to the read loop of `QuerySQL`: the
rows of the calls of `Next` that return no error, then the error that ends the
loop, `none` for `plannertypes.ErrNoMoreRows`. -/
structure RowIterator where
  rows : List (List WireValue)
  stop : Option String
  deriving DecidableEq, Repr

/-- A compiled plan as `QuerySQL` uses it: what `planOp.Iterator` returns and
`planOp.Schema()`. -/
structure PlanOp where
  Iterator : Except String RowIterator
  Schema : List PlanColumn
  deriving DecidableEq, Repr

/-- Modelled from the spec: the collaborators of the queryer that are not under
src/, "external collaborator", as what each of their calls returns for the
query at hand (an error is given by its message): `uuid.NewV4`,
`ParseStatement`, whether `q.orchestrator` is set, `CompilePlan`,
`dax.BaseTypeFromString`, `strings.ToLower`, the microseconds `time.Since`
gives, and `QueryPQL` for a table name and a query. -/
structure Queryer where
  NewV4 : Except String String
  ParseStatement : Except String Unit
  orchestrator : Bool
  CompilePlan : Except String PlanOp
  BaseTypeFromString : String → Except String BaseType
  ToLower : String → String
  elapsed : Int
  QueryPQL : Bytes → Bytes → Except Fault WireQueryResponse

/-- Modelled from the spec: `errors.Wrap(err, msg).Error()` of the package
featurebase/errors, not under src/: the message put before the error's. -/
def wrapMessage (err : String) (msg : String) : String := msg ++ ": " ++ err

/-- The closure `applyError` of `QuerySQL` followed by `return ret, nil`: the
response with the error's text and the execution time. -/
def Queryer.applyError (q : Queryer) (ret : WireQueryResponse) (e : String) :
    WireQueryResponse :=
  { ret with Error := e, ExecutionTime := q.elapsed }

/-- The schema loop of `QuerySQL`: one field per column, or the error of the
first column whose base type name is not known. -/
def Queryer.schemaFields (q : Queryer) : List PlanColumn → Except String (List WireQueryField)
  | [] => Except.ok []
  | col :: rest =>
    match q.BaseTypeFromString col.BaseTypeName with
    | Except.error e => Except.error e
    | Except.ok btype =>
      match q.schemaFields rest with
      | Except.error e => Except.error e
      | Except.ok fields =>
        Except.ok ({ Name := col.ColumnName,
                     Typ := FieldType.description (q.ToLower col.TypeDescription),
                     BaseType := btype, TypeInfo := col.TypeInfo } :: fields)

/-- The loop of `parseAndQueryPQL` with the counter at `i` and `rest` the bytes
of `sql` from position `i` on: the position of the first ']' or the error of
the loop body; reading `sql[i]` past the end is an index fault. -/
def scanTable (sql : Bytes) : Bytes → Nat → Except Fault Nat
  | [], _ => Except.error indexPanic
  | ch :: rest, i =>
    if ch ≠ ']' then
      if (i : Int) = (sql.length : Int) - 1 then
        Except.error (Fault.error
          ("couldn't parse table name out of '" ++ String.mk sql ++ "'"))
      else scanTable sql rest (i + 1)
    else Except.ok i

/-- Go `(*Queryer).parseAndQueryPQL`. -/
def Queryer.parseAndQueryPQL (q : Queryer) (sql : Bytes) : Except Fault WireQueryResponse :=
  match scanTable sql (sql.drop 1) 1 with
  | Except.error e => Except.error e
  | Except.ok i => q.QueryPQL ((sql.take i).drop 1) (sql.drop (i + 1))

/-- Go `(*Queryer).QuerySQL` after the test for '[': the SQL path.  A result
`ok ret` is the pair of the response `ret` and a nil error. -/
def Queryer.querySQLPath (q : Queryer) : Except Fault WireQueryResponse :=
  let ret := WireQueryResponse.zero
  match q.NewV4 with
  | Except.error e => Except.ok (q.applyError ret (wrapMessage e "creating requestID"))
  | Except.ok _ =>
    match q.ParseStatement with
    | Except.error e => Except.ok (q.applyError ret (wrapMessage e "parsing sql"))
    | Except.ok _ =>
      if !q.orchestrator then Except.error nilPanic
      else
        match q.CompilePlan with
        | Except.error e => Except.ok (q.applyError ret (wrapMessage e "compiling plan"))
        | Except.ok planOp =>
          match planOp.Iterator with
          | Except.error e => Except.ok (q.applyError ret (wrapMessage e "getting iterator"))
          | Except.ok iter =>
            match q.schemaFields planOp.Schema with
            | Except.error e =>
              Except.ok (q.applyError ret (wrapMessage e "getting fieldtype from string"))
            | Except.ok fields =>
              match iter.stop with
              | some e => Except.ok (q.applyError ret (wrapMessage e "getting row"))
              | none =>
                Except.ok { ret with Schema := fields, Data := iter.rows,
                                     ExecutionTime := q.elapsed }

/-- Go `(*Queryer).QuerySQL`. -/
def Queryer.QuerySQL (q : Queryer) (sql : Bytes) : Except Fault WireQueryResponse :=
  match sql with
  | '[' :: _ => q.parseAndQueryPQL sql
  | _ => q.querySQLPath

/-- Go struct `fbproto.ColumnInfo`, the fields queryer.go reads. -/
structure ColumnInfo where
  Name : String
  Datatype : String
  deriving DecidableEq, Repr

/-- Modelled from the spec: an `fbproto.ColumnResponse` (generated protobuf
code, not under src/) as what each of its getters returns; `GetDecimalVal`
returns a pointer, nil when the column holds no decimal. -/
structure ColumnResponse where
  StringVal : String
  Uint64Val : Nat
  Int64Val : Int
  BoolVal : Bool
  BlobVal : List Nat
  Uint64ArrayVal : List Nat
  StringArrayVal : List String
  Float64Val : Int
  DecimalVal : Option (Int × Int)
  TimestampVal : String
  deriving DecidableEq, Repr

/-- Go struct `fbproto.TableResponse`: headers and rows (`row.Columns` of each
row); none of the pointers it holds is nil. -/
structure TableResponse where
  Headers : List ColumnInfo
  Rows : List (List ColumnResponse)
  deriving DecidableEq, Repr

/-- Go `datatypeToBaseType`. -/
def datatypeToBaseType (ciDatatype : String) : Except Fault BaseType :=
  if ciDatatype = "string" then Except.ok BaseType.BaseTypeString
  else if ciDatatype = "uint64" then Except.ok BaseType.BaseTypeID
  else if ciDatatype = "float64" then
    Except.error (Fault.panic "float64 doesn't have sql3 field type?")
  else if ciDatatype = "int64" then Except.ok BaseType.BaseTypeInt
  else if ciDatatype = "bool" then Except.ok BaseType.BaseTypeBool
  else if ciDatatype = "decimal" then Except.ok BaseType.BaseTypeDecimal
  else if ciDatatype = "timestamp" then Except.ok BaseType.BaseTypeTimestamp
  else if ciDatatype = "[]string" then Except.ok BaseType.BaseTypeStringSet
  else if ciDatatype = "[]uint64" then Except.ok BaseType.BaseTypeIDSet
  else Except.error (Fault.panic ("unknown ColumnInfo Datatype: " ++ ciDatatype))

/-- The switch of `rowToSliceInterface` for one column: the value stored in
`ret[i]`. -/
def columnValue (datatype : String) (col : ColumnResponse) : Except Fault WireValue :=
  if datatype = "string" then Except.ok (WireValue.str col.StringVal)
  else if datatype = "uint64" then Except.ok (WireValue.uint64 col.Uint64Val)
  else if datatype = "int64" then Except.ok (WireValue.int64 col.Int64Val)
  else if datatype = "bool" then Except.ok (WireValue.bool col.BoolVal)
  else if datatype = "[]byte" then Except.ok (WireValue.blob col.BlobVal)
  else if datatype = "[]uint64" then Except.ok (WireValue.uint64Array col.Uint64ArrayVal)
  else if datatype = "[]string" then Except.ok (WireValue.stringArray col.StringArrayVal)
  else if datatype = "float64" then Except.ok (WireValue.float64 col.Float64Val)
  else if datatype = "decimal" then
    match col.DecimalVal with
    | some dec => Except.ok (WireValue.decimal dec.1 dec.2)
    | none => Except.error nilPanic
  else if datatype = "timestamp" then Except.ok (WireValue.timestamp col.TimestampVal)
  else
    Except.error
      (Fault.panic ("don't know how to get value for columninfo datatype " ++ datatype))

/-- The loop of `rowToSliceInterface` from column `i` on. -/
def rowValues (header : List ColumnInfo) :
    Nat → List ColumnResponse → Except Fault (List WireValue)
  | _, [] => Except.ok []
  | i, col :: rest =>
    match getN header i with
    | Except.error e => Except.error e
    | Except.ok h =>
      match columnValue h.Datatype col with
      | Except.error e => Except.error e
      | Except.ok v =>
        match rowValues header (i + 1) rest with
        | Except.error e => Except.error e
        | Except.ok vs => Except.ok (v :: vs)

/-- Go `rowToSliceInterface`. -/
def rowToSliceInterface (header : List ColumnInfo) (row : List ColumnResponse) :
    Except Fault (List WireValue) :=
  rowValues header 0 row

/-- The header loop of `tableResponseToQueryResult`. -/
def headerFields : List ColumnInfo → Except Fault (List WireQueryField)
  | [] => Except.ok []
  | ci :: rest =>
    match datatypeToBaseType ci.Datatype with
    | Except.error e => Except.error e
    | Except.ok b =>
      match headerFields rest with
      | Except.error e => Except.error e
      | Except.ok fields =>
        Except.ok ({ Name := ci.Name, Typ := FieldType.base b, BaseType := b, TypeInfo := "" }
          :: fields)

/-- The row loop of `tableResponseToQueryResult`. -/
def rowsData (header : List ColumnInfo) : List (List ColumnResponse) →
    Except Fault (List (List WireValue))
  | [] => Except.ok []
  | row :: rest =>
    match rowToSliceInterface header row with
    | Except.error e => Except.error e
    | Except.ok vs =>
      match rowsData header rest with
      | Except.error e => Except.error e
      | Except.ok data => Except.ok (vs :: data)

/-- Go `tableResponseToQueryResult`. -/
def tableResponseToQueryResult (t : TableResponse) : Except Fault WireQueryResponse :=
  match headerFields t.Headers with
  | Except.error e => Except.error e
  | Except.ok fields =>
    match rowsData t.Headers t.Rows with
    | Except.error e => Except.error e
    | Except.ok data =>
      Except.ok { Schema := fields, Data := data, Error := "", ExecutionTime := 0 }

/-! ## Sample data of the read path -/

/-- Modelled from the spec: ivy's binary `,` on vectors, "vector catenation";
a vector is the list of its cells. -/
def catenate (a x : List Int) : List Int := a ++ x

/-- A one-chunk Int64 column `_` holding the given cells. -/
def cellsColumn (cells : List Int) : Column :=
  { field := { Name := "_", Typ := DataType.int64 },
    chunks := [{ elem := DataType.int64, data := cells }] }

/-- An interpreter over vectors of integers for the examples: `,` is
catenation, a column is the vector of its cells, a reduce program leaves `_`
as it is and a map program assigns no global. -/
def vectorIvy : Ivy (List Int) :=
  { BinaryOps := fun code => if code = "," then some catenate else none,
    NewArrowVector := Column.flat,
    NewVector := List.flatten,
    ToArrowColumn := fun v => Except.ok (v.map cellsColumn),
    NewDataFrameFromColumns := fun cols => Except.ok cols,
    NewDataFrameFromTable := fun t => Except.ok t.cols,
    Run := fun u _ => (RunExit.returned true, u),
    RunArrow := fun _ _ _ => Except.ok none }

/-- An interpreter over integers for the examples: `+` is addition; a column
counts as the sum of its cells. -/
def scalarIvy : Ivy Int :=
  { BinaryOps := fun code => if code = "+" then some (fun a x => a + x) else none,
    NewArrowVector := fun c => c.flat.sum,
    NewVector := List.sum,
    ToArrowColumn := fun v => Except.ok (v.map (fun n => cellsColumn [n])),
    NewDataFrameFromColumns := fun cols => Except.ok cols,
    NewDataFrameFromTable := fun t => Except.ok t.cols,
    Run := fun u _ => (RunExit.returned true, u),
    RunArrow := fun _ _ _ => Except.ok none }

/-- The resolver of the first column of `sampleTable`: two chunks of one row. -/
def sampleResolver : Resolver := (ChunkResolver.mk [1, 1]).toResolver

/-- An Apply call with program `_` and one filter child whose bitmap has no set
bit on the shard. -/
def emptyFilterCall : ApplyCall :=
  { ivyArg := ("_", true, none), children := 1, bitmap := Except.ok { columns := [] },
    index := "i", dataframePath := some "shard" }

/-- An Apply call with program `_` and no filter child. -/
def unfilteredCall : ApplyCall :=
  { ivyArg := ("_", true, none), children := 0, bitmap := Except.ok { columns := [] },
    index := "i", dataframePath := some "shard" }

/-! ## Faults of the run time -/

/-- The faults the Go run time raises by itself: an index out of range, a
failed type assertion, a nil dereference, a slice length `make` refuses; the
explicit `panic` calls of the source are not among them. -/
def Fault.Runtime (e : Fault) : Prop :=
  e = indexPanic ∨ e = assertPanic ∨ e = nilPanic ∨ e = makeslicePanic

/-- Every column of the table has one of the two supported types. -/
def Table.Supported (t : Table) : Prop :=
  ∀ c ∈ t.cols, c.field.Typ = DataType.int64 ∨ c.field.Typ = DataType.float64

/-! ## Sample data of the later claims -/

/-- A changeset for column `a` whose row ids `[3, 1]` are not sorted. -/
def unsortedChangeset : ChangesetRequest :=
  { ShardIds := [3, 1],
    Columns := [{ elem := DataType.int64, data := [77, 88] }],
    SimpleSchema := [{ Name := "a", DataType := DataType.int64 }] }

/-- A changeset for column `a` whose row ids `[0, 1]` are both below the two
rows of `sampleTable`. -/
def inPlaceChangeset : ChangesetRequest :=
  { ShardIds := [0, 1],
    Columns := [{ elem := DataType.int64, data := [5, 6] }],
    SimpleSchema := [{ Name := "a", DataType := DataType.int64 }] }

/-- A changeset for column `a` with no row id. -/
def emptyChangeset : ChangesetRequest :=
  { ShardIds := [],
    Columns := [{ elem := DataType.int64, data := [] }],
    SimpleSchema := [{ Name := "a", DataType := DataType.int64 }] }

/-- A changeset for column `a` whose one row id is the largest `int64`,
2^63 - 1. -/
def hugeChangeset : ChangesetRequest :=
  { ShardIds := [9223372036854775807],
    Columns := [{ elem := DataType.int64, data := [7] }],
    SimpleSchema := [{ Name := "a", DataType := DataType.int64 }] }

/-- A changeset without column whose one row id is the largest `int64`. -/
def hugeBareChangeset : ChangesetRequest :=
  { ShardIds := [9223372036854775807], Columns := [], SimpleSchema := [] }

/-- A world with no file whose operating system refuses every rename. -/
def renameRefused : World :=
  { disk := { files := fun _ => none, log := [], createFails := fun _ => false,
              writeFails := fun _ => false, renameFails := fun _ => true },
    registry := LockRegistry.init }

/-- The file system after `sampleChangeset` was applied to shard 0 at path
`df/0` of `renameRefused`: the commit stopped between `Save` and the rename. -/
def uncommittedDisk : Disk :=
  (ApplyDataframeChangeset renameRefused "df/0" sampleChangeset 0).1.disk

/-- A file system that holds the committed shard file `df/1.parquet` and a
half-written temporary file `df/0.temp.parquet`. -/
def halfWrittenDisk : Disk :=
  { files := fun path =>
      if path = "df/1.parquet" then some (File.parquet sampleTable)
      else if path = "df/0.temp.parquet" then some File.corrupt
      else none,
    log := [],
    createFails := fun _ => false,
    writeFails := fun _ => false,
    renameFails := fun _ => false }

/-- A plan with one column `n` and two rows. -/
def samplePlan : PlanOp :=
  { Iterator := Except.ok { rows := [[WireValue.int64 1], [WireValue.int64 2]], stop := none },
    Schema := [{ ColumnName := "n", TypeDescription := "INT", BaseTypeName := "int",
                 TypeInfo := "" }] }

/-- A queryer whose collaborators all succeed on the query at hand. -/
def sampleQueryer : Queryer :=
  { NewV4 := Except.ok "id",
    ParseStatement := Except.ok (),
    orchestrator := true,
    CompilePlan := Except.ok samplePlan,
    BaseTypeFromString := fun s =>
      if s = "int" then Except.ok BaseType.BaseTypeInt else Except.error "invalid field type",
    ToLower := fun s => s,
    elapsed := 7,
    QueryPQL := fun _ _ => Except.ok WireQueryResponse.zero }

/-- A queryer whose parser rejects the query at hand. -/
def failingQueryer : Queryer := { sampleQueryer with ParseStatement := Except.error "bad" }

/-- A column response that holds the decimal 1.25. -/
def decimalColumn : ColumnResponse :=
  { StringVal := "", Uint64Val := 0, Int64Val := 0, BoolVal := false, BlobVal := [],
    Uint64ArrayVal := [], StringArrayVal := [], Float64Val := 0, DecimalVal := some (125, 2),
    TimestampVal := "" }

/-- A column response that holds the string `x`. -/
def stringColumn : ColumnResponse :=
  { StringVal := "x", Uint64Val := 0, Int64Val := 0, BoolVal := false, BlobVal := [],
    Uint64ArrayVal := [], StringArrayVal := [], Float64Val := 0, DecimalVal := none,
    TimestampVal := "" }

/-- A table response with a string and a decimal column and one row. -/
def sampleResponse : TableResponse :=
  { Headers := [{ Name := "s", Datatype := "string" }, { Name := "d", Datatype := "decimal" }],
    Rows := [[stringColumn, decimalColumn]] }

/-! ## Auxiliary lemmas -/

theorem loopFrom_inv {σ : Type} (body : Nat → σ → Except Fault σ) (Inv : Nat → σ → Prop) (n : Nat)
    (hstep : ∀ i s, i < n → Inv i s → ∃ s1, body i s = Except.ok s1 ∧ Inv (i + 1) s1) :
    ∀ k i s, i + k = n → Inv i s → ∃ s1, loopFrom body k i s = Except.ok s1 ∧ Inv n s1 := by
  intro k
  induction k with
  | zero =>
    intro i s hik hinv
    simp at hik
    subst hik
    exact ⟨s, rfl, hinv⟩
  | succ k ih =>
    intro i s hik hinv
    obtain ⟨s1, hs1, hinv1⟩ := hstep i s (by omega) hinv
    obtain ⟨s2, hs2, hinv2⟩ := ih (i + 1) s1 (by omega) hinv1
    exact ⟨s2, by simp [loopFrom, hs1, hs2], hinv2⟩

theorem forRange_inv {σ : Type} (body : Nat → σ → Except Fault σ) (Inv : Nat → σ → Prop) (n : Nat)
    (s : σ) (h0 : Inv 0 s)
    (hstep : ∀ i s, i < n → Inv i s → ∃ s1, body i s = Except.ok s1 ∧ Inv (i + 1) s1) :
    ∃ s1, forRange n body s = Except.ok s1 ∧ Inv n s1 :=
  loopFrom_inv body Inv n hstep n 0 s (by omega) h0

theorem length_writeAll (pos : List Nat) :
    ∀ (init vals : List Int), (writeAll init pos vals).length = init.length := by
  induction pos with
  | nil => intro init vals; simp [writeAll]
  | cons q pos ih =>
    intro init vals
    cases vals with
    | nil => simp [writeAll]
    | cons x vals => simp [writeAll, ih]

theorem writeAll_get_of_not_mem (pos : List Nat) (q : Nat) (hq : q ∉ pos) :
    ∀ (init vals : List Int), (writeAll init pos vals)[q]? = init[q]? := by
  induction pos with
  | nil => intro init vals; simp [writeAll]
  | cons q0 pos ih =>
    intro init vals
    simp only [List.mem_cons, not_or] at hq
    cases vals with
    | nil => simp [writeAll]
    | cons x vals =>
      simp only [writeAll]
      rw [ih hq.2, List.getElem?_set_ne (Ne.symm hq.1)]

theorem writeAll_get_last (pos : List Nat) (q : Nat) (x : Int) :
    ∀ (init vals : List Int) (j : Nat), pos[j]? = some q → vals[j]? = some x → q < init.length →
      (∀ j1, j < j1 → pos[j1]? ≠ some q) → (writeAll init pos vals)[q]? = some x := by
  induction pos with
  | nil => intro init vals j hj; simp at hj
  | cons q0 pos ih =>
    intro init vals j hj hv hlen hlast
    cases vals with
    | nil => simp at hv
    | cons x0 vals =>
      simp only [writeAll]
      cases j with
      | zero =>
        simp at hj hv
        subst hj hv
        have hnot : q0 ∉ pos := by
          intro hmem
          obtain ⟨j1, hj1, hget⟩ := List.getElem_of_mem hmem
          exact hlast (j1 + 1) (by omega) (by simp [List.getElem?_eq_getElem hj1, hget])
        rw [writeAll_get_of_not_mem pos q0 hnot]
        simp [hlen]
      | succ j =>
        simp at hj hv
        apply ih (init.set q0 x0) vals j hj hv (by simpa using hlen)
        intro j1 hj1
        have := hlast (j1 + 1) (by omega)
        simpa using this

theorem flat_length (chunks : List Values) :
    ((chunks.map Values.data).flatten).length = (chunks.map (fun v => v.data.length)).sum := by
  simp [List.length_flatten, List.map_map, Function.comp_def]

theorem resolveFrom_flat (chunks : List Values) :
    ∀ (c idx : Nat), idx < ((chunks.map Values.data).flatten).length →
      ∃ k l arr, resolveFrom (chunks.map (fun v => v.data.length)) c idx = some (c + k, l) ∧
        chunks[k]? = some arr ∧ l < arr.data.length ∧
        arr.data[l]? = ((chunks.map Values.data).flatten)[idx]? ∧
        ∀ x : Int, ((chunks.set k { arr with data := arr.data.set l x }).map Values.data).flatten
          = ((chunks.map Values.data).flatten).set idx x := by
  induction chunks with
  | nil => intro c idx h; simp at h
  | cons a rest ih =>
    intro c idx h
    by_cases hlt : idx < a.data.length
    · refine ⟨0, idx, a, ?_, ?_, hlt, ?_, ?_⟩
      · simp [resolveFrom, hlt]
      · simp
      · simp [List.getElem?_append_left hlt]
      · intro x
        simp [List.set_append_left _ _ hlt]
    · have hge : a.data.length ≤ idx := by omega
      have h1 : idx - a.data.length < ((rest.map Values.data).flatten).length := by
        simp only [List.map_cons, List.flatten_cons, List.length_append] at h
        omega
      obtain ⟨k, l, arr, hres, hget, hl, hval, hset⟩ := ih (c + 1) (idx - a.data.length) h1
      refine ⟨k + 1, l, arr, ?_, ?_, hl, ?_, ?_⟩
      · simp [resolveFrom, hlt, hres]
        omega
      · simpa using hget
      · simp [List.getElem?_append_right hge, hval]
      · intro x
        have hx := hset x
        simp only [List.set_cons_succ, List.map_cons, List.flatten_cons]
        rw [hx, List.set_append_right _ _ hge]

theorem writeChunk_ok (lens : List Nat) (f : Field) (cs : ChangesetRequest) (t : Table)
    (c : Column) (src : Values) (r chunk l i k : Nat) (x : Int)
    (hres : resolveFrom lens 0 r = some (chunk, l)) (hr : r < lens.sum)
    (hok : ColumnOK lens f c) (hsrc : cs.Columns[k]? = some src) (helem : src.elem = f.Typ)
    (hx : src.data[i]? = some x) :
    ∃ c1, writeChunk f.Typ t cs c chunk l i k = Except.ok { t with cols := t.cols.set k c1 } ∧
      ColumnOK lens f c1 ∧ c1.flat = c.flat.set r x := by
  obtain ⟨hfield, hlens, helems, hsup⟩ := hok
  have hlen : r < ((c.chunks.map Values.data).flatten).length := by
    rw [flat_length]
    have : c.chunks.map (fun v => v.data.length) = lens := hlens
    rw [this]; exact hr
  obtain ⟨k1, l1, arr, hres1, hget, hl, _, hset⟩ := resolveFrom_flat c.chunks 0 r hlen
  have hlens1 : c.chunks.map (fun v => v.data.length) = lens := hlens
  rw [hlens1, hres] at hres1
  simp at hres1
  obtain ⟨hk1, hl1⟩ := hres1
  subst hk1 hl1
  have harr : arr.elem = f.Typ := by
    obtain ⟨hlt, heq⟩ := List.getElem?_eq_some.mp hget
    exact helems arr (heq ▸ List.getElem_mem hlt)
  refine ⟨{ c with chunks := c.chunks.set chunk { arr with data := arr.data.set l x } }, ?_, ?_, ?_⟩
  · simp [writeChunk, getN, setN, hget, harr, hsrc, helem, hx, hl, bind, Except.bind]
  · refine ⟨hfield, ?_, ?_, hsup⟩
    · have hlt : chunk < c.chunks.length := (List.getElem?_eq_some.mp hget).1
      have harrlen : arr.data.length = lens[chunk]? := by
        rw [← hlens1]
        simp [hget]
      show ((c.chunks.set chunk _).map (fun v => v.data.length)) = lens
      rw [← hlens1]
      apply List.ext_getElem?
      intro n
      simp only [List.getElem?_map, List.getElem?_set]
      by_cases hn : chunk = n
      · subst hn
        simp [hlt, hget]
      · simp [hn]
    · intro a ha
      simp only at ha
      rcases List.mem_or_eq_of_mem_set ha with h | h
      · exact helems a h
      · subst h; exact harr
  · exact hset x

theorem updateCell_ok (lens : List Nat) (f : Field) (cs : ChangesetRequest) (t : Table)
    (c : Column) (src : Values) (r chunk l i k : Nat) (x : Int)
    (hres : resolveFrom lens 0 r = some (chunk, l)) (hr : r < lens.sum)
    (hc : t.cols[k]? = some c)
    (hok : ColumnOK lens f c) (hsrc : cs.Columns[k]? = some src) (helem : src.elem = f.Typ)
    (hx : src.data[i]? = some x) :
    ∃ c1, updateCell cs chunk l i k t = Except.ok { t with cols := t.cols.set k c1 } ∧
      ColumnOK lens f c1 ∧ c1.flat = c.flat.set r x := by
  obtain ⟨c1, hw, hok1, hflat⟩ := writeChunk_ok lens f cs t c src r chunk l i k x hres hr hok hsrc helem hx
  refine ⟨c1, ?_, hok1, hflat⟩
  obtain ⟨hfield, _, _, hsup⟩ := hok
  rcases hsup with h | h
  · rw [h] at hw
    simp [updateCell, Table.Column, hc, Column.DataType, hfield, h, bind, Except.bind, hw]
  · rw [h] at hw
    simp [updateCell, Table.Column, hc, Column.DataType, hfield, h, bind, Except.bind, hw]

theorem updateRow_ok (fields : List Field) (lens : List Nat) (cs : ChangesetRequest) (t : Table)
    (r chunk l i : Nat)
    (hres : resolveFrom lens 0 r = some (chunk, l)) (hr : r < lens.sum)
    (ht : TableOK fields lens t) (hb : BufsOK fields cs) (hi : i < cs.ShardIds.length) :
    ∃ t1, forRange fields.length (updateCell cs chunk l i) t = Except.ok t1 ∧
      TableOK fields lens t1 ∧
      ∀ (k : Nat) (c : Column) (src : Values) (x : Int), t.cols[k]? = some c →
        cs.Columns[k]? = some src → src.data[i]? = some x →
        ∃ c1, t1.cols[k]? = some c1 ∧ c1.flat = c.flat.set r x := by
  have key := forRange_inv (updateCell cs chunk l i)
    (fun j s => TableOK fields lens s ∧ (∀ k : Nat, j ≤ k → s.cols[k]? = t.cols[k]?) ∧
      (∀ (k : Nat) (c : Column) (src : Values) (x : Int), k < j → t.cols[k]? = some c →
        cs.Columns[k]? = some src → src.data[i]? = some x →
        ∃ c1, s.cols[k]? = some c1 ∧ c1.flat = c.flat.set r x))
    fields.length t ⟨ht, fun _ _ => rfl, fun k c src x hk => absurd hk (Nat.not_lt_zero k)⟩ ?_
  · obtain ⟨t1, hrun, hok, _, hall⟩ := key
    refine ⟨t1, hrun, hok, ?_⟩
    intro k c src x hc hsrc hx
    have hk : k < fields.length := by
      have := (List.getElem?_eq_some.mp hc).1
      rw [ht.2.1] at this
      exact this
    exact hall k c src x hk hc hsrc hx
  · intro j s hj ⟨hs, hrest, hdone⟩
    have hf : fields[j]? = some fields[j] := List.getElem?_eq_getElem hj
    obtain ⟨c, hc, hcok⟩ := hs.2.2 j fields[j] hf
    obtain ⟨src, hsrc, helem, hlen⟩ := hb j fields[j] hf
    have hx : src.data[i]? = some src.data[i] := List.getElem?_eq_getElem (by omega)
    obtain ⟨c1, hcell, hok1, hflat⟩ :=
      updateCell_ok lens fields[j] cs s c src r chunk l i j _ hres hr hc hcok hsrc helem hx
    refine ⟨_, hcell, ⟨hs.1, by simpa using hs.2.1, ?_⟩, ?_, ?_⟩
    · intro k f hkf
      by_cases hkj : j = k
      · subst hkj
        rw [hf] at hkf
        cases hkf
        refine ⟨c1, ?_, hok1⟩
        have hlt : j < s.cols.length := (List.getElem?_eq_some.mp hc).1
        simp [List.getElem?_set, hlt]
      · obtain ⟨c2, hc2, hok2⟩ := hs.2.2 k f hkf
        exact ⟨c2, by simp [List.getElem?_set, hkj, hc2], hok2⟩
    · intro k hk
      have hne : j ≠ k := by omega
      simp only [List.getElem?_set, hne, if_false]
      exact hrest k (by omega)
    · intro k c0 src0 x0 hk hc0 hsrc0 hx0
      by_cases hkj : j = k
      · subst hkj
        have hceq : c0 = c := by
          have := hrest j (Nat.le_refl j)
          rw [hc, hc0] at this
          cases this; rfl
        have hseq : src0 = src := by
          rw [hsrc] at hsrc0
          cases hsrc0; rfl
        subst hceq hseq
        rw [hx] at hx0
        cases hx0
        refine ⟨c1, ?_, hflat⟩
        have hlt : j < s.cols.length := (List.getElem?_eq_some.mp hc).1
        simp [List.getElem?_set, hlt]
      · obtain ⟨c2, hc2, hflat2⟩ := hdone k c0 src0 x0 (by omega) hc0 hsrc0 hx0
        exact ⟨c2, by simp [List.getElem?_set, hkj, hc2], hflat2⟩

theorem resolveFrom_exists (lens : List Nat) :
    ∀ (c idx : Nat), idx < lens.sum → ∃ p, resolveFrom lens c idx = some p := by
  induction lens with
  | nil => intro c idx h; simp at h
  | cons a rest ih =>
    intro c idx h
    by_cases hlt : idx < a
    · exact ⟨(c, idx), by simp [resolveFrom, hlt]⟩
    · obtain ⟨p, hp⟩ := ih (c + 1) (idx - a) (by simp at h; omega)
      exact ⟨p, by simp [resolveFrom, hlt, hp]⟩

theorem splitPoint_cons_lt (n r : Int) (rest : List Int) (h : r < n) :
    splitPoint n (r :: rest) = splitPoint n rest + 1 := by
  simp [splitPoint, List.takeWhile_cons, h]

theorem splitPoint_cons_ge (n r : Int) (rest : List Int) (h : n ≤ r) :
    splitPoint n (r :: rest) = 0 := by
  have : ¬ r < n := by omega
  simp [splitPoint, List.takeWhile_cons, this]

theorem splitPoint_le (n : Int) (ids : List Int) : splitPoint n ids ≤ ids.length := by
  unfold splitPoint
  exact (List.takeWhile_sublist _).length_le

theorem updatePass_nil_aux (schema : Option Schema) (resolver : ChunkResolver)
    (cs : ChangesetRequest) (i : Nat) (st : Nat × Table) :
    updatePass schema resolver cs i [] st = Except.ok st := by
  simp [updatePass]

theorem updatePass_ok (fields : List Field) (lens : List Nat) (cs : ChangesetRequest)
    (hb : BufsOK fields cs) :
    ∀ (suffix : List Int) (i o : Nat) (t : Table), i + suffix.length = cs.ShardIds.length →
      (∀ r ∈ suffix, 0 ≤ r) → TableOK fields lens t →
      ∃ off t1, updatePass (some fields) { lens := lens } cs i suffix (o, t) = Except.ok (off, t1) ∧
        TableOK fields lens t1 ∧
        (suffix ≠ [] → off = min (i + splitPoint (lens.sum : Int) suffix) (i + suffix.length - 1)) ∧
        (suffix = [] → off = o) ∧
        ∀ (k : Nat) (c : Column) (src : Values), t.cols[k]? = some c → cs.Columns[k]? = some src →
          ∃ c1, t1.cols[k]? = some c1 ∧
            c1.flat = writeAll c.flat
              ((suffix.take (splitPoint (lens.sum : Int) suffix)).map Int.toNat) (src.data.drop i) := by
  intro suffix
  induction suffix with
  | nil =>
    intro i o t _ _ ht
    refine ⟨o, t, by simp [updatePass], ht, by simp, by simp, ?_⟩
    intro k c src hc _
    exact ⟨c, hc, by simp [writeAll]⟩
  | cons rowid rest ih =>
    intro i o t hlen hnn ht
    have hrows : t.NumRows = (lens.sum : Int) := ht.1
    by_cases hge : rowid ≥ t.NumRows
    · refine ⟨i, t, by simp [updatePass, hge], ht, ?_, by simp, ?_⟩
      · intro _
        rw [splitPoint_cons_ge _ _ _ (by omega)]
        simp
      · intro k c src hc _
        refine ⟨c, hc, ?_⟩
        rw [splitPoint_cons_ge _ _ _ (by omega)]
        simp [writeAll]
    · have hlt : rowid < (lens.sum : Int) := by omega
      have h0 : 0 ≤ rowid := hnn rowid (List.mem_cons_self _ _)
      have hr : rowid.toNat < lens.sum := by omega
      obtain ⟨⟨chunk, l⟩, hres⟩ := resolveFrom_exists lens 0 rowid.toNat hr
      have hi : i < cs.ShardIds.length := by simp at hlen; omega
      obtain ⟨t1, hrow, ht1, hcols1⟩ :=
        updateRow_ok fields lens cs t rowid.toNat chunk l i hres hr ht hb hi
      obtain ⟨off, t2, hpass, ht2, hoff, _, hcols2⟩ :=
        ih (i + 1) i t1 (by simp at hlen; omega)
          (fun r hr => hnn r (List.mem_cons_of_mem _ hr)) ht1
      have hneg : ¬ rowid < 0 := by omega
      refine ⟨off, t2, ?_, ht2, ?_, by simp, ?_⟩
      · simp [updatePass, hge, ChunkResolver.Resolve, hneg, hres, hrow, hpass]
      · intro _
        rw [splitPoint_cons_lt _ _ _ hlt]
        by_cases hrest : rest = []
        · subst hrest
          have hcase := updatePass_nil_aux (some fields) { lens := lens } cs (i + 1) (i, t1)
          rw [hcase] at hpass
          cases hpass
          simp [splitPoint]
        · rw [hoff hrest]
          simp only [List.length_cons]
          have := splitPoint_le (lens.sum : Int) rest
          have hpos : 0 < rest.length := List.length_pos.mpr hrest
          omega
      · intro k c src hc hsrc
        have hk : k < fields.length := by
          have := (List.getElem?_eq_some.mp hc).1
          rw [ht.2.1] at this
          exact this
        obtain ⟨src1, hsrc1, _, hlen1⟩ := hb k fields[k] (List.getElem?_eq_getElem hk)
        rw [hsrc] at hsrc1
        cases hsrc1
        have hxi : i < src.data.length := by omega
        obtain ⟨c1, hc1, hflat1⟩ :=
          hcols1 k c src src.data[i] hc hsrc (List.getElem?_eq_getElem hxi)
        obtain ⟨c2, hc2, hflat2⟩ := hcols2 k c1 src hc1 hsrc
        refine ⟨c2, hc2, ?_⟩
        rw [hflat2, hflat1, splitPoint_cons_lt _ _ _ hlt, List.drop_eq_getElem_cons hxi]
        simp [writeAll]

/-- An exact result inside the `int64` range is the `int64` result. -/
theorem wrap64_eq (x : Int) (h0 : -2 ^ 63 ≤ x) (h1 : x < 2 ^ 63) : wrap64 x = x := by
  unfold wrap64
  omega

/-- For a length it accepts `make` returns that many zero cells. -/
theorem makeSlice_ok (ty : DataType) (n : Int) (h0 : 0 ≤ n) (h1 : n ≤ maxSliceLen) :
    makeSlice ty n = Except.ok (zeroSlice ty n) := by
  unfold makeSlice zeroSlice
  rw [if_neg (by omega)]

/-- The only fault of `make` is its length panic. -/
theorem makeSlice_of_error (ty : DataType) (n : Int) (e : Fault)
    (h : makeSlice ty n = Except.error e) : e = makeslicePanic := by
  unfold makeSlice at h
  split at h
  · cases h
    rfl
  · cases h

theorem allocColumns_ok (fields : List Field) (newSize : Int) (cols : List Values)
    (hlen : cols.length = fields.length)
    (hsup : ∀ f ∈ fields, f.Typ = DataType.int64 ∨ f.Typ = DataType.float64)
    (h0 : 0 ≤ newSize) (h1 : newSize ≤ maxSliceLen) :
    forRange fields.length (allocColumn fields newSize) cols =
      Except.ok (fields.map (fun f => zeroSlice f.Typ newSize)) := by
  have key := forRange_inv (allocColumn fields newSize)
    (fun j (s : List Values) => s.length = fields.length ∧
      ∀ k : Nat, k < j → s[k]? = (fields.map (fun f => zeroSlice f.Typ newSize))[k]?)
    fields.length cols ⟨hlen, fun k hk => absurd hk (Nat.not_lt_zero k)⟩ ?_
  · obtain ⟨s1, hrun, hlen1, hall⟩ := key
    rw [hrun]
    congr 1
    apply List.ext_getElem?
    intro k
    by_cases hk : k < fields.length
    · exact hall k hk
    · rw [List.getElem?_eq_none (by omega), List.getElem?_eq_none (by simp; omega)]
  · intro j s hj ⟨hslen, hdone⟩
    have hf : fields[j]? = some fields[j] := List.getElem?_eq_getElem hj
    have hjs : j < s.length := by omega
    have hstep : allocColumn fields newSize j s =
        Except.ok (s.set j (zeroSlice fields[j].Typ newSize)) := by
      rcases hsup fields[j] (List.getElem_mem hj) with h | h <;>
        simp [allocColumn, getN, setN, hf, h, hjs, bind, Except.bind,
          makeSlice_ok _ newSize h0 h1]
    refine ⟨_, hstep, by simpa using hslen, ?_⟩
    intro k hk
    by_cases hkj : j = k
    · subst hkj
      simp [List.getElem?_set, hjs, hf]
    · simp only [List.getElem?_set, hkj, if_false]
      exact hdone k (by omega)

theorem buildAppenders_ok (sf : ShardFile) (fields : List Field) (maxid : Int)
    (hschema : sf.schema = some fields) (hlen : sf.columns.length = fields.length)
    (hsup : ∀ f ∈ fields, f.Typ = DataType.int64 ∨ f.Typ = DataType.float64)
    (hbefore : sf.table = none → sf.beforeRows = 0)
    (hfit : maxid - sf.committedRows < maxSliceLen) :
    sf.buildAppenders maxid = Except.ok
      (if maxid < sf.committedRows then { sf with beforeRows := sf.committedRows }
       else { sf with beforeRows := sf.committedRows,
                      columns := fields.map (fun f =>
                        zeroSlice f.Typ (maxid - sf.committedRows + 1)),
                      added := maxid - sf.committedRows + 1 }) := by
  have hsize : ∀ n : Int, ¬ maxid < n → maxid - n < maxSliceLen →
      wrap64 (wrap64 (maxid - n) + 1) = maxid - n + 1 := by
    intro n hn hlim
    unfold maxSliceLen at hlim
    rw [wrap64_eq (maxid - n) (by omega) (by omega), wrap64_eq _ (by omega) (by omega)]
  cases htab : sf.table with
  | none =>
    have hb := hbefore htab
    obtain ⟨table, schema, beforeRows, added, columns, dest⟩ := sf
    simp only at htab hb hschema hlen
    subst htab hb hschema
    simp only [ShardFile.committedRows] at hfit
    by_cases hlt : maxid < 0
    · simp [ShardFile.buildAppenders, ShardFile.committedRows, hlt]
    · have hw := hsize 0 hlt hfit
      simp only [Int.sub_zero] at hw
      simp [ShardFile.buildAppenders, ShardFile.committedRows, hlt, ShardFile.Fields, hw,
        allocColumns_ok fields (maxid + 1) columns hlen hsup (by omega)
          (by unfold maxSliceLen at hfit ⊢; omega)]
  | some t =>
    simp only [ShardFile.committedRows, htab] at hfit
    by_cases hlt : maxid < t.NumRows
    · simp [ShardFile.buildAppenders, ShardFile.committedRows, htab, hlt]
    · have hw := hsize t.NumRows hlt hfit
      simp [ShardFile.buildAppenders, ShardFile.committedRows, htab, hlt, ShardFile.Fields,
        hschema, hw,
        allocColumns_ok fields (maxid - t.NumRows + 1) sf.columns hlen hsup (by omega)
          (by unfold maxSliceLen at hfit ⊢; omega)]

theorem appendCell_ok (cs : ChangesetRequest) (s : ShardFile) (fields : List Field) (f : Field)
    (v src : Values) (rowid : Int) (i j : Nat) (x : Int)
    (hschema : s.schema = some fields) (hf : fields[j]? = some f)
    (hsup : f.Typ = DataType.int64 ∨ f.Typ = DataType.float64)
    (hv : s.columns[j]? = some v) (hvelem : v.elem = f.Typ)
    (hsrc : cs.Columns[j]? = some src) (helem : src.elem = f.Typ) (hx : src.data[i]? = some x)
    (h0 : 0 ≤ rowid - s.beforeRows) (hlt : (rowid - s.beforeRows).toNat < v.data.length)
    (h64 : rowid - s.beforeRows < 2 ^ 63) :
    appendCell cs rowid i j s = Except.ok
      { s with columns :=
          s.columns.set j ({ v with data := v.data.set (rowid - s.beforeRows).toNat x }) } := by
  have hneg : ¬ rowid - s.beforeRows < 0 := by omega
  have hw : wrap64 (rowid - s.beforeRows) = rowid - s.beforeRows :=
    wrap64_eq _ (by omega) h64
  rcases hsup with h | h <;>
    simp [appendCell, ShardFile.Fields, hschema, getN, hf, h, changesetCell, hsrc, helem, hx,
      ShardFile.SetIntValue, ShardFile.SetFloatValue, ShardFile.setValue, hv, hvelem, sliceSet,
      hw, hneg, hlt, bind, Except.bind]

theorem appendRow_ok (fields : List Field) (cs : ChangesetRequest) (s : ShardFile) (m : Nat)
    (rowid : Int) (i : Nat)
    (hschema : s.schema = some fields) (hcols : ColsOK fields m s.columns)
    (hb : BufsOK fields cs) (hi : i < cs.ShardIds.length)
    (h0 : s.beforeRows ≤ rowid) (hlt : rowid - s.beforeRows < m) (hm : (m : Int) ≤ 2 ^ 63) :
    ∃ cols1, forRange fields.length (appendCell cs rowid i) s =
        Except.ok { s with columns := cols1 } ∧
      ColsOK fields m cols1 ∧
      ∀ (k : Nat) (v src : Values) (x : Int), s.columns[k]? = some v →
        cs.Columns[k]? = some src → src.data[i]? = some x →
        cols1[k]? = some { v with data := v.data.set (rowid - s.beforeRows).toNat x } := by
  have key := forRange_inv (appendCell cs rowid i)
    (fun j st => ∃ cols, st = { s with columns := cols } ∧ ColsOK fields m cols ∧
      (∀ k : Nat, j ≤ k → cols[k]? = s.columns[k]?) ∧
      (∀ (k : Nat) (v src : Values) (x : Int), k < j → s.columns[k]? = some v →
        cs.Columns[k]? = some src → src.data[i]? = some x →
        cols[k]? = some { v with data := v.data.set (rowid - s.beforeRows).toNat x }))
    fields.length s
    ⟨s.columns, rfl, hcols, fun _ _ => rfl, fun k _ _ _ hk => absurd hk (Nat.not_lt_zero k)⟩ ?_
  · obtain ⟨s1, hrun, cols1, hs1, hok, _, hall⟩ := key
    subst hs1
    refine ⟨cols1, hrun, hok, ?_⟩
    intro k v src x hv hsrc hx
    have hk : k < fields.length := by
      have := (List.getElem?_eq_some.mp hv).1
      rw [hcols.1] at this
      exact this
    exact hall k v src x hk hv hsrc hx
  · intro j st hj ⟨cols, hst, hok, hrest, hdone⟩
    subst hst
    have hf : fields[j]? = some fields[j] := List.getElem?_eq_getElem hj
    obtain ⟨v, hv, hvelem, hvlen, hsup⟩ := hok.2 j fields[j] hf
    obtain ⟨src, hsrc, helem, hlen⟩ := hb j fields[j] hf
    have hx : src.data[i]? = some src.data[i] := List.getElem?_eq_getElem (by omega)
    have hcell := appendCell_ok cs { s with columns := cols } fields fields[j] v src rowid i j
      src.data[i] hschema hf hsup hv hvelem hsrc helem hx
      (by show 0 ≤ rowid - s.beforeRows; omega)
      (by show (rowid - s.beforeRows).toNat < v.data.length; omega)
      (by show rowid - s.beforeRows < 2 ^ 63; omega)
    have hjc : j < cols.length := (List.getElem?_eq_some.mp hv).1
    refine ⟨_, hcell, _, rfl, ⟨by simpa using hok.1, ?_⟩, ?_, ?_⟩
    · intro k f hkf
      by_cases hkj : j = k
      · subst hkj
        rw [hf] at hkf
        cases hkf
        exact ⟨{ v with data := v.data.set (rowid - s.beforeRows).toNat src.data[i] },
          by simp [List.getElem?_set, hjc], hvelem, by simpa using hvlen, hsup⟩
      · obtain ⟨v2, hv2, h2⟩ := hok.2 k f hkf
        exact ⟨v2, by simp [List.getElem?_set, hkj, hv2], h2⟩
    · intro k hk
      have hne : j ≠ k := by omega
      simp only [List.getElem?_set, hne, if_false]
      exact hrest k (by omega)
    · intro k v0 src0 x0 hk hv0 hsrc0 hx0
      by_cases hkj : j = k
      · subst hkj
        have hveq : v0 = v := by
          have := hrest j (Nat.le_refl j)
          rw [hv, hv0] at this
          cases this; rfl
        have hseq : src0 = src := by
          rw [hsrc] at hsrc0
          cases hsrc0; rfl
        subst hveq hseq
        rw [hx] at hx0
        cases hx0
        simp [List.getElem?_set, hjc]
      · simp only [List.getElem?_set, hkj, if_false]
        exact hdone k v0 src0 x0 (by omega) hv0 hsrc0 hx0

theorem appendPass_ok (fields : List Field) (cs : ChangesetRequest) (m : Nat)
    (hb : BufsOK fields cs) (hm : (m : Int) ≤ 2 ^ 63) :
    ∀ (suffix : List Int) (i : Nat) (s : ShardFile), i + suffix.length = cs.ShardIds.length →
      s.schema = some fields → ColsOK fields m s.columns →
      (∀ r ∈ suffix, s.beforeRows ≤ r ∧ r - s.beforeRows < m) →
      ∃ cols1, appendPass cs i suffix s = Except.ok { s with columns := cols1 } ∧
        ColsOK fields m cols1 ∧
        ∀ (k : Nat) (v src : Values), s.columns[k]? = some v → cs.Columns[k]? = some src →
          ∃ v1, cols1[k]? = some v1 ∧ v1.elem = v.elem ∧
            v1.data = writeAll v.data (suffix.map (fun r => (r - s.beforeRows).toNat))
              (src.data.drop i) := by
  intro suffix
  induction suffix with
  | nil =>
    intro i s _ _ hcols _
    refine ⟨s.columns, by simp [appendPass], hcols, ?_⟩
    intro k v src hv _
    exact ⟨v, hv, rfl, by simp [writeAll]⟩
  | cons rowid rest ih =>
    intro i s hlen hschema hcols hrange
    have hi : i < cs.ShardIds.length := by simp at hlen; omega
    obtain ⟨h0, hlt⟩ := hrange rowid (List.mem_cons_self _ _)
    obtain ⟨cols1, hrow, hcols1, hall1⟩ :=
      appendRow_ok fields cs s m rowid i hschema hcols hb hi h0 hlt hm
    obtain ⟨cols2, hpass, hcols2, hall2⟩ :=
      ih (i + 1) { s with columns := cols1 } (by simp at hlen; omega) hschema hcols1
        (fun r hr => hrange r (List.mem_cons_of_mem _ hr))
    refine ⟨cols2, ?_, hcols2, ?_⟩
    · simp only [appendPass, ShardFile.Fields, hschema, hrow]
      simpa [hschema] using hpass
    · intro k v src hv hsrc
      have hk : k < fields.length := by
        have := (List.getElem?_eq_some.mp hv).1
        rw [hcols.1] at this
        exact this
      obtain ⟨src1, hsrc1, _, hlen1⟩ := hb k fields[k] (List.getElem?_eq_getElem hk)
      rw [hsrc] at hsrc1
      cases hsrc1
      have hxi : i < src.data.length := by omega
      have hv1 := hall1 k v src src.data[i] hv hsrc (List.getElem?_eq_getElem hxi)
      obtain ⟨v2, hv2, helem2, hdata2⟩ := hall2 k _ src hv1 hsrc
      refine ⟨v2, hv2, by simpa using helem2, ?_⟩
      rw [hdata2, List.drop_eq_getElem_cons hxi]
      simp [writeAll]

theorem Concatenate_ok (chunks : List Values) (ty : DataType) (hne : chunks ≠ [])
    (hall : ∀ a ∈ chunks, a.elem = ty) :
    Concatenate chunks = Except.ok { elem := ty, data := (chunks.map Values.data).flatten } := by
  cases chunks with
  | nil => exact absurd rfl hne
  | cons a rest =>
    have ha : a.elem = ty := hall a (List.mem_cons_self _ _)
    have hrest : ∀ x ∈ rest, x.elem = ty := fun x hx => hall x (List.mem_cons_of_mem _ hx)
    simpa [Concatenate, ha] using hrest

theorem saveColumn_ok (sf : ShardFile) (fields : List Field) (lens : List Nat) (f : Field)
    (k : Nat) (parts : List Values)
    (hschema : sf.schema = some fields) (hf : fields[k]? = some f)
    (hsup : f.Typ = DataType.int64 ∨ f.Typ = DataType.float64)
    (htab : ∀ t, sf.table = some t → TableOK fields lens t)
    (hadd : 0 < sf.added → ∃ m, ColsOK fields m sf.columns)
    (hne : sf.added ≤ 0 → sf.table ≠ none ∧ lens ≠ []) :
    saveColumn sf k parts =
      Except.ok (parts ++ [{ elem := f.Typ, data := sf.oldData k ++ sf.newData k }]) := by
  -- the chunks of the existing column
  have hold : ∃ chunks : List Values,
      existingChunks sf k = Except.ok chunks ∧
      (chunks.map Values.data).flatten = sf.oldData k ∧ (∀ a ∈ chunks, a.elem = f.Typ) ∧
      (sf.added ≤ 0 → chunks ≠ []) := by
    cases ht : sf.table with
    | none =>
      refine ⟨[], by simp [existingChunks, ht], by simp [ShardFile.oldData, ht], by simp, ?_⟩
      intro h
      exact absurd ht (hne h).1
    | some t =>
      obtain ⟨c, hc, hfield, hlens, helems, _⟩ := (htab t ht).2.2 k f hf
      refine ⟨c.chunks, by simp [existingChunks, ht, Table.Column, hc], ?_, helems, ?_⟩
      · simp [ShardFile.oldData, ht, hc, Column.flat]
      · intro h hnil
        have hl : c.chunks.map (fun v => v.data.length) = lens := hlens
        rw [hnil] at hl
        simp at hl
        exact (hne h).2 hl
  obtain ⟨chunks, hchunks, hflat, helems, hnonempty⟩ := hold
  have harm : saveArm f.Typ sf k chunks parts =
      Except.ok (parts ++ [{ elem := f.Typ, data := sf.oldData k ++ sf.newData k }]) := by
    by_cases ha : 0 < sf.added
    · obtain ⟨m, hcols⟩ := hadd ha
      obtain ⟨v, hv, hvelem, _, _⟩ := hcols.2 k f hf
      have hcat := Concatenate_ok (chunks ++ [{ elem := f.Typ, data := v.data }]) f.Typ (by simp)
        (by
          intro a hmem
          rcases List.mem_append.mp hmem with h | h
          · exact helems a h
          · simp at h; subst h; rfl)
      simp [saveArm, ha, getN, hv, hvelem, hcat, bind, Except.bind, ShardFile.newData, hflat]
    · have hle : sf.added ≤ 0 := by omega
      have hcat := Concatenate_ok chunks f.Typ (hnonempty hle) helems
      simp [saveArm, ha, hcat, bind, Except.bind, ShardFile.newData, hflat]
  rcases hsup with h | h
  · rw [h] at harm
    simp [saveColumn, hchunks, ShardFile.Fields, hschema, getN, hf, h, bind, Except.bind, harm]
  · rw [h] at harm
    simp [saveColumn, hchunks, ShardFile.Fields, hschema, getN, hf, h, bind, Except.bind, harm]

theorem oldData_length (sf : ShardFile) (fields : List Field) (lens : List Nat) (f : Field)
    (k : Nat) (hf : fields[k]? = some f)
    (htab : ∀ t, sf.table = some t → TableOK fields lens t) :
    ((sf.oldData k).length : Int) = sf.committedRows := by
  cases ht : sf.table with
  | none => simp [ShardFile.oldData, ShardFile.committedRows, ht]
  | some t =>
    obtain ⟨hrows, _, hcols⟩ := htab t ht
    obtain ⟨c, hc, _, hlens, _, _⟩ := hcols k f hf
    have hl : c.chunks.map (fun v => v.data.length) = lens := hlens
    have hflat : c.flat.length = lens.sum := by
      unfold Column.flat
      rw [flat_length, hl]
    simp only [ShardFile.oldData, ShardFile.committedRows, ht, hc, Table.NumRows]
    rw [hflat, hrows]

theorem newData_length (sf : ShardFile) (fields : List Field) (f : Field)
    (k : Nat) (hf : fields[k]? = some f) (h0 : 0 ≤ sf.added)
    (hadd : 0 < sf.added → ColsOK fields sf.added.toNat sf.columns) :
    ((sf.newData k).length : Int) = sf.added := by
  by_cases ha : 0 < sf.added
  · obtain ⟨v, hv, _, hvlen, _⟩ := (hadd ha).2 k f hf
    simp [ShardFile.newData, ha, hv, hvlen]
    omega
  · have : sf.added = 0 := by omega
    simp [ShardFile.newData, this]

theorem assemble_ok (sf : ShardFile) (fields : List Field) (lens : List Nat)
    (hschema : sf.schema = some fields)
    (hsup : ∀ f ∈ fields, f.Typ = DataType.int64 ∨ f.Typ = DataType.float64)
    (htab : ∀ t, sf.table = some t → TableOK fields lens t)
    (h0 : 0 ≤ sf.added)
    (hadd : 0 < sf.added → ColsOK fields sf.added.toNat sf.columns)
    (hne : sf.added ≤ 0 → sf.table ≠ none ∧ lens ≠ [])
    (hrows : sf.beforeRows = sf.committedRows)
    (h64 : sf.beforeRows + sf.added < 2 ^ 63) :
    ∃ parts, sf.assemble =
        Except.ok { schema := fields, parts := parts, rows := sf.beforeRows + sf.added } ∧
      parts.length = fields.length ∧
      ∀ (k : Nat) (f : Field), fields[k]? = some f →
        parts[k]? = some { elem := f.Typ, data := sf.oldData k ++ sf.newData k } := by
  have key := forRange_inv (saveColumn sf)
    (fun j (parts : List Values) => parts.length = j ∧
      ∀ (k : Nat) (f : Field), k < j → fields[k]? = some f →
        parts[k]? = some { elem := f.Typ, data := sf.oldData k ++ sf.newData k })
    fields.length [] ⟨rfl, fun k _ hk => absurd hk (Nat.not_lt_zero k)⟩ ?_
  · obtain ⟨parts, hrun, hlen, hall⟩ := key
    have hparts : ∀ (k : Nat) (f : Field), fields[k]? = some f →
        parts[k]? = some { elem := f.Typ, data := sf.oldData k ++ sf.newData k } := by
      intro k f hf
      exact hall k f (List.getElem?_eq_some.mp hf).1 hf
    refine ⟨parts, ?_, hlen, hparts⟩
    have hcommitted : 0 ≤ sf.committedRows := by
      cases ht : sf.table with
      | none => simp [ShardFile.committedRows, ht]
      | some t =>
        have := (htab t ht).1
        simp only [ShardFile.committedRows, ht, Table.NumRows]
        rw [this]
        exact Int.ofNat_nonneg _
    have hnn : ¬ (sf.beforeRows + sf.added < 0) := by omega
    have hw : wrap64 (sf.beforeRows + sf.added) = sf.beforeRows + sf.added :=
      wrap64_eq _ (by omega) h64
    have hcheck : (List.zip fields parts).all
        (fun fp => decide (sf.beforeRows + sf.added ≤ (fp.2.data.length : Int)) &&
          decide (fp.1.Typ = fp.2.elem)) = true := by
      rw [List.all_eq_true]
      intro fp hmem
      obtain ⟨k, hk⟩ := List.mem_iff_getElem?.mp hmem
      obtain ⟨hk1, hk2⟩ := List.getElem?_zip_eq_some.mp hk
      have hp := hparts k fp.1 hk1
      rw [hk2] at hp
      have hp2 := Option.some.inj hp
      rw [hp2]
      have h1 := oldData_length sf fields lens fp.1 k hk1 htab
      have h2 := newData_length sf fields fp.1 k hk1 h0 hadd
      simp only [List.length_append, Bool.and_eq_true, decide_eq_true_eq, and_true]
      push_cast
      omega
    simp only [ShardFile.assemble, ShardFile.Fields, hschema, hrun, hw, NewRecord, hnn, if_false]
    by_cases h1 : sf.beforeRows + sf.added = 0 ∧ parts = []
    · simp [h1]
    · simp [h1, hlen, hcheck]
  · intro j parts hj ⟨hplen, hdone⟩
    have hf : fields[j]? = some fields[j] := List.getElem?_eq_getElem hj
    have hstep := saveColumn_ok sf fields lens fields[j] j parts hschema hf
      (hsup _ (List.getElem_mem hj)) htab (fun h => ⟨_, hadd h⟩) hne
    refine ⟨_, hstep, by simp [hplen], ?_⟩
    intro k f hk hkf
    by_cases hkj : k = j
    · subst hkj
      rw [hf] at hkf
      cases hkf
      rw [List.getElem?_append_right (by omega)]
      simp [hplen]
    · rw [List.getElem?_append_left (by omega)]
      exact hdone k f (by omega) hkf

/-! ### Row id lists -/

theorem mem_take_splitPoint (n : Int) (ids : List Int) :
    ∀ r ∈ ids.take (splitPoint n ids), r < n := by
  induction ids with
  | nil => intro r hr; simp at hr
  | cons r0 rest ih =>
    intro r hr
    by_cases h : r0 < n
    · rw [splitPoint_cons_lt _ _ _ h] at hr
      simp only [List.take_succ_cons, List.mem_cons] at hr
      rcases hr with h1 | h1
      · rw [h1]; exact h
      · exact ih r h1
    · rw [splitPoint_cons_ge _ _ _ (by omega)] at hr
      simp at hr

theorem mem_drop_splitPoint (n : Int) (ids : List Int) (hs : ids.Pairwise (fun a b => a ≤ b)) :
    ∀ r ∈ ids.drop (splitPoint n ids), n ≤ r := by
  induction ids with
  | nil => intro r hr; simp at hr
  | cons r0 rest ih =>
    intro r hr
    rw [List.pairwise_cons] at hs
    by_cases h : r0 < n
    · rw [splitPoint_cons_lt _ _ _ h] at hr
      simp only [List.drop_succ_cons] at hr
      exact ih hs.2 r hr
    · rw [splitPoint_cons_ge _ _ _ (by omega)] at hr
      simp only [List.drop_zero, List.mem_cons] at hr
      rcases hr with h1 | h1
      · omega
      · have := hs.1 r h1
        omega

theorem le_getLastD (ids : List Int) :
    ∀ d : Int, (d :: ids).Pairwise (fun a b => a ≤ b) → ∀ r ∈ d :: ids, r ≤ ids.getLastD d := by
  induction ids with
  | nil =>
    intro d _ r hr
    simp at hr
    simp [hr]
  | cons r0 rest ih =>
    intro d hs r hr
    rw [List.pairwise_cons] at hs
    simp only [List.getLastD_cons]
    rcases List.mem_cons.mp hr with h | h
    · have h1 := ih r0 hs.2 r0 (List.mem_cons_self _ _)
      have h2 := hs.1 r0 (List.mem_cons_self _ _)
      omega
    · exact ih r0 hs.2 r h

theorem le_maxId (cs : ChangesetRequest) (hs : cs.ShardIds.Pairwise (fun a b => a ≤ b)) :
    ∀ r ∈ cs.ShardIds, r ≤ cs.maxId := by
  unfold ChangesetRequest.maxId
  cases hids : cs.ShardIds with
  | nil => intro r hr; simp at hr
  | cons r0 rest =>
    rw [hids] at hs
    simp only [List.getLastD_cons]
    exact le_getLastD rest r0 hs

theorem maxId_mem (cs : ChangesetRequest) (hne : cs.ShardIds ≠ []) : cs.maxId ∈ cs.ShardIds := by
  unfold ChangesetRequest.maxId
  rw [List.getLastD_eq_getLast?, List.getLast?_eq_getLast _ hne]
  exact List.getLast_mem hne

/-- When the sizes fit, the last row id is below the largest slice length. -/
theorem fits_maxId (sf : ShardFile) (cs : ChangesetRequest) (hfit : sf.Fits cs) :
    cs.maxId < maxSliceLen := by
  by_cases hne : cs.ShardIds = []
  · have hz : cs.maxId = 0 := by
      unfold ChangesetRequest.maxId
      rw [hne]
      rfl
    rw [hz]
    unfold maxSliceLen
    omega
  · exact hfit.2 _ (maxId_mem cs hne)

/-- When the sizes fit, the number of rows to add is one `make` accepts. -/
theorem fits_limit (sf : ShardFile) (cs : ChangesetRequest) (hfit : sf.Fits cs)
    (h0 : 0 ≤ sf.committedRows) : cs.maxId - sf.committedRows < maxSliceLen := by
  have h1 := fits_maxId sf cs hfit
  omega

theorem sliceGet_last (cs : ChangesetRequest) (hne : cs.ShardIds ≠ []) :
    sliceGet cs.ShardIds ((cs.ShardIds.length : Int) - 1) = Except.ok cs.maxId := by
  have hpos : 0 < cs.ShardIds.length := List.length_pos.mpr hne
  have hneg : ¬ ((cs.ShardIds.length : Int) - 1 < 0) := by omega
  have hnat : ((cs.ShardIds.length : Int) - 1).toNat = cs.ShardIds.length - 1 := by omega
  unfold ChangesetRequest.maxId
  rw [List.getLastD_eq_getLast?, List.getLast?_eq_getElem?]
  simp only [sliceGet, hneg, if_false, hnat]
  rw [List.getElem?_eq_getElem (by omega)]
  simp

theorem splitPoint_lt_of_maxId (cs : ChangesetRequest) (n : Int) (hne : cs.ShardIds ≠ [])
    (hmax : n ≤ cs.maxId) : splitPoint n cs.ShardIds < cs.ShardIds.length := by
  by_contra hcon
  have hle := splitPoint_le n cs.ShardIds
  have heq : splitPoint n cs.ShardIds = cs.ShardIds.length := by omega
  have hmem := maxId_mem cs hne
  have := mem_take_splitPoint n cs.ShardIds cs.maxId (by rw [heq, List.take_length]; exact hmem)
  omega

theorem writeAll_nil (pos : List Nat) (vals : List Int) : writeAll [] pos vals = [] := by
  have := length_writeAll pos [] vals
  simpa using this

theorem Ready.rows_eq {sf : ShardFile} {cs : ChangesetRequest} {fields : List Field}
    {lens : List Nat} (h : Ready sf cs fields lens) : sf.committedRows = (lens.sum : Int) := by
  cases ht : sf.table with
  | none => simp [ShardFile.committedRows, ht, h.notab ht]
  | some t =>
    simp only [ShardFile.committedRows, ht, Table.NumRows]
    exact (h.tab t ht).1.1

/-- The part of `process` after the update pass. -/
theorem process_after_update {sf : ShardFile} {cs : ChangesetRequest} {fields : List Field}
    {lens : List Nat} (h : Ready sf cs fields lens) (n : Int) (off : Nat) (tbl : Option Table)
    (hupd : updateExisting sf cs = Except.ok (off, { sf with table := tbl }))
    (hcr : ({ sf with table := tbl } : ShardFile).committedRows = n)
    (hoff : n ≤ cs.maxId → off = splitPoint n cs.ShardIds)
    (hfit : cs.maxId - n < maxSliceLen) :
    ∃ sf1, sf.process cs = Except.ok sf1 ∧ sf1.table = tbl ∧ sf1.schema = some fields ∧
      sf1.dest = sf.dest ∧ sf1.beforeRows = n ∧
      sf1.added = (if cs.maxId < n then 0 else cs.maxId - n + 1) ∧
      (0 < sf1.added → ColsOK fields sf1.added.toNat sf1.columns) ∧
      ∀ (k : Nat) (f : Field) (src : Values), fields[k]? = some f → cs.Columns[k]? = some src →
        sf1.newData k = writeAll (List.replicate sf1.added.toNat 0)
          ((cs.ShardIds.drop (splitPoint n cs.ShardIds)).map
            (fun r => (r - n).toNat))
          (src.data.drop (splitPoint n cs.ShardIds)) := by
  have hba := buildAppenders_ok { sf with table := tbl } fields cs.maxId h.schema h.cols h.sup
    (fun _ => h.before) (by rw [hcr]; exact hfit)
  rw [hcr] at hba
  by_cases hlt : cs.maxId < n
  · rw [if_pos hlt] at hba
    refine ⟨{ sf with table := tbl, beforeRows := n }, ?_, rfl, h.schema, rfl, rfl,
      ?_, ?_, ?_⟩
    · simp only [ShardFile.process, hupd, sliceGet_last cs h.ne, hba]
      rw [if_neg (by show ¬ (sf.added > 0); rw [h.added]; omega)]
    · show sf.added = _
      rw [if_pos hlt, h.added]
    · intro hpos
      exact absurd hpos (by show ¬ (0 < sf.added); rw [h.added]; omega)
    · intro k f src _ _
      have hna : ¬ (sf.added > 0) := by rw [h.added]; omega
      show (if sf.added > 0 then _ else _) = writeAll (List.replicate sf.added.toNat 0) _ _
      rw [if_neg hna, h.added]
      simp [writeAll_nil]
  · rw [if_neg hlt] at hba
    have hge : n ≤ cs.maxId := by omega
    have hoff1 := hoff hge
    subst hoff1
    have hpos : 0 < cs.maxId - n + 1 := by omega
    have hsp := splitPoint_lt_of_maxId cs n h.ne hge
    have hcols0 : ColsOK fields (cs.maxId - n + 1).toNat
        (fields.map (fun f => zeroSlice f.Typ (cs.maxId - n + 1))) := by
      refine ⟨by simp, ?_⟩
      intro k f hf
      exact ⟨zeroSlice f.Typ (cs.maxId - n + 1), by simp [hf], rfl,
        by simp [zeroSlice], h.sup f (List.mem_iff_getElem?.mpr ⟨k, hf⟩)⟩
    obtain ⟨cols1, hpass, hcols1, hall⟩ := appendPass_ok fields cs
      (cs.maxId - n + 1).toNat h.bufs (by unfold maxSliceLen at hfit; omega)
      (cs.ShardIds.drop (splitPoint n cs.ShardIds))
      (splitPoint n cs.ShardIds)
      { sf with table := tbl, beforeRows := n,
                columns := fields.map (fun f => zeroSlice f.Typ (cs.maxId - n + 1)),
                added := cs.maxId - n + 1 }
      (by simp; omega) h.schema hcols0
      (by
        intro r hr
        have h1 := mem_drop_splitPoint _ _ h.sorted r hr
        have h2 := le_maxId cs h.sorted r (List.mem_of_mem_drop hr)
        constructor
        · exact h1
        · show r - n < ((cs.maxId - n + 1).toNat : Int)
          omega)
    refine ⟨{ sf with table := tbl, beforeRows := n, columns := cols1, added := cs.maxId - n + 1 },
      ?_, rfl, h.schema, rfl, rfl, ?_, ?_, ?_⟩
    · simp only [ShardFile.process, hupd, sliceGet_last cs h.ne, hba]
      simp only [hpos, gt_iff_lt, if_true]
      exact hpass
    · simp [hlt]
    · intro _
      exact hcols1
    · intro k f src hf hsrc
      obtain ⟨v1, hv1, _, hdata⟩ := hall k (zeroSlice f.Typ (cs.maxId - n + 1)) src
        (by simp [hf]) hsrc
      simp only [ShardFile.newData, hpos, gt_iff_lt, if_true, hv1]
      exact hdata

theorem splitPoint_zero_of_nonneg (ids : List Int) (h : ∀ r ∈ ids, 0 ≤ r) :
    splitPoint 0 ids = 0 := by
  cases ids with
  | nil => rfl
  | cons r0 rest => exact splitPoint_cons_ge 0 r0 rest (h r0 (List.mem_cons_self _ _))

/-- The behaviour of `process` on a ready ShardFile, column by column. -/
theorem process_spec {sf : ShardFile} {cs : ChangesetRequest} {fields : List Field}
    {lens : List Nat} (h : Ready sf cs fields lens)
    (hlim : cs.maxId - sf.committedRows < maxSliceLen) :
    ∃ sf1, sf.process cs = Except.ok sf1 ∧ sf1.schema = some fields ∧ sf1.dest = sf.dest ∧
      sf1.beforeRows = sf.committedRows ∧ sf1.committedRows = sf.committedRows ∧
      sf1.added =
        (if cs.maxId < sf.committedRows then 0 else cs.maxId - sf.committedRows + 1) ∧
      (∀ t, sf1.table = some t → TableOK fields lens t) ∧
      (sf1.table = none → sf.table = none) ∧
      (0 < sf1.added → ColsOK fields sf1.added.toNat sf1.columns) ∧
      ∀ (k : Nat) (f : Field) (src : Values), fields[k]? = some f → cs.Columns[k]? = some src →
        sf1.oldData k = writeAll (sf.oldData k)
          ((cs.ShardIds.take (splitPoint sf.committedRows cs.ShardIds)).map Int.toNat) src.data ∧
        sf1.newData k = writeAll (List.replicate sf1.added.toNat 0)
          ((cs.ShardIds.drop (splitPoint sf.committedRows cs.ShardIds)).map
            (fun r => (r - sf.committedRows).toNat))
          (src.data.drop (splitPoint sf.committedRows cs.ShardIds)) := by
  cases ht : sf.table with
  | none =>
    have hn : sf.committedRows = 0 := by simp [ShardFile.committedRows, ht]
    have hsf : ({ sf with table := none } : ShardFile) = sf := by
      cases sf; simp_all
    have hupd : updateExisting sf cs = Except.ok (0, { sf with table := none }) := by
      rw [hsf]; simp [updateExisting, ht]
    obtain ⟨sf1, hproc, htab1, hschema1, hdest1, hbefore1, hadded1, hcols1, hnew1⟩ :=
      process_after_update h 0 0 none hupd (by simp [ShardFile.committedRows])
        (fun _ => (splitPoint_zero_of_nonneg _ h.nonneg).symm) (by rw [hn] at hlim; exact hlim)
    rw [hn]
    refine ⟨sf1, hproc, hschema1, hdest1, hbefore1, ?_, hadded1, ?_, fun _ => rfl, hcols1, ?_⟩
    · simp [ShardFile.committedRows, htab1]
    · intro t ht1
      rw [htab1] at ht1
      cases ht1
    · intro k f src hf hsrc
      refine ⟨?_, hnew1 k f src hf hsrc⟩
      simp [ShardFile.oldData, htab1, ht, writeAll_nil]
  | some t =>
    obtain ⟨htOK, c0, hc0, hlens0⟩ := h.tab t ht
    have hn : sf.committedRows = (lens.sum : Int) := h.rows_eq
    obtain ⟨off, t1, hpass, ht1OK, hoff, _, hcols⟩ :=
      updatePass_ok fields lens cs h.bufs cs.ShardIds 0 0 t (by simp) h.nonneg htOK
    have hres : NewChunkResolver c0 = { lens := lens } := by
      simp only [NewChunkResolver]
      exact congrArg ChunkResolver.mk hlens0
    have hupd : updateExisting sf cs = Except.ok (off, { sf with table := some t1 }) := by
      simp only [updateExisting, ht, Table.Column, hc0, hres, h.schema, hpass]
    have hcr : ({ sf with table := some t1 } : ShardFile).committedRows = sf.committedRows := by
      simp only [ShardFile.committedRows, Table.NumRows]
      rw [ht]
      exact ht1OK.1.trans htOK.1.symm
    obtain ⟨sf1, hproc, htab1, hschema1, hdest1, hbefore1, hadded1, hcols1, hnew1⟩ :=
      process_after_update h sf.committedRows off (some t1) hupd hcr
        (by
          intro hge
          have hsp := splitPoint_lt_of_maxId cs sf.committedRows h.ne hge
          rw [hoff h.ne, ← hn]
          omega)
        hlim
    refine ⟨sf1, hproc, hschema1, hdest1, hbefore1, ?_, hadded1, ?_, ?_, hcols1, ?_⟩
    · simp only [ShardFile.committedRows, htab1, Table.NumRows]
      rw [ht]
      exact ht1OK.1.trans htOK.1.symm
    · intro t2 ht2
      rw [htab1] at ht2
      cases ht2
      exact ht1OK
    · intro hnone
      rw [htab1] at hnone
      cases hnone
    · intro k f src hf hsrc
      refine ⟨?_, hnew1 k f src hf hsrc⟩
      obtain ⟨c, hc, _⟩ := htOK.2.2 k f hf
      obtain ⟨c1, hc1, hflat⟩ := hcols k c src hc hsrc
      have hold0 : sf.oldData k = c.flat := by simp only [ShardFile.oldData, ht, hc]
      have hold1 : sf1.oldData k = c1.flat := by simp only [ShardFile.oldData, htab1, hc1]
      rw [hold0, hold1, hflat, hn, List.drop_zero]

theorem mergedData_length (old : List Int) (a : Nat) (ids vals : List Int) (p : Nat) :
    (mergedData old a ids vals p).length = old.length + a := by
  simp [mergedData, length_writeAll]

theorem mergedData_get_last (old : List Int) (a : Nat) (ids vals : List Int) (p : Nat)
    (hnn : ∀ r ∈ ids, 0 ≤ r)
    (htake : ∀ r ∈ ids.take p, r < (old.length : Int))
    (hdrop : ∀ r ∈ ids.drop p, (old.length : Int) ≤ r ∧ r - (old.length : Int) < (a : Int))
    (j : Nat) (r x : Int) (hj : ids[j]? = some r) (hx : vals[j]? = some x)
    (hlast : ∀ j1, j < j1 → ids[j1]? ≠ some r) :
    (mergedData old a ids vals p)[r.toNat]? = some x := by
  have hr0 : 0 ≤ r := hnn r (List.mem_iff_getElem?.mpr ⟨j, hj⟩)
  unfold mergedData
  by_cases hjp : j < p
  · have hjt : (ids.take p)[j]? = some r := by simp [List.getElem?_take, hjp, hj]
    have hrlt := htake r (List.mem_iff_getElem?.mpr ⟨j, hjt⟩)
    have hq : r.toNat < old.length := by omega
    rw [List.getElem?_append_left (by rw [length_writeAll]; exact hq)]
    apply writeAll_get_last _ r.toNat x old vals j (by rw [List.getElem?_map, hjt]; rfl) hx hq
    intro j1 hj1 hcon
    rw [List.getElem?_map] at hcon
    cases hget : (ids.take p)[j1]? with
    | none => rw [hget] at hcon; simp at hcon
    | some r1 =>
      rw [hget] at hcon
      simp at hcon
      have hj1p : j1 < p := by
        by_contra hge
        simp [List.getElem?_take, hge] at hget
      have hids : ids[j1]? = some r1 := by simpa [List.getElem?_take, hj1p] using hget
      have hr1 : 0 ≤ r1 := hnn r1 (List.mem_iff_getElem?.mpr ⟨j1, hids⟩)
      have : r1 = r := by omega
      rw [this] at hids
      exact hlast j1 hj1 hids
  · have hjd : (ids.drop p)[j - p]? = some r := by
      rw [List.getElem?_drop]
      rw [show p + (j - p) = j by omega]
      exact hj
    obtain ⟨hge, hlt⟩ := hdrop r (List.mem_iff_getElem?.mpr ⟨j - p, hjd⟩)
    rw [List.getElem?_append_right (by rw [length_writeAll]; omega), length_writeAll]
    have hidx : r.toNat - old.length = (r - (old.length : Int)).toNat := by omega
    rw [hidx]
    apply writeAll_get_last _ _ x (List.replicate a 0) (vals.drop p) (j - p)
    · rw [List.getElem?_map, hjd]; rfl
    · rw [List.getElem?_drop]
      rw [show p + (j - p) = j by omega]
      exact hx
    · simp; omega
    · intro j1 hj1 hcon
      rw [List.getElem?_map] at hcon
      cases hget : (ids.drop p)[j1]? with
      | none => rw [hget] at hcon; simp at hcon
      | some r1 =>
        rw [hget] at hcon
        simp at hcon
        obtain ⟨hge1, _⟩ := hdrop r1 (List.mem_iff_getElem?.mpr ⟨j1, hget⟩)
        have : r1 = r := by omega
        rw [this, List.getElem?_drop] at hget
        exact hlast (p + j1) (by omega) hget

theorem mergedData_get_other (old : List Int) (a : Nat) (ids vals : List Int) (p : Nat)
    (hdrop : ∀ r ∈ ids.drop p, (old.length : Int) ≤ r)
    (q : Nat) (hq : ∀ r ∈ ids, r.toNat ≠ q) :
    (mergedData old a ids vals p)[q]? = (old ++ List.replicate a 0)[q]? := by
  unfold mergedData
  by_cases hlt : q < old.length
  · rw [List.getElem?_append_left (by rw [length_writeAll]; exact hlt),
      List.getElem?_append_left hlt]
    apply writeAll_get_of_not_mem
    intro hmem
    obtain ⟨r, hr, hrq⟩ := List.mem_map.mp hmem
    exact hq r (List.mem_of_mem_take hr) hrq
  · rw [List.getElem?_append_right (by rw [length_writeAll]; omega),
      List.getElem?_append_right (by omega), length_writeAll]
    apply writeAll_get_of_not_mem
    intro hmem
    obtain ⟨r, hr, hrq⟩ := List.mem_map.mp hmem
    have hge := hdrop r hr
    exact hq r (List.mem_of_mem_drop hr) (by omega)

theorem Ready.old_length {sf : ShardFile} {cs : ChangesetRequest} {fields : List Field}
    {lens : List Nat} (h : Ready sf cs fields lens) (k : Nat) (f : Field)
    (hf : fields[k]? = some f) : ((sf.oldData k).length : Int) = sf.committedRows :=
  Featurebase.oldData_length sf fields lens f k hf (fun t ht => (h.tab t ht).1)

theorem Ready.last_nonneg {sf : ShardFile} {cs : ChangesetRequest} {fields : List Field}
    {lens : List Nat} (h : Ready sf cs fields lens) : 0 ≤ cs.maxId :=
  h.nonneg _ (maxId_mem cs h.ne)

theorem Ready.rows_nonneg {sf : ShardFile} {cs : ChangesetRequest}
    {fields : List Field} {lens : List Nat} (h : Ready sf cs fields lens) :
    0 ≤ sf.committedRows := by
  rw [h.rows_eq]
  exact Int.ofNat_nonneg _

/-- The update pass of `process` returns on a ready ShardFile, and leaves the
row count of the table as it was. -/
theorem updateExisting_ready {sf : ShardFile} {cs : ChangesetRequest} {fields : List Field}
    {lens : List Nat} (h : Ready sf cs fields lens) :
    ∃ off tbl, updateExisting sf cs = Except.ok (off, { sf with table := tbl }) ∧
      ({ sf with table := tbl } : ShardFile).committedRows = sf.committedRows := by
  cases ht : sf.table with
  | none =>
    have hsf : ({ sf with table := none } : ShardFile) = sf := by
      cases sf; simp_all
    refine ⟨0, none, ?_, ?_⟩
    · rw [hsf]; simp [updateExisting, ht]
    · simp [ShardFile.committedRows, ht]
  | some t =>
    obtain ⟨htOK, c0, hc0, hlens0⟩ := h.tab t ht
    obtain ⟨off, t1, hpass, ht1OK, _, _, _⟩ :=
      updatePass_ok fields lens cs h.bufs cs.ShardIds 0 0 t (by simp) h.nonneg htOK
    have hres : NewChunkResolver c0 = { lens := lens } := by
      simp only [NewChunkResolver]
      exact congrArg ChunkResolver.mk hlens0
    refine ⟨off, some t1, ?_, ?_⟩
    · simp only [updateExisting, ht, Table.Column, hc0, hres, h.schema, hpass]
    · simp only [ShardFile.committedRows, Table.NumRows, ht]
      exact ht1OK.1.trans htOK.1.symm

/-- With no field in the schema the append pass writes nothing and returns. -/
theorem appendPass_nofields (cs : ChangesetRequest) :
    ∀ (suffix : List Int) (i : Nat) (s : ShardFile), s.schema = some [] →
      appendPass cs i suffix s = Except.ok s := by
  intro suffix
  induction suffix with
  | nil =>
    intro i s _
    simp [appendPass]
  | cons rowid rest ih =>
    intro i s hs
    simp only [appendPass, ShardFile.Fields, hs, List.length_nil, forRange, loopFrom]
    exact ih (i + 1) s hs

/-- When the number of rows to add is no length `make` accepts, be it too
large or wrapped around to a negative number, `buildAppenders` panics in `make`
at the first field; without a field it makes no slice and returns. -/
theorem buildAppenders_refused (sf : ShardFile) (fields : List Field) (maxid : Int)
    (hschema : sf.schema = some fields)
    (hsup : ∀ f ∈ fields, f.Typ = DataType.int64 ∨ f.Typ = DataType.float64)
    (hbefore : sf.table = none → sf.beforeRows = 0)
    (hn0 : 0 ≤ sf.committedRows) (hmax : maxid < 2 ^ 63)
    (hbig : ¬ maxid - sf.committedRows < maxSliceLen) :
    (fields ≠ [] → sf.buildAppenders maxid = Except.error makeslicePanic) ∧
    (fields = [] → ∃ a, sf.buildAppenders maxid =
      Except.ok { sf with beforeRows := sf.committedRows, added := a }) := by
  have hsize : wrap64 (wrap64 (maxid - sf.committedRows) + 1) < 0 ∨
      maxSliceLen < wrap64 (wrap64 (maxid - sf.committedRows) + 1) := by
    unfold maxSliceLen at hbig ⊢
    rw [wrap64_eq (maxid - sf.committedRows) (by omega) (by omega)]
    unfold wrap64
    omega
  have hmake : ∀ ty, makeSlice ty (wrap64 (wrap64 (maxid - sf.committedRows) + 1)) =
      Except.error makeslicePanic := by
    intro ty
    unfold makeSlice
    rw [if_pos hsize]
  have hnlt : ¬ maxid < sf.committedRows := by
    unfold maxSliceLen at hbig
    omega
  have hunfold : sf.buildAppenders maxid =
      match forRange fields.length
        (allocColumn fields (wrap64 (wrap64 (maxid - sf.committedRows) + 1))) sf.columns with
      | Except.error e => Except.error e
      | Except.ok columns =>
        Except.ok { sf with beforeRows := sf.committedRows, columns := columns,
                            added := wrap64 (wrap64 (maxid - sf.committedRows) + 1) } := by
    cases htab : sf.table with
    | none =>
      have hb := hbefore htab
      simp only [ShardFile.committedRows, htab] at hnlt ⊢
      simp only [ShardFile.buildAppenders, htab, hb, hnlt, if_false, ShardFile.Fields, hschema]
    | some t =>
      simp only [ShardFile.committedRows, htab] at hnlt ⊢
      simp only [ShardFile.buildAppenders, htab, hnlt, if_false, ShardFile.Fields, hschema]
  constructor
  · intro hne
    cases fields with
    | nil => exact absurd rfl hne
    | cons f rest =>
      have hstep : allocColumn (f :: rest) (wrap64 (wrap64 (maxid - sf.committedRows) + 1)) 0
          sf.columns = Except.error makeslicePanic := by
        rcases hsup f (List.mem_cons_self _ _) with hty | hty <;>
          simp [allocColumn, getN, hty, hmake, bind, Except.bind]
      rw [hunfold]
      simp only [forRange, List.length_cons, loopFrom, hstep]
  · intro hnil
    subst hnil
    refine ⟨wrap64 (wrap64 (maxid - sf.committedRows) + 1), ?_⟩
    rw [hunfold]
    simp only [forRange, List.length_nil, loopFrom]

/-- On a ready ShardFile whose row count and row ids are `int64` values, the
only fault `process` can raise is the length panic of `make`: no index is out
of range, no type assertion fails. -/
theorem process_fault_is_makeslice {sf : ShardFile} {cs : ChangesetRequest}
    {fields : List Field} {lens : List Nat} (h : Ready sf cs fields lens)
    (hids : ∀ r ∈ cs.ShardIds, r < 2 ^ 63) (e : Fault)
    (he : sf.process cs = Except.error e) : e = makeslicePanic := by
  by_cases hlim : cs.maxId - sf.committedRows < maxSliceLen
  · obtain ⟨sf1, hproc, _⟩ := process_spec h hlim
    rw [hproc] at he
    cases he
  · obtain ⟨off, tbl, hupd, hcr⟩ := updateExisting_ready h
    have href := buildAppenders_refused { sf with table := tbl } fields cs.maxId h.schema h.sup
      (fun _ => h.before) (by rw [hcr]; exact h.rows_nonneg) (hids _ (maxId_mem cs h.ne))
      (by rw [hcr]; exact hlim)
    unfold ShardFile.process at he
    rw [hupd] at he
    simp only [sliceGet_last cs h.ne] at he
    by_cases hf : fields = []
    · obtain ⟨a, hba⟩ := href.2 hf
      rw [hba] at he
      simp only at he
      split at he
      · rw [appendPass_nofields cs _ _ _ (by rw [← hf]; exact h.schema)] at he
        cases he
      · cases he
    · rw [href.1 hf] at he
      cases he
      rfl

/-- The merge on a ready ShardFile: `process` returns, the in-memory half of
`Save` assembles a record, and every column of the record is the merged data. -/
theorem merge_spec {sf : ShardFile} {cs : ChangesetRequest} {fields : List Field}
    {lens : List Nat} (h : Ready sf cs fields lens) (hfit : sf.Fits cs) :
    ∃ sf1 rec, sf.process cs = Except.ok sf1 ∧ sf1.assemble = Except.ok rec ∧
      sf1.dest = sf.dest ∧ sf1.beforeRows = sf.committedRows ∧
      sf1.added =
        (if cs.maxId < sf.committedRows then 0 else cs.maxId - sf.committedRows + 1) ∧
      rec.schema = fields ∧ rec.rows = max sf.committedRows (cs.maxId + 1) ∧
      rec.parts.length = fields.length ∧
      (∀ t, sf1.table = some t → TableOK fields lens t) ∧
      (sf1.table = none → sf.table = none) ∧
      (0 < sf1.added → ColsOK fields sf1.added.toNat sf1.columns) ∧
      ∀ (k : Nat) (f : Field) (src : Values), fields[k]? = some f → cs.Columns[k]? = some src →
        sf1.oldData k = writeAll (sf.oldData k)
          ((cs.ShardIds.take (splitPoint sf.committedRows cs.ShardIds)).map Int.toNat) src.data ∧
        sf1.newData k = writeAll (List.replicate sf1.added.toNat 0)
          ((cs.ShardIds.drop (splitPoint sf.committedRows cs.ShardIds)).map
            (fun r => (r - sf.committedRows).toNat))
          (src.data.drop (splitPoint sf.committedRows cs.ShardIds)) ∧
        rec.parts[k]? = some (Values.mk f.Typ
          (mergedData (sf.oldData k) sf1.added.toNat cs.ShardIds src.data
            (splitPoint sf.committedRows cs.ShardIds))) := by
  obtain ⟨sf1, hproc, hschema1, hdest1, hbefore1, hcr1, hadded1, htab1, hnone1, hcols1, hdata1⟩ :=
    process_spec h (fits_limit sf cs hfit h.rows_nonneg)
  have hmax := h.last_nonneg
  have hn0 := h.rows_nonneg
  have hlim := hfit.2 _ (maxId_mem cs h.ne)
  have hn64 := hfit.1
  unfold maxSliceLen at hlim
  have hadd0 : 0 ≤ sf1.added := by
    rw [hadded1]
    split <;> omega
  have hne : sf1.added ≤ 0 → sf1.table ≠ none ∧ lens ≠ [] := by
    intro hle
    have hlt : cs.maxId < sf.committedRows := by
      by_contra hcon
      rw [hadded1, if_neg hcon] at hle
      omega
    have hpos : 0 < sf.committedRows := by omega
    constructor
    · intro ht1
      have := hnone1 ht1
      simp [ShardFile.committedRows, this] at hpos
    · intro hnil
      have := h.rows_eq
      rw [hnil] at this
      simp at this
      omega
  obtain ⟨parts, hasm, hplen, hparts⟩ :=
    assemble_ok sf1 fields lens hschema1 h.sup htab1 hadd0 hcols1 hne (hbefore1.trans hcr1.symm)
      (by rw [hbefore1, hadded1]; split <;> omega)
  refine ⟨sf1, _, hproc, hasm, hdest1, hbefore1, hadded1, rfl, ?_, hplen, htab1, hnone1, hcols1,
    ?_⟩
  · show sf1.beforeRows + sf1.added = _
    rw [hbefore1, hadded1]
    split
    · rw [max_eq_left (by omega)]; omega
    · rw [max_eq_right (by omega)]; omega
  · intro k f src hf hsrc
    obtain ⟨hold, hnew⟩ := hdata1 k f src hf hsrc
    refine ⟨hold, hnew, ?_⟩
    rw [hparts k f hf, hold, hnew]
    unfold mergedData
    rw [h.old_length k f hf]

/-! ### Schema reconciliation lemmas -/

theorem cast_supported (v : Dyn) : cast v = DataType.int64 ∨ cast v = DataType.float64 := by
  unfold cast
  split <;> simp

theorem ArrowSchema_supported (cs : ChangesetRequest) :
    ∀ f ∈ cs.ArrowSchema, f.Typ = DataType.int64 ∨ f.Typ = DataType.float64 := by
  intro f hf
  obtain ⟨nt, _, hnt⟩ := List.mem_map.mp hf
  rw [← hnt]
  exact cast_supported _

theorem ArrowSchema_length (cs : ChangesetRequest) :
    cs.ArrowSchema.length = cs.SimpleSchema.length := by
  simp [ChangesetRequest.ArrowSchema]

theorem compareFields_eq : ∀ (a b : List Field), a.length = b.length →
    (compareFields a b = true ↔ a = b) := by
  intro a
  induction a with
  | nil =>
    intro b hlen
    cases b with
    | nil => simp [compareFields]
    | cons _ _ => simp at hlen
  | cons f1 r1 ih =>
    intro b hlen
    cases b with
    | nil => simp at hlen
    | cons f2 r2 =>
      have hl : r1.length = r2.length := by simpa using hlen
      obtain ⟨n1, t1⟩ := f1
      obtain ⟨n2, t2⟩ := f2
      by_cases hn : n1 = n2
      · by_cases hty : t1 = t2
        · simp [compareFields, hn, hty, ih r2 hl]
        · simp [compareFields, hn, hty]
      · simp [compareFields, hn]

theorem compareSchema_iff (a b : Schema) : compareSchema (some a) (some b) = true ↔ a = b := by
  by_cases hlen : a.length = b.length
  · simp [compareSchema, hlen, compareFields_eq a b hlen]
  · have : a ≠ b := fun h => hlen (by rw [h])
    simp [compareSchema, hlen, this]

theorem NewShardFile_spec (d : Disk) (name : String) (sf0 : ShardFile)
    (hnew : NewShardFile d name = Except.ok sf0) :
    sf0.beforeRows = 0 ∧ sf0.added = 0 ∧ sf0.columns = [] ∧ sf0.dest = name ∧
    sf0.schema = sf0.table.map Table.Schema ∧
    (match sf0.table with
      | none => d.files (name ++ ".parquet") = none
      | some t => d.files (name ++ ".parquet") = some (File.parquet t)) := by
  unfold NewShardFile at hnew
  cases hfile : d.files (name ++ ".parquet") with
  | none =>
    rw [hfile] at hnew
    simp only [Except.ok.injEq] at hnew
    subst hnew
    simp
  | some file =>
    rw [hfile] at hnew
    cases file with
    | corrupt => simp [readTableParquet, hfile] at hnew
    | parquet t =>
      simp only [readTableParquet, hfile, Except.ok.injEq] at hnew
      subst hnew
      simp

theorem EnsureSchema_ok_spec (sf0 sf : ShardFile) (cs : ChangesetRequest)
    (hens : sf0.EnsureSchema cs = (sf, none)) :
    sf.schema = some cs.ArrowSchema ∧ sf.table = sf0.table ∧ sf.beforeRows = sf0.beforeRows ∧
    sf.added = sf0.added ∧ sf.dest = sf0.dest ∧
    sf.columns = List.replicate cs.ArrowSchema.length nilValue ∧
    (∀ s, sf0.schema = some s → s = cs.ArrowSchema) := by
  unfold ShardFile.EnsureSchema at hens
  cases hs : sf0.schema with
  | none =>
    rw [hs] at hens
    simp only [Prod.mk.injEq, and_true] at hens
    subst hens
    simp
  | some existing =>
    rw [hs] at hens
    by_cases hcmp : compareSchema (some existing) (some cs.ArrowSchema) = true
    · have heq := (compareSchema_iff _ _).mp hcmp
      simp only [hcmp, Bool.not_true, Bool.false_eq_true, if_false, Prod.mk.injEq,
        and_true] at hens
      subst hens
      simp [hs, heq]
    · simp [hcmp] at hens

theorem BufsOK_of_valid (cs : ChangesetRequest) (hvalid : cs.Valid) :
    BufsOK cs.ArrowSchema cs := by
  obtain ⟨_, _, _, hlen, hzip⟩ := hvalid
  intro k f hf
  have hk : k < cs.Columns.length := by
    have := (List.getElem?_eq_some.mp hf).1
    rw [ArrowSchema_length] at this
    omega
  have hsrc : cs.Columns[k]? = some cs.Columns[k] := List.getElem?_eq_getElem hk
  have hmem : (f, cs.Columns[k]) ∈ List.zip cs.ArrowSchema cs.Columns :=
    List.mem_iff_getElem?.mpr ⟨k, List.getElem?_zip_eq_some.mpr ⟨hf, hsrc⟩⟩
  obtain ⟨h1, h2⟩ := hzip _ hmem
  exact ⟨_, hsrc, h1, h2⟩

theorem TableOK_of_wellFormed (t : Table) (c0 : Column) (rest : List Column)
    (hcols : t.cols = c0 :: rest) (hwf : t.WellFormed)
    (hsup : ∀ f ∈ t.Schema, f.Typ = DataType.int64 ∨ f.Typ = DataType.float64) :
    TableOK t.Schema c0.lens t := by
  unfold Table.WellFormed at hwf
  rw [hcols] at hwf
  simp only at hwf
  obtain ⟨hall, hrows⟩ := hwf
  refine ⟨hrows, by simp [Table.Schema], ?_⟩
  intro k f hf
  simp only [Table.Schema, List.getElem?_map] at hf
  cases hc : t.cols[k]? with
  | none => rw [hc] at hf; simp at hf
  | some c =>
    rw [hc] at hf
    simp only [Option.map_some', Option.some.injEq] at hf
    have hmem : c ∈ t.cols := List.mem_iff_getElem?.mpr ⟨k, hc⟩
    have hmem1 : c ∈ c0 :: rest := hcols ▸ hmem
    obtain ⟨hl, he⟩ := hall c hmem1
    refine ⟨c, rfl, hf, hl, ?_, ?_⟩
    · intro a ha
      rw [← hf]
      exact he a ha
    · apply hsup
      rw [← hf]
      exact List.mem_map.mpr ⟨c, hmem, rfl⟩

theorem loaded_of_EnsureSchema (d : Disk) (name : String) (sf0 sf : ShardFile)
    (cs : ChangesetRequest) (hnew : NewShardFile d name = Except.ok sf0)
    (hwf : sf0.WellFormed) (hens : sf0.EnsureSchema cs = (sf, none)) :
    ∃ lens, Loaded sf cs.ArrowSchema lens := by
  obtain ⟨hb0, ha0, _, _, hschema0, _⟩ := NewShardFile_spec d name sf0 hnew
  obtain ⟨hschema, htab, hbefore, hadded, _, hcolumns, hsame⟩ := EnsureSchema_ok_spec sf0 sf cs hens
  cases ht : sf0.table with
  | none =>
    refine ⟨[], hschema, ArrowSchema_supported cs, by simp [hcolumns], by rw [hbefore, hb0],
      by rw [hadded, ha0], ?_, fun _ => rfl⟩
    intro t ht1
    rw [htab, ht] at ht1
    cases ht1
  | some t =>
    have hwft : t.WellFormed := by
      unfold ShardFile.WellFormed at hwf
      rw [ht] at hwf
      exact hwf
    have hts : t.Schema = cs.ArrowSchema := by
      apply hsame
      rw [hschema0, ht]
      rfl
    cases hcols : t.cols with
    | nil =>
      unfold Table.WellFormed at hwft
      rw [hcols] at hwft
      exact absurd hwft (by simp)
    | cons c0 rest =>
      have hok := TableOK_of_wellFormed t c0 rest hcols hwft
        (by rw [hts]; exact ArrowSchema_supported cs)
      rw [hts] at hok
      refine ⟨c0.lens, hschema, ArrowSchema_supported cs, by simp [hcolumns], by rw [hbefore, hb0],
        by rw [hadded, ha0], ?_, ?_⟩
      · intro t1 ht1
        rw [htab, ht] at ht1
        cases ht1
        exact ⟨hok, c0, by simp [hcols], rfl⟩
      · intro hnone
        rw [htab, ht] at hnone
        cases hnone

/-- A ShardFile returned by `NewShardFile` whose table, if any, is well formed,
and that accepted a valid changeset in `EnsureSchema`, is ready for `process`. -/
theorem ready_of_EnsureSchema (d : Disk) (name : String) (sf0 sf : ShardFile)
    (cs : ChangesetRequest) (hnew : NewShardFile d name = Except.ok sf0)
    (hwf : sf0.WellFormed)
    (hens : sf0.EnsureSchema cs = (sf, none)) (hvalid : cs.Valid) :
    ∃ lens, Ready sf cs cs.ArrowSchema lens := by
  obtain ⟨lens, hl⟩ := loaded_of_EnsureSchema d name sf0 sf cs hnew hwf hens
  have hbufs := BufsOK_of_valid cs hvalid
  obtain ⟨hne, hnn, hsorted, _, _⟩ := hvalid
  exact ⟨lens, hl.schema, hl.sup, hl.cols, hl.before, hl.added, hbufs, hl.tab, hl.notab, hne, hnn,
    hsorted⟩

theorem cell_of_flat (fields : List Field) (lens : List Nat) (t : Table) (c : Column)
    (k : Nat) (r x : Int) (ht : TableOK fields lens t) (hc : t.cols[k]? = some c)
    (h0 : 0 ≤ r) (hx : c.flat[r.toNat]? = some x) : t.cell k r = Except.ok x := by
  have hk : k < fields.length := by
    have := (List.getElem?_eq_some.mp hc).1
    rw [ht.2.1] at this
    exact this
  have hlensOf : ∀ (i : Nat) (ci : Column), t.cols[i]? = some ci → ci.lens = lens := by
    intro i ci hci
    have hi : i < fields.length := by
      have := (List.getElem?_eq_some.mp hci).1
      rw [ht.2.1] at this
      exact this
    obtain ⟨c2, hc2, hok⟩ := ht.2.2 i fields[i] (List.getElem?_eq_getElem hi)
    rw [hci] at hc2
    cases hc2
    exact hok.2.1
  have h0k : 0 < fields.length := by omega
  obtain ⟨c0, hc0, _⟩ := ht.2.2 0 fields[0] (List.getElem?_eq_getElem h0k)
  have hl0 : c0.lens = lens := hlensOf 0 c0 hc0
  have hlk : c.chunks.map (fun v => v.data.length) = lens := hlensOf k c hc
  have hlen : r.toNat < ((c.chunks.map Values.data).flatten).length :=
    (List.getElem?_eq_some.mp hx).1
  obtain ⟨k1, l, arr, hres, hget, _, hval, _⟩ := resolveFrom_flat c.chunks 0 r.toNat hlen
  rw [hlk] at hres
  have hneg : ¬ r < 0 := by omega
  have hresolver : NewChunkResolver c0 = { lens := lens } := by
    simp only [NewChunkResolver]
    exact congrArg ChunkResolver.mk hl0
  have hxv : arr.data[l]? = some x := by
    rw [hval]
    exact hx
  simp only [Table.cell, Table.Column, hc0, hresolver, ChunkResolver.Resolve, hneg, if_false, hres,
    hc, getN]
  simp only [Nat.zero_add] at hget ⊢
  rw [hget]
  simp only [hxv]

theorem Ready.take_lt {sf : ShardFile} {cs : ChangesetRequest} {fields : List Field}
    {lens : List Nat} (h : Ready sf cs fields lens) (k : Nat) (f : Field)
    (hf : fields[k]? = some f) :
    ∀ r ∈ cs.ShardIds.take (splitPoint sf.committedRows cs.ShardIds),
      r < ((sf.oldData k).length : Int) := by
  intro r hr
  rw [h.old_length k f hf]
  exact mem_take_splitPoint _ _ r hr

theorem Ready.drop_range {sf : ShardFile} {cs : ChangesetRequest} {fields : List Field}
    {lens : List Nat} (h : Ready sf cs fields lens) (k : Nat) (f : Field)
    (hf : fields[k]? = some f) (added : Int)
    (hadded : added =
      (if cs.maxId < sf.committedRows then 0 else cs.maxId - sf.committedRows + 1)) :
    ∀ r ∈ cs.ShardIds.drop (splitPoint sf.committedRows cs.ShardIds),
      ((sf.oldData k).length : Int) ≤ r ∧
        r - ((sf.oldData k).length : Int) < (added.toNat : Int) := by
  intro r hr
  rw [h.old_length k f hf]
  have h1 := mem_drop_splitPoint _ _ h.sorted r hr
  have h2 := le_maxId cs h.sorted r (List.mem_of_mem_drop hr)
  have hnot : ¬ cs.maxId < sf.committedRows := by omega
  rw [if_neg hnot] at hadded
  constructor
  · exact h1
  · omega

/-- The value the merged column `k` holds at a row id of the changeset: the
value of the last entry carrying that row id. -/
theorem Ready.merged_get_last {sf : ShardFile} {cs : ChangesetRequest} {fields : List Field}
    {lens : List Nat} (h : Ready sf cs fields lens) (k : Nat) (f : Field)
    (hf : fields[k]? = some f) (added : Int)
    (hadded : added =
      (if cs.maxId < sf.committedRows then 0 else cs.maxId - sf.committedRows + 1))
    (vals : List Int) (j : Nat) (r x : Int) (hj : cs.ShardIds[j]? = some r)
    (hx : vals[j]? = some x) (hlast : ∀ j1, j < j1 → cs.ShardIds[j1]? ≠ some r) :
    (mergedData (sf.oldData k) added.toNat cs.ShardIds vals
      (splitPoint sf.committedRows cs.ShardIds))[r.toNat]? = some x :=
  mergedData_get_last _ _ _ _ _ h.nonneg (h.take_lt k f hf)
    (h.drop_range k f hf added hadded) j r x hj hx hlast

/-- The value the merged column `k` holds at a row that is no row id of the
changeset: the old cell, or zero for a new row. -/
theorem Ready.merged_get_other {sf : ShardFile} {cs : ChangesetRequest} {fields : List Field}
    {lens : List Nat} (h : Ready sf cs fields lens) (k : Nat) (f : Field)
    (hf : fields[k]? = some f) (added : Int)
    (hadded : added =
      (if cs.maxId < sf.committedRows then 0 else cs.maxId - sf.committedRows + 1))
    (vals : List Int) (q : Nat) (hq : ∀ r ∈ cs.ShardIds, r.toNat ≠ q) :
    (mergedData (sf.oldData k) added.toNat cs.ShardIds vals
      (splitPoint sf.committedRows cs.ShardIds))[q]? =
      (sf.oldData k ++ List.replicate added.toNat 0)[q]? :=
  mergedData_get_other _ _ _ _ _
    (fun r hr => (h.drop_range k f hf added hadded r hr).1) q hq

theorem field_of_column (cs : ChangesetRequest) (fields : List Field)
    (hlen : cs.Columns.length = fields.length)
    (k : Nat) (src : Values) (hsrc : cs.Columns[k]? = some src) :
    ∃ f, fields[k]? = some f := by
  have hk : k < fields.length := by
    have := (List.getElem?_eq_some.mp hsrc).1
    omega
  exact ⟨fields[k], List.getElem?_eq_getElem hk⟩

/-! ## The claims -/

/-- C1: for a ShardFile as `NewShardFile` returns it (table well formed, `n`
committed rows) that accepted a valid changeset (row ids non-negative and
non-decreasing, buffers matching the schema) whose sizes fit the machine (`n`
an `int64` value, every row id below the largest slice length `make` accepts),
`process` returns, the column concatenation of `Save` yields a record, and for
every column `k` and every row id `r` of the changeset the record holds at row
`r` the changeset value of the last entry carrying `r`; when `r < n` that value
was written in place into the existing chunk the resolver gives for `r`, and
when `n ≤ r` it was written at position `r - n` of the new buffer of the
column. -/
theorem process_writes_changeset_values (d : Disk) (name : String) (sf0 sf : ShardFile)
    (cs : ChangesetRequest) (hnew : NewShardFile d name = Except.ok sf0)
    (hwf : sf0.WellFormed) (hens : sf0.EnsureSchema cs = (sf, none)) (hvalid : cs.Valid)
    (hfit : sf.Fits cs) :
    ∃ sf1 rec, sf.process cs = Except.ok sf1 ∧ sf1.assemble = Except.ok rec ∧
      ∀ (k j : Nat) (src : Values) (r x : Int), cs.Columns[k]? = some src →
        cs.ShardIds[j]? = some r → src.data[j]? = some x →
        (∀ j1, j < j1 → cs.ShardIds[j1]? ≠ some r) →
        (∃ part, rec.parts[k]? = some part ∧ part.data[r.toNat]? = some x) ∧
        (r < sf.committedRows → ∃ t1, sf1.table = some t1 ∧ t1.cell k r = Except.ok x) ∧
        (sf.committedRows ≤ r →
          ∃ v, sf1.columns[k]? = some v ∧ v.data[(r - sf.committedRows).toNat]? = some x) := by
  obtain ⟨lens, h⟩ := ready_of_EnsureSchema d name sf0 sf cs hnew hwf hens hvalid
  obtain ⟨sf1, rec, hproc, hasm, _, _, hadded, _, _, _, htab1, hnone1, _, hdata⟩ :=
    merge_spec h hfit
  refine ⟨sf1, rec, hproc, hasm, ?_⟩
  intro k j src r x hsrc hj hx hlast
  have hclen : cs.Columns.length = cs.ArrowSchema.length := by
    rw [ArrowSchema_length]; exact hvalid.2.2.2.1
  obtain ⟨f, hf⟩ := field_of_column cs _ hclen k src hsrc
  obtain ⟨hold, hnew1, hpart⟩ := hdata k f src hf hsrc
  have hr0 : 0 ≤ r := h.nonneg r (List.mem_iff_getElem?.mpr ⟨j, hj⟩)
  have hget := h.merged_get_last k f hf sf1.added hadded src.data j r x hj hx hlast
  have hlenOld : ((sf1.oldData k).length : Int) = sf.committedRows := by
    rw [hold, length_writeAll]
    exact h.old_length k f hf
  have hsplit : mergedData (sf.oldData k) sf1.added.toNat cs.ShardIds src.data
      (splitPoint sf.committedRows cs.ShardIds) = sf1.oldData k ++ sf1.newData k := by
    rw [hold, hnew1]
    unfold mergedData
    rw [h.old_length k f hf]
  refine ⟨⟨_, hpart, hget⟩, ?_, ?_⟩
  · intro hlt
    rw [hsplit, List.getElem?_append_left (by omega)] at hget
    cases ht1 : sf1.table with
    | none =>
      have hn : sf.committedRows = 0 := by
        simp [ShardFile.committedRows, hnone1 ht1]
      omega
    | some t1 =>
      refine ⟨t1, rfl, ?_⟩
      have hok := htab1 t1 ht1
      obtain ⟨c1, hc1, _⟩ := hok.2.2 k f hf
      have hflat : sf1.oldData k = c1.flat := by
        simp only [ShardFile.oldData, ht1, hc1]
      rw [hflat] at hget
      exact cell_of_flat _ lens t1 c1 k r x hok hc1 hr0 hget
  · intro hge
    rw [hsplit, List.getElem?_append_right (by omega)] at hget
    have hidx : r.toNat - (sf1.oldData k).length = (r - sf.committedRows).toNat := by omega
    rw [hidx] at hget
    unfold ShardFile.newData at hget
    by_cases hpos : sf1.added > 0
    · rw [if_pos hpos] at hget
      cases hv : sf1.columns[k]? with
      | none => rw [hv] at hget; simp at hget
      | some v =>
        rw [hv] at hget
        exact ⟨v, rfl, hget⟩
    · rw [if_neg hpos] at hget
      simp at hget

theorem process_writes_changeset_values_witness :
    NewShardFile sampleDisk "shard" = Except.ok sampleShardFile ∧
    sampleShardFile.WellFormed ∧
    sampleShardFile.EnsureSchema sampleChangeset = (sampleReady, none) ∧
    sampleChangeset.Valid ∧ sampleReady.Fits sampleChangeset ∧
    ∃ sf1 rec, sampleReady.process sampleChangeset = Except.ok sf1 ∧
      sf1.assemble = Except.ok rec ∧
      ∀ (k j : Nat) (src : Values) (r x : Int), sampleChangeset.Columns[k]? = some src →
        sampleChangeset.ShardIds[j]? = some r → src.data[j]? = some x →
        (∀ j1, j < j1 → sampleChangeset.ShardIds[j1]? ≠ some r) →
        (∃ part, rec.parts[k]? = some part ∧ part.data[r.toNat]? = some x) ∧
        (r < sampleReady.committedRows →
          ∃ t1, sf1.table = some t1 ∧ t1.cell k r = Except.ok x) ∧
        (sampleReady.committedRows ≤ r →
          ∃ v, sf1.columns[k]? = some v ∧
            v.data[(r - sampleReady.committedRows).toNat]? = some x) :=
  ⟨by decide, by decide, by decide, by decide, by decide,
    process_writes_changeset_values sampleDisk "shard" sampleShardFile sampleReady sampleChangeset
      (by decide) (by decide) (by decide) (by decide) (by decide)⟩

/-- C3: for a ShardFile as `NewShardFile` returns it (table well formed, `n`
committed rows) that accepted a valid changeset whose sizes fit the machine
(`n` an `int64` value, every row id below the largest slice length `make`
accepts), applying the changeset leaves every row `q < n` that is no row id of
the changeset with its previous value in every column, and every new row `q`
with `n ≤ q ≤ maxId` that is no row id of the changeset holds zero; rows
`[{0,10},{1,20}]` with changeset `[{1,99},{3,40}]` give
`[{0,10},{1,99},{2,0},{3,40}]`. -/
theorem process_frame (d : Disk) (name : String) (sf0 sf : ShardFile)
    (cs : ChangesetRequest) (hnew : NewShardFile d name = Except.ok sf0)
    (hwf : sf0.WellFormed) (hens : sf0.EnsureSchema cs = (sf, none)) (hvalid : cs.Valid)
    (hfit : sf.Fits cs) :
    (∃ sf1 rec, sf.process cs = Except.ok sf1 ∧ sf1.assemble = Except.ok rec ∧
      ∀ (k q : Nat), k < cs.Columns.length → (∀ r ∈ cs.ShardIds, r ≠ (q : Int)) →
        ∃ part, rec.parts[k]? = some part ∧
          (((q : Int) < sf.committedRows → part.data[q]? = (sf.oldData k)[q]?) ∧
           (sf.committedRows ≤ (q : Int) → (q : Int) ≤ cs.maxId → part.data[q]? = some 0))) ∧
    ((sampleShardFile.EnsureSchema sampleChangeset).1.process sampleChangeset).bind
      ShardFile.assemble =
      Except.ok { schema := [{ Name := "a", Typ := DataType.int64 }],
                  parts := [{ elem := DataType.int64, data := [10, 99, 0, 40] }],
                  rows := 4 } := by
  refine ⟨?_, by decide⟩
  obtain ⟨lens, h⟩ := ready_of_EnsureSchema d name sf0 sf cs hnew hwf hens hvalid
  obtain ⟨sf1, rec, hproc, hasm, _, _, hadded, _, _, _, _, _, _, hdata⟩ := merge_spec h hfit
  refine ⟨sf1, rec, hproc, hasm, ?_⟩
  intro k q hk hq
  have hclen : cs.Columns.length = cs.ArrowSchema.length := by
    rw [ArrowSchema_length]; exact hvalid.2.2.2.1
  have hsrc : cs.Columns[k]? = some cs.Columns[k] := List.getElem?_eq_getElem hk
  obtain ⟨f, hf⟩ := field_of_column cs _ hclen k _ hsrc
  obtain ⟨_, _, hpart⟩ := hdata k f _ hf hsrc
  have hq1 : ∀ r ∈ cs.ShardIds, r.toNat ≠ q := by
    intro r hr hcon
    have h0 := h.nonneg r hr
    exact hq r hr (by omega)
  have hget := h.merged_get_other k f hf sf1.added hadded cs.Columns[k].data q hq1
  have hlen := h.old_length k f hf
  refine ⟨_, hpart, ?_, ?_⟩
  · intro hlt
    show (mergedData _ _ _ _ _)[q]? = _
    rw [hget, List.getElem?_append_left (by omega)]
  · intro hge hle
    show (mergedData _ _ _ _ _)[q]? = _
    rw [hget, List.getElem?_append_right (by omega), List.getElem?_replicate]
    have hnot : ¬ cs.maxId < sf.committedRows := by omega
    rw [hadded, if_neg hnot, if_pos (by omega)]

theorem schema_ne_iff (a b : Schema) :
    a ≠ b ↔ (a.length ≠ b.length ∨
      ∃ (i : Nat) (f1 f2 : Field), a[i]? = some f1 ∧ b[i]? = some f2 ∧
        (f1.Name ≠ f2.Name ∨ f1.Typ ≠ f2.Typ)) := by
  constructor
  · intro hne
    by_cases hlen : a.length = b.length
    · right
      by_contra hall
      apply hne
      apply List.ext_getElem?
      intro i
      by_cases hi : i < a.length
      · have hib : i < b.length := by omega
        rw [List.getElem?_eq_getElem hi, List.getElem?_eq_getElem hib]
        congr 1
        by_contra hfield
        apply hall
        refine ⟨i, a[i], b[i], List.getElem?_eq_getElem hi, List.getElem?_eq_getElem hib, ?_⟩
        by_contra hboth
        simp only [not_or, not_not] at hboth
        apply hfield
        cases hfa : a[i]
        cases hfb : b[i]
        rw [hfa, hfb] at hboth
        simp only at hboth
        rw [hboth.1, hboth.2]
      · rw [List.getElem?_eq_none (by omega), List.getElem?_eq_none (by omega)]
    · exact Or.inl hlen
  · intro h heq
    subst heq
    rcases h with h | ⟨i, f1, f2, h1, h2, h3⟩
    · exact h rfl
    · rw [h1] at h2
      cases h2
      rcases h3 with h3 | h3 <;> exact h3 rfl

/-- C5: for a ShardFile that has a schema, `EnsureSchema` returns an error
exactly when the changeset's schema (`cs.ArrowSchema()`) differs from the
existing one in field count, or in the name or the type of the field at some
position; otherwise it returns no error.  The error is the schema-mismatch
error, and for a changeset whose declared types are all supported the
changeset's schema is its declared `SimpleSchema`. -/
theorem EnsureSchema_error_iff (sf : ShardFile) (cs : ChangesetRequest) (existing : Schema)
    (hs : sf.schema = some existing) :
    ((sf.EnsureSchema cs).2 ≠ none ↔
      (existing.length ≠ cs.ArrowSchema.length ∨
        ∃ (i : Nat) (f1 f2 : Field), existing[i]? = some f1 ∧ cs.ArrowSchema[i]? = some f2 ∧
          (f1.Name ≠ f2.Name ∨ f1.Typ ≠ f2.Typ))) ∧
    ((sf.EnsureSchema cs).2 = none ∨
      (sf.EnsureSchema cs).2 = some (Fault.error "dataframe schema's don't match")) ∧
    ((∀ nt ∈ cs.SimpleSchema, nt.DataType = DataType.int64 ∨ nt.DataType = DataType.float64) →
      cs.ArrowSchema = cs.SimpleSchema.map (fun nt => { Name := nt.Name, Typ := nt.DataType })) := by
  refine ⟨?_, ?_, ?_⟩
  · rw [← schema_ne_iff]
    by_cases heq : existing = cs.ArrowSchema
    · have hcmp := (compareSchema_iff existing cs.ArrowSchema).mpr heq
      simp only [ShardFile.EnsureSchema, hs, hcmp]
      simp [heq]
    · have hcmp : compareSchema (some existing) (some cs.ArrowSchema) = false := by
        cases hc : compareSchema (some existing) (some cs.ArrowSchema) with
        | false => rfl
        | true => exact absurd ((compareSchema_iff _ _).mp hc) heq
      simp [ShardFile.EnsureSchema, hs, hcmp, heq]
  · cases hc : compareSchema (some existing) (some cs.ArrowSchema) <;>
      simp [ShardFile.EnsureSchema, hs, hc]
  · intro hall
    unfold ChangesetRequest.ArrowSchema
    apply List.map_congr_left
    intro nt hnt
    rcases hall nt hnt with h | h <;> simp [h, cast]

/-- C6: for a ShardFile with no schema, `EnsureSchema` returns no error and
adopts the changeset's schema: afterwards the schema has as many fields as the
changeset's `SimpleSchema`, with the same names in the same order, and the
ShardFile has one empty column slot per field. -/
theorem EnsureSchema_adopts (sf : ShardFile) (cs : ChangesetRequest) (hs : sf.schema = none) :
    (sf.EnsureSchema cs).2 = none ∧
    ∃ s, (sf.EnsureSchema cs).1.schema = some s ∧ s = cs.ArrowSchema ∧
      s.length = cs.SimpleSchema.length ∧
      s.map Field.Name = cs.SimpleSchema.map NameType.Name ∧
      (sf.EnsureSchema cs).1.columns = List.replicate s.length nilValue ∧
      (sf.EnsureSchema cs).1.columns.length = cs.SimpleSchema.length := by
  refine ⟨by simp [ShardFile.EnsureSchema, hs], cs.ArrowSchema, by simp [ShardFile.EnsureSchema, hs],
    rfl, ArrowSchema_length cs, ?_, by simp [ShardFile.EnsureSchema, hs], ?_⟩
  · simp [ChangesetRequest.ArrowSchema, List.map_map, Function.comp_def]
  · simp [ShardFile.EnsureSchema, hs, ArrowSchema_length]

/-- C7: when the shard file exists and is readable and its schema differs from
the changeset's schema (`cs.ArrowSchema()`, which is the declared
`SimpleSchema` when the declared types are supported ones),
`ApplyDataframeChangeset` returns the schema-mismatch error, the file system is
unchanged (no file written, nothing renamed: files and operation log are those
of before), and `EnsureSchema` left the ShardFile as loaded (table, schema and
column buffers unmodified). -/
theorem ApplyDataframeChangeset_mismatch (w : World) (fname : String) (cs : ChangesetRequest)
    (shard : Nat) (t : Table)
    (hfile : w.disk.files (fname ++ ".parquet") = some (File.parquet t))
    (hdiff : t.Schema ≠ cs.ArrowSchema) :
    (ApplyDataframeChangeset w fname cs shard).2 =
      Except.error (Fault.error "dataframe schema's don't match") ∧
    (ApplyDataframeChangeset w fname cs shard).1.disk.files = w.disk.files ∧
    (ApplyDataframeChangeset w fname cs shard).1.disk.log = w.disk.log ∧
    (∃ sf0, NewShardFile w.disk fname = Except.ok sf0 ∧ sf0.table = some t ∧
      sf0.schema = some t.Schema ∧ (sf0.EnsureSchema cs).1 = sf0) ∧
    ((∀ nt ∈ cs.SimpleSchema, nt.DataType = DataType.int64 ∨ nt.DataType = DataType.float64) →
      cs.ArrowSchema = cs.SimpleSchema.map (fun nt => { Name := nt.Name, Typ := nt.DataType })) := by
  have hnew : NewShardFile w.disk fname = Except.ok
      { table := some t, schema := some t.Schema, beforeRows := 0, added := 0, columns := [],
        dest := fname } := by
    simp [NewShardFile, readTableParquet, hfile]
  have hcmp : compareSchema (some t.Schema) (some cs.ArrowSchema) = false := by
    cases hc : compareSchema (some t.Schema) (some cs.ArrowSchema) with
    | false => rfl
    | true => exact absurd ((compareSchema_iff _ _).mp hc) hdiff
  refine ⟨?_, ?_, ?_, ⟨_, hnew, rfl, rfl, ?_⟩, ?_⟩
  · simp [ApplyDataframeChangeset, hnew, ShardFile.EnsureSchema, hcmp]
  · simp [ApplyDataframeChangeset, hnew, ShardFile.EnsureSchema, hcmp]
  · simp [ApplyDataframeChangeset, hnew, ShardFile.EnsureSchema, hcmp]
  · simp [ShardFile.EnsureSchema, hcmp]
  · intro hall
    unfold ChangesetRequest.ArrowSchema
    apply List.map_congr_left
    intro nt hnt
    rcases hall nt hnt with h | h <;> simp [h, cast]

/-- C8 (the code at the failing input): `cast` maps the unsupported type
`utf8` to Int64, `ArrowSchema` therefore declares column `a` as Int64, and
`ApplyDataframeChangeset` on a shard without file succeeds and commits a table
whose column `a` is an Int64 column: the declared type was coerced, nothing
failed. -/
theorem cast_coerces_unsupported_type :
    cast (Dyn.dataType (DataType.other "utf8")) = DataType.int64 ∧
    unsupportedChangeset.ArrowSchema = [{ Name := "a", Typ := DataType.int64 }] ∧
    (ApplyDataframeChangeset { disk := emptyDisk, registry := LockRegistry.init } "shard"
      unsupportedChangeset 0).2 = Except.ok () ∧
    (ApplyDataframeChangeset { disk := emptyDisk, registry := LockRegistry.init } "shard"
      unsupportedChangeset 0).1.disk.files "shard.parquet" =
      some (File.parquet
        { cols := [{ field := { Name := "a", Typ := DataType.int64 },
                     chunks := [{ elem := DataType.int64, data := [5] }] }],
          rows := 1 }) := by
  refine ⟨by decide, by decide, by decide, by decide⟩

theorem getDataframeWritelock_spec (r : LockRegistry) (shard : Nat) :
    (getDataframeWritelock r shard).1.dataframeShardLocks shard =
      some (getDataframeWritelock r shard).2 ∧
    (∀ (k l : Nat), r.dataframeShardLocks k = some l →
      (getDataframeWritelock r shard).1.dataframeShardLocks k = some l) ∧
    (∀ (k l : Nat), (getDataframeWritelock r shard).1.dataframeShardLocks k = some l →
      r.dataframeShardLocks k = some l ∨ k = shard) ∧
    (r.Consistent → (getDataframeWritelock r shard).1.Consistent) := by
  unfold getDataframeWritelock
  cases hget : r.dataframeShardLocks shard with
  | some lock =>
    refine ⟨hget, fun k l h => h, fun k l h => Or.inl h, fun h => h⟩
  | none =>
    refine ⟨by simp, ?_, ?_, ?_⟩
    · intro k l hk
      have hne : k ≠ shard := by
        intro heq
        rw [heq, hget] at hk
        cases hk
      simp [Function.update_noteq hne, hk]
    · intro k l hk
      by_cases hks : k = shard
      · exact Or.inr hks
      · left
        simpa [Function.update_noteq hks] using hk
    · intro ⟨hlt, hinj⟩
      constructor
      · intro k l hk
        by_cases hks : k = shard
        · subst hks
          simp at hk
          simp only
          omega
        · simp only [Function.update_noteq hks] at hk
          have := hlt k l hk
          simp only
          omega
      · intro k1 k2 l h1 h2
        by_cases hk1 : k1 = shard
        · by_cases hk2 : k2 = shard
          · rw [hk1, hk2]
          · subst hk1
            simp only [Function.update_same, Option.some.injEq] at h1
            simp only [Function.update_noteq hk2] at h2
            have := hlt k2 l h2
            omega
        · by_cases hk2 : k2 = shard
          · subst hk2
            simp only [Function.update_same, Option.some.injEq] at h2
            simp only [Function.update_noteq hk1] at h1
            have := hlt k1 l h1
            omega
          · simp only [Function.update_noteq hk1] at h1
            simp only [Function.update_noteq hk2] at h2
            exact hinj k1 k2 l h1 h2

theorem runLocks_spec (calls : List Nat) :
    ∀ r : LockRegistry,
      (∀ (k l : Nat), r.dataframeShardLocks k = some l →
        (runLocks r calls).1.dataframeShardLocks k = some l) ∧
      (∀ (k l : Nat), (runLocks r calls).1.dataframeShardLocks k = some l →
        r.dataframeShardLocks k = some l ∨ k ∈ calls) ∧
      (r.Consistent → (runLocks r calls).1.Consistent) ∧
      (∀ (i s : Nat), calls[i]? = some s →
        ∃ l, (runLocks r calls).2[i]? = some l ∧
          (runLocks r calls).1.dataframeShardLocks s = some l) := by
  induction calls with
  | nil =>
    intro r
    refine ⟨fun k l h => h, fun k l h => Or.inl h, fun h => h, ?_⟩
    intro i s hi
    simp at hi
  | cons shard rest ih =>
    intro r
    obtain ⟨hset, hkeep, hkeys, hcons⟩ := getDataframeWritelock_spec r shard
    obtain ⟨ihkeep, ihkeys, ihcons, ihlocks⟩ := ih (getDataframeWritelock r shard).1
    refine ⟨?_, ?_, ?_, ?_⟩
    · intro k l hk
      exact ihkeep k l (hkeep k l hk)
    · intro k l hk
      rcases ihkeys k l hk with h | h
      · rcases hkeys k l h with h1 | h1
        · exact Or.inl h1
        · exact Or.inr (by rw [h1]; exact List.mem_cons_self _ _)
      · exact Or.inr (List.mem_cons_of_mem _ h)
    · intro hc
      exact ihcons (hcons hc)
    · intro i s hi
      cases i with
      | zero =>
        simp at hi
        subst hi
        exact ⟨_, by simp [runLocks], ihkeep _ _ hset⟩
      | succ i =>
        simp at hi
        obtain ⟨l, hl1, hl2⟩ := ihlocks i s hi
        exact ⟨l, by simpa [runLocks] using hl1, hl2⟩

theorem runLocks_append (a b : List Nat) :
    ∀ r : LockRegistry, (runLocks r (a ++ b)).1 = (runLocks (runLocks r a).1 b).1 := by
  induction a with
  | nil => intro r; rfl
  | cons shard rest ih =>
    intro r
    simp only [List.cons_append, runLocks]
    exact ih _

theorem init_consistent : LockRegistry.init.Consistent := by
  constructor
  · intro k l h
    simp [LockRegistry.init] at h
  · intro k1 k2 l h
    simp [LockRegistry.init] at h

/-- C10: for every sequence of `getDataframeWritelock` calls on the registry
(starting from the empty map of `init`): two calls with the same shard id
return the same lock pointer; two calls with different shard ids return
different pointers; before the first call for a shard id the map has no entry
for it and that call returns the pointer it stores; and an entry present after
some number of calls is present, with the same pointer, after any larger
number of calls (no call removes or replaces an entry). -/
theorem getDataframeWritelock_registry (calls : List Nat) :
    (∀ (i j s : Nat), calls[i]? = some s → calls[j]? = some s →
      ∃ l, (runLocks LockRegistry.init calls).2[i]? = some l ∧
        (runLocks LockRegistry.init calls).2[j]? = some l) ∧
    (∀ (i j si sj li lj : Nat), calls[i]? = some si → calls[j]? = some sj → si ≠ sj →
      (runLocks LockRegistry.init calls).2[i]? = some li →
      (runLocks LockRegistry.init calls).2[j]? = some lj → li ≠ lj) ∧
    (∀ (i s : Nat), calls[i]? = some s → s ∉ calls.take i →
      (runLocks LockRegistry.init (calls.take i)).1.dataframeShardLocks s = none ∧
      (getDataframeWritelock (runLocks LockRegistry.init (calls.take i)).1 s).1.dataframeShardLocks s
        = some (getDataframeWritelock (runLocks LockRegistry.init (calls.take i)).1 s).2 ∧
      (runLocks LockRegistry.init calls).2[i]? =
        some (getDataframeWritelock (runLocks LockRegistry.init (calls.take i)).1 s).2) ∧
    (∀ (n m k l : Nat), n ≤ m →
      (runLocks LockRegistry.init (calls.take n)).1.dataframeShardLocks k = some l →
      (runLocks LockRegistry.init (calls.take m)).1.dataframeShardLocks k = some l) := by
  obtain ⟨_, _, hcons, hlocks⟩ := runLocks_spec calls LockRegistry.init
  have hfinal := hcons init_consistent
  refine ⟨?_, ?_, ?_, ?_⟩
  · intro i j s hi hj
    obtain ⟨l1, h1, h1m⟩ := hlocks i s hi
    obtain ⟨l2, h2, h2m⟩ := hlocks j s hj
    rw [h1m] at h2m
    cases h2m
    exact ⟨l1, h1, h2⟩
  · intro i j si sj li lj hi hj hne h1 h2 heq
    obtain ⟨l1, h1a, h1m⟩ := hlocks i si hi
    obtain ⟨l2, h2a, h2m⟩ := hlocks j sj hj
    rw [h1] at h1a
    rw [h2] at h2a
    cases h1a
    cases h2a
    subst heq
    exact hne (hfinal.2 si sj li h1m h2m)
  · intro i s hi hnot
    have hnone : (runLocks LockRegistry.init (calls.take i)).1.dataframeShardLocks s = none := by
      cases hget : (runLocks LockRegistry.init (calls.take i)).1.dataframeShardLocks s with
      | none => rfl
      | some l =>
        rcases (runLocks_spec (calls.take i) LockRegistry.init).2.1 s l hget with h | h
        · simp [LockRegistry.init] at h
        · exact absurd h hnot
    refine ⟨hnone, (getDataframeWritelock_spec _ s).1, ?_⟩
    have hsplit : calls = calls.take i ++ (s :: calls.drop (i + 1)) := by
      have hlt : i < calls.length := (List.getElem?_eq_some.mp hi).1
      have hs : calls[i] = s := (List.getElem?_eq_some.mp hi).2
      rw [← hs, ← List.drop_eq_getElem_cons hlt, List.take_append_drop]
    obtain ⟨l, hl, hlm⟩ := hlocks i s hi
    rw [hl]
    congr 1
    have hmap : (runLocks LockRegistry.init calls).1.dataframeShardLocks s =
        some (getDataframeWritelock (runLocks LockRegistry.init (calls.take i)).1 s).2 := by
      rw [hsplit, runLocks_append]
      simp only [runLocks]
      rw [← hsplit]
      exact (runLocks_spec _ _).1 s _ (getDataframeWritelock_spec _ s).1
    rw [hlm] at hmap
    exact Option.some.inj hmap
  · intro n m k l hnm hk
    have hsplit : calls.take m = calls.take n ++ (calls.take m).drop n := by
      have : calls.take n = (calls.take m).take n := by
        rw [List.take_take, Nat.min_eq_left hnm]
      rw [this, List.take_append_drop]
    rw [hsplit, runLocks_append]
    exact (runLocks_spec _ _).1 k l hk

/-! ### What a returning run preserves -/

theorem loopFrom_of_ok {σ : Type} (body : Nat → σ → Except Fault σ) (Inv : Nat → σ → Prop)
    (n : Nat)
    (hstep : ∀ i s s1, i < n → Inv i s → body i s = Except.ok s1 → Inv (i + 1) s1) :
    ∀ k i s s1, i + k = n → Inv i s → loopFrom body k i s = Except.ok s1 → Inv n s1 := by
  intro k
  induction k with
  | zero =>
    intro i s s1 hik hinv hrun
    simp only [loopFrom, Except.ok.injEq] at hrun
    simp at hik
    subst hik hrun
    exact hinv
  | succ k ih =>
    intro i s s1 hik hinv hrun
    simp only [loopFrom] at hrun
    cases hb : body i s with
    | error e => rw [hb] at hrun; cases hrun
    | ok s2 =>
      rw [hb] at hrun
      exact ih (i + 1) s2 s1 (by omega) (hstep i s s2 (by omega) hinv hb) hrun

theorem forRange_of_ok {σ : Type} (body : Nat → σ → Except Fault σ) (Inv : Nat → σ → Prop)
    (n : Nat) (s s1 : σ) (h0 : Inv 0 s)
    (hstep : ∀ i s s1, i < n → Inv i s → body i s = Except.ok s1 → Inv (i + 1) s1)
    (hrun : forRange n body s = Except.ok s1) : Inv n s1 :=
  loopFrom_of_ok body Inv n hstep n 0 s s1 (by omega) h0 hrun

theorem getN_of_ok {α : Type} (xs : List α) (i : Nat) (x : α)
    (h : getN xs i = Except.ok x) : xs[i]? = some x := by
  unfold getN at h
  cases hx : xs[i]? with
  | none => rw [hx] at h; cases h
  | some y => rw [hx] at h; cases h; rfl

theorem setN_of_ok {α : Type} (xs ys : List α) (i : Nat) (v : α)
    (h : setN xs i v = Except.ok ys) : i < xs.length ∧ ys = xs.set i v := by
  unfold setN at h
  by_cases hi : i < xs.length
  · rw [if_pos hi] at h
    cases h
    exact ⟨hi, rfl⟩
  · rw [if_neg hi] at h
    cases h

theorem sliceSet_of_ok {α : Type} (xs ys : List α) (i : Int) (v : α)
    (h : sliceSet xs i v = Except.ok ys) : ys.length = xs.length := by
  unfold sliceSet at h
  by_cases hneg : i < 0
  · rw [if_pos hneg] at h
    cases h
  · rw [if_neg hneg] at h
    by_cases hi : i.toNat < xs.length
    · rw [if_pos hi] at h
      cases h
      simp
    · rw [if_neg hi] at h
      cases h

theorem writeChunk_of_ok (ty : DataType) (t t1 : Table) (cs : ChangesetRequest) (c : Column)
    (chunk l i col : Nat) (h : writeChunk ty t cs c chunk l i col = Except.ok t1) :
    ∃ arr data, c.chunks[chunk]? = some arr ∧ data.length = arr.data.length ∧
      t1 = { t with cols := t.cols.set col ({ c with chunks := c.chunks.set chunk ({ arr with data := data }) }) } := by
  unfold writeChunk at h
  cases harr : getN c.chunks chunk with
  | error e => rw [harr] at h; cases h
  | ok arr =>
    rw [harr] at h
    simp only [bind, Except.bind] at h
    by_cases he : arr.elem ≠ ty
    · rw [if_pos he] at h; cases h
    · rw [if_neg he] at h
      cases hsrc : getN cs.Columns col with
      | error e => rw [hsrc] at h; cases h
      | ok src =>
        rw [hsrc] at h
        simp only at h
        by_cases hse : src.elem ≠ ty
        · rw [if_pos hse] at h; cases h
        · rw [if_neg hse] at h
          cases hx : getN src.data i with
          | error e => rw [hx] at h; cases h
          | ok x =>
            rw [hx] at h
            simp only at h
            cases hd : setN arr.data l x with
            | error e => rw [hd] at h; cases h
            | ok data =>
              rw [hd] at h
              simp only [Except.ok.injEq] at h
              obtain ⟨_, hdata⟩ := setN_of_ok _ _ _ _ hd
              refine ⟨arr, data, getN_of_ok _ _ _ harr, by rw [hdata]; simp, h.symm⟩

theorem updateCell_of_ok (cs : ChangesetRequest) (chunk l i col : Nat) (t t1 : Table)
    (h : updateCell cs chunk l i col t = Except.ok t1) :
    ∃ c arr data, t.cols[col]? = some c ∧ c.chunks[chunk]? = some arr ∧
      data.length = arr.data.length ∧
      t1 = { t with cols := t.cols.set col ({ c with chunks := c.chunks.set chunk ({ arr with data := data }) }) } := by
  unfold updateCell at h
  cases hc : t.Column col with
  | error e => rw [hc] at h; cases h
  | ok c =>
    rw [hc] at h
    simp only [bind, Except.bind] at h
    have hcol : t.cols[col]? = some c := by
      unfold Table.Column at hc
      cases hx : t.cols[col]? with
      | none => rw [hx] at hc; cases hc
      | some y => rw [hx] at hc; cases hc; rfl
    cases hty : c.DataType with
    | int64 =>
      rw [hty] at h
      obtain ⟨arr, data, h1, h2, h3⟩ := writeChunk_of_ok _ _ _ _ _ _ _ _ _ h
      exact ⟨c, arr, data, hcol, h1, h2, h3⟩
    | float64 =>
      rw [hty] at h
      obtain ⟨arr, data, h1, h2, h3⟩ := writeChunk_of_ok _ _ _ _ _ _ _ _ _ h
      exact ⟨c, arr, data, hcol, h1, h2, h3⟩
    | other name =>
      rw [hty] at h
      cases h

theorem ColumnOK_set (lens : List Nat) (f : Field) (c : Column) (chunk : Nat)
    (arr : Values) (data : List Int) (hok : ColumnOK lens f c)
    (harr : c.chunks[chunk]? = some arr) (hlen : data.length = arr.data.length) :
    ColumnOK lens f { c with chunks := c.chunks.set chunk ({ arr with data := data }) } := by
  obtain ⟨hfield, hlens, helems, hsup⟩ := hok
  have hlt : chunk < c.chunks.length := (List.getElem?_eq_some.mp harr).1
  have hmem : arr ∈ c.chunks := List.mem_iff_getElem?.mpr ⟨chunk, harr⟩
  refine ⟨hfield, ?_, ?_, hsup⟩
  · have hlens1 : c.chunks.map (fun v => v.data.length) = lens := hlens
    show ((c.chunks.set chunk _).map (fun v => v.data.length)) = lens
    rw [← hlens1]
    apply List.ext_getElem?
    intro n
    simp only [List.getElem?_map, List.getElem?_set]
    by_cases hn : chunk = n
    · subst hn
      simp [hlt, harr, hlen]
    · simp [hn]
  · intro a ha
    simp only at ha
    rcases List.mem_or_eq_of_mem_set ha with h | h
    · exact helems a h
    · subst h
      exact helems arr hmem

theorem TableOK_set (fields : List Field) (lens : List Nat) (t : Table) (col chunk : Nat)
    (c : Column) (arr : Values) (data : List Int) (ht : TableOK fields lens t)
    (hc : t.cols[col]? = some c) (harr : c.chunks[chunk]? = some arr)
    (hlen : data.length = arr.data.length) :
    TableOK fields lens
      { t with cols := t.cols.set col ({ c with chunks := c.chunks.set chunk ({ arr with data := data }) }) } := by
  obtain ⟨hrows, hclen, hall⟩ := ht
  have hlt : col < t.cols.length := (List.getElem?_eq_some.mp hc).1
  refine ⟨hrows, by simpa using hclen, ?_⟩
  intro k f hf
  obtain ⟨c2, hc2, hok2⟩ := hall k f hf
  by_cases hk : col = k
  · subst hk
    rw [hc] at hc2
    cases hc2
    exact ⟨_, by simp [List.getElem?_set, hlt], ColumnOK_set lens f c chunk arr data hok2 harr hlen⟩
  · exact ⟨c2, by simp [List.getElem?_set, hk, hc2], hok2⟩

theorem updatePass_of_ok (fields : List Field) (lens : List Nat) (resolver : ChunkResolver)
    (cs : ChangesetRequest) :
    ∀ (suffix : List Int) (i o off : Nat) (t t1 : Table), TableOK fields lens t →
      updatePass (some fields) resolver cs i suffix (o, t) = Except.ok (off, t1) →
      TableOK fields lens t1 := by
  intro suffix
  induction suffix with
  | nil =>
    intro i o off t t1 ht h
    simp only [updatePass, Except.ok.injEq, Prod.mk.injEq] at h
    rw [← h.2]
    exact ht
  | cons rowid rest ih =>
    intro i o off t t1 ht h
    simp only [updatePass] at h
    by_cases hge : rowid ≥ t.NumRows
    · rw [if_pos hge] at h
      simp only [Except.ok.injEq, Prod.mk.injEq] at h
      rw [← h.2]
      exact ht
    · rw [if_neg hge] at h
      cases hres : resolver.Resolve rowid with
      | error e => rw [hres] at h; cases h
      | ok p =>
        obtain ⟨chunk, l⟩ := p
        rw [hres] at h
        simp only at h
        cases hrow : forRange fields.length (updateCell cs chunk l i) t with
        | error e => rw [hrow] at h; cases h
        | ok t2 =>
          rw [hrow] at h
          simp only at h
          have ht2 : TableOK fields lens t2 :=
            forRange_of_ok (updateCell cs chunk l i) (fun _ s => TableOK fields lens s)
              fields.length t t2 ht
              (by
                intro j s s1 _ hs hcell
                obtain ⟨c, arr, data, hc, harr, hlen, heq⟩ := updateCell_of_ok _ _ _ _ _ _ _ hcell
                rw [heq]
                exact TableOK_set fields lens s j chunk c arr data hs hc harr hlen)
              hrow
          exact ih (i + 1) i off t2 t1 ht2 h

theorem setValue_of_ok (ty : DataType) (sf s1 : ShardFile) (col : Nat) (row val : Int)
    (h : sf.setValue ty col row val = Except.ok s1) :
    ∃ v data, sf.columns[col]? = some v ∧ data.length = v.data.length ∧
      s1 = { sf with columns := sf.columns.set col ({ v with data := data }) } := by
  unfold ShardFile.setValue at h
  cases hv : getN sf.columns col with
  | error e => rw [hv] at h; cases h
  | ok v =>
    rw [hv] at h
    simp only [bind, Except.bind] at h
    by_cases he : v.elem ≠ ty
    · rw [if_pos he] at h; cases h
    · rw [if_neg he] at h
      cases hd : sliceSet v.data (wrap64 (row - sf.beforeRows)) val with
      | error e => rw [hd] at h; cases h
      | ok data =>
        rw [hd] at h
        simp only [Except.ok.injEq] at h
        exact ⟨v, data, getN_of_ok _ _ _ hv, sliceSet_of_ok _ _ _ _ hd, h.symm⟩

theorem appendCell_of_ok (cs : ChangesetRequest) (rowid : Int) (i col : Nat) (sf s1 : ShardFile)
    (h : appendCell cs rowid i col sf = Except.ok s1) :
    ∃ v data, sf.columns[col]? = some v ∧ data.length = v.data.length ∧
      s1 = { sf with columns := sf.columns.set col ({ v with data := data }) } := by
  unfold appendCell at h
  cases hf : sf.Fields with
  | error e => rw [hf] at h; cases h
  | ok fields =>
    rw [hf] at h
    simp only [bind, Except.bind] at h
    cases hg : getN fields col with
    | error e => rw [hg] at h; cases h
    | ok f =>
      rw [hg] at h
      simp only at h
      cases hty : f.Typ with
      | int64 =>
        rw [hty] at h
        simp only at h
        cases hx : changesetCell DataType.int64 cs col i with
        | error e => rw [hx] at h; cases h
        | ok x =>
          rw [hx] at h
          exact setValue_of_ok _ _ _ _ _ _ h
      | float64 =>
        rw [hty] at h
        simp only at h
        cases hx : changesetCell DataType.float64 cs col i with
        | error e => rw [hx] at h; cases h
        | ok x =>
          rw [hx] at h
          exact setValue_of_ok _ _ _ _ _ _ h
      | other name =>
        rw [hty] at h
        cases h

theorem appendPass_of_ok (cs : ChangesetRequest) (P : List Values → Prop)
    (hP : ∀ (cols : List Values) (col : Nat) (v : Values) (data : List Int), P cols →
      cols[col]? = some v → data.length = v.data.length →
      P (cols.set col ({ v with data := data }))) :
    ∀ (suffix : List Int) (i : Nat) (s s1 : ShardFile), P s.columns →
      appendPass cs i suffix s = Except.ok s1 →
      ∃ cols1, s1 = { s with columns := cols1 } ∧ P cols1 := by
  intro suffix
  induction suffix with
  | nil =>
    intro i s s1 hp h
    simp only [appendPass, Except.ok.injEq] at h
    exact ⟨s.columns, h.symm, hp⟩
  | cons rowid rest ih =>
    intro i s s1 hp h
    simp only [appendPass] at h
    cases hf : s.Fields with
    | error e => rw [hf] at h; cases h
    | ok fields =>
      rw [hf] at h
      simp only at h
      cases hrow : forRange fields.length (appendCell cs rowid i) s with
      | error e => rw [hrow] at h; cases h
      | ok s2 =>
        rw [hrow] at h
        simp only at h
        have hs2 : ∃ cols2, s2 = { s with columns := cols2 } ∧ P cols2 :=
          forRange_of_ok (appendCell cs rowid i)
            (fun _ st => ∃ cols2, st = { s with columns := cols2 } ∧ P cols2)
            fields.length s s2 ⟨s.columns, rfl, hp⟩
            (by
              intro j st st1 _ ⟨cols2, hst, hp2⟩ hcell
              obtain ⟨v, data, hv, hlen, heq⟩ := appendCell_of_ok _ _ _ _ _ _ hcell
              subst hst
              exact ⟨_, heq, hP cols2 j v data hp2 hv hlen⟩)
            hrow
        obtain ⟨cols2, hs2eq, hp2⟩ := hs2
        subst hs2eq
        obtain ⟨cols1, h1, hp1⟩ := ih (i + 1) _ s1 hp2 h
        exact ⟨cols1, h1, hp1⟩

theorem ColsOK_set (fields : List Field) (m : Nat) (cols : List Values) (col : Nat)
    (v : Values) (data : List Int) (hok : ColsOK fields m cols) (hv : cols[col]? = some v)
    (hlen : data.length = v.data.length) :
    ColsOK fields m (cols.set col ({ v with data := data })) := by
  have hlt : col < cols.length := (List.getElem?_eq_some.mp hv).1
  refine ⟨by simpa using hok.1, ?_⟩
  intro k f hf
  obtain ⟨v2, hv2, helem, hvlen, hsup⟩ := hok.2 k f hf
  by_cases hk : col = k
  · subst hk
    rw [hv] at hv2
    cases hv2
    exact ⟨{ v with data := data }, by simp [List.getElem?_set, hlt], helem,
      by show data.length = m; rw [hlen, hvlen], hsup⟩
  · exact ⟨v2, by simp [List.getElem?_set, hk, hv2], helem, hvlen, hsup⟩

theorem buildAppenders_same (sf s1 : ShardFile) (maxid : Int)
    (h : sf.buildAppenders maxid = Except.ok s1) :
    s1.dest = sf.dest ∧ s1.table = sf.table ∧ s1.schema = sf.schema := by
  unfold ShardFile.buildAppenders at h
  cases ht : sf.table with
  | none =>
    simp only [ht] at h
    by_cases hlt : maxid < sf.beforeRows
    · rw [if_pos hlt] at h
      cases h
      exact ⟨rfl, by simp [ht], rfl⟩
    · rw [if_neg hlt] at h
      cases hf : sf.Fields with
      | error e => rw [hf] at h; cases h
      | ok fields =>
        rw [hf] at h
        simp only at h
        cases hr : forRange fields.length
            (allocColumn fields (wrap64 (wrap64 (maxid - sf.beforeRows) + 1))) sf.columns with
        | error e => rw [hr] at h; cases h
        | ok columns =>
          rw [hr] at h
          cases h
          exact ⟨rfl, by simp [ht], rfl⟩
  | some t =>
    simp only [ht] at h
    by_cases hlt : maxid < t.NumRows
    · rw [if_pos hlt] at h
      cases h
      exact ⟨rfl, by simp [ht], rfl⟩
    · rw [if_neg hlt] at h
      simp only [ShardFile.Fields] at h
      cases hs : sf.schema with
      | none => rw [hs] at h; cases h
      | some fields =>
        rw [hs] at h
        simp only at h
        cases hr : forRange fields.length
            (allocColumn fields (wrap64 (wrap64 (maxid - t.NumRows) + 1))) sf.columns with
        | error e => rw [hr] at h; cases h
        | ok columns =>
          rw [hr] at h
          cases h
          exact ⟨rfl, by simp [ht], by simp [hs]⟩

theorem updateExisting_same (sf s1 : ShardFile) (cs : ChangesetRequest) (off : Nat)
    (h : updateExisting sf cs = Except.ok (off, s1)) :
    ∃ tbl, s1 = { sf with table := tbl } ∧ (tbl = none ↔ sf.table = none) := by
  unfold updateExisting at h
  cases ht : sf.table with
  | none =>
    rw [ht] at h
    simp only [Except.ok.injEq, Prod.mk.injEq] at h
    refine ⟨none, ?_, by simp⟩
    rw [← h.2]
    cases sf
    simp_all
  | some t =>
    rw [ht] at h
    simp only at h
    cases hc : t.Column 0 with
    | error e => rw [hc] at h; cases h
    | ok column =>
      rw [hc] at h
      simp only at h
      cases hp : updatePass sf.schema (NewChunkResolver column) cs 0 cs.ShardIds (0, t) with
      | error e => rw [hp] at h; cases h
      | ok res =>
        obtain ⟨o, t1⟩ := res
        rw [hp] at h
        simp only [Except.ok.injEq, Prod.mk.injEq] at h
        exact ⟨some t1, h.2.symm, by simp⟩

/-- A returning `process` leaves the destination of the ShardFile alone. -/
theorem process_dest (sf sf1 : ShardFile) (cs : ChangesetRequest)
    (h : sf.process cs = Except.ok sf1) : sf1.dest = sf.dest := by
  unfold ShardFile.process at h
  cases hu : updateExisting sf cs with
  | error e => rw [hu] at h; cases h
  | ok res =>
    obtain ⟨off, su⟩ := res
    rw [hu] at h
    simp only at h
    obtain ⟨tbl, hsu, _⟩ := updateExisting_same sf su cs off hu
    cases hm : sliceGet cs.ShardIds ((cs.ShardIds.length : Int) - 1) with
    | error e => rw [hm] at h; cases h
    | ok max =>
      rw [hm] at h
      simp only at h
      cases hb : su.buildAppenders max with
      | error e => rw [hb] at h; cases h
      | ok s2 =>
        rw [hb] at h
        simp only at h
        have hd2 := (buildAppenders_same su s2 max hb).1
        have hdu : su.dest = sf.dest := by rw [hsu]
        by_cases hpos : s2.added > 0
        · rw [if_pos hpos] at h
          obtain ⟨cols1, h1, _⟩ := appendPass_of_ok cs (fun _ => True)
            (fun _ _ _ _ _ _ _ => trivial) _ _ s2 sf1 trivial h
          rw [h1]
          show s2.dest = sf.dest
          rw [hd2, hdu]
        · rw [if_neg hpos] at h
          cases h
          rw [hd2, hdu]

/-! ### The commit protocol -/

theorem temp_path (a : String) : (a ++ ".temp") ++ ".parquet" = a ++ ".temp.parquet" := by
  rw [String.append_assoc]
  rfl

theorem temp_ne_canonical (a : String) : a ++ ".temp.parquet" ≠ a ++ ".parquet" := by
  intro h
  have := congrArg String.length h
  simp only [String.length_append] at this
  have h1 : ".temp.parquet".length = 13 := by decide
  have h2 : ".parquet".length = 8 := by decide
  omega

/-- The file operations `Save` performs on `name`. -/
theorem Save_spec (sf : ShardFile) (name : String) (d : Disk) :
    (∀ p, p ≠ name ++ ".parquet" → (sf.Save name d).1.files p = d.files p) ∧
    (sf.Save name d).1.createFails = d.createFails ∧
    (sf.Save name d).1.writeFails = d.writeFails ∧
    (sf.Save name d).1.renameFails = d.renameFails ∧
    ((sf.Save name d).1.log = d.log ∨
      (sf.Save name d).1.log = d.log ++ [FileOp.create (name ++ ".parquet")]) ∧
    ((sf.Save name d).2 = Except.ok () →
      ∃ rec, sf.assemble = Except.ok rec ∧
        (sf.Save name d).1.files (name ++ ".parquet") = some (File.parquet rec.toTable) ∧
        (sf.Save name d).1.log = d.log ++ [FileOp.create (name ++ ".parquet")]) := by
  unfold ShardFile.Save
  cases hasm : sf.assemble with
  | error e => simp
  | ok rec =>
    by_cases hc : d.createFails (name ++ ".parquet") = true
    · simp [hc]
    · by_cases hw : d.writeFails (name ++ ".parquet") = true
      · simp only []
        rw [if_neg hc, if_pos hw]
        refine ⟨?_, rfl, rfl, rfl, Or.inr rfl, ?_⟩
        · intro p hp
          simp [Function.update_noteq hp]
        · intro h
          cases h
      · simp only []
        rw [if_neg hc, if_neg hw]
        refine ⟨?_, rfl, rfl, rfl, Or.inr rfl, ?_⟩
        · intro p hp
          simp [Function.update_noteq hp]
        · intro _
          exact ⟨rec, rfl, by simp, rfl⟩

/-- C9: `Process` touches no path other than the temporary path
`dest + ".temp.parquet"` and the canonical path `dest + ".parquet"`; the file
operations it performs are none, or the creation of the temporary file, or that
creation followed by the rename of the temporary file onto the canonical path;
without the rename the canonical path holds what it held before; when `process`
fails nothing is done, when `Save` returns an error the rename is not executed;
and when `Process` succeeds the merged table was written to the temporary path
and moved onto the canonical path by the rename. -/
theorem Process_commit (sf : ShardFile) (cs : ChangesetRequest) (d : Disk) :
    (∀ p, p ≠ sf.dest ++ ".temp.parquet" → p ≠ sf.dest ++ ".parquet" →
      (sf.Process cs d).1.files p = d.files p) ∧
    ∃ ops, (sf.Process cs d).1.log = d.log ++ ops ∧
      (ops = [] ∨ ops = [FileOp.create (sf.dest ++ ".temp.parquet")] ∨
        ops = [FileOp.create (sf.dest ++ ".temp.parquet"),
               FileOp.rename (sf.dest ++ ".temp.parquet") (sf.dest ++ ".parquet")]) ∧
      (FileOp.rename (sf.dest ++ ".temp.parquet") (sf.dest ++ ".parquet") ∉ ops →
        (sf.Process cs d).1.files (sf.dest ++ ".parquet") = d.files (sf.dest ++ ".parquet")) ∧
      (∀ e, sf.process cs = Except.error e →
        ops = [] ∧ (sf.Process cs d).2 = Except.error e) ∧
      (∀ sf1 e, sf.process cs = Except.ok sf1 →
        (sf1.Save (sf1.dest ++ ".temp") d).2 = Except.error e →
        FileOp.rename (sf.dest ++ ".temp.parquet") (sf.dest ++ ".parquet") ∉ ops ∧
        (sf.Process cs d).2 = Except.error e) ∧
      (∀ sf1, sf.process cs = Except.ok sf1 → (sf.Process cs d).2 = Except.ok () →
        ∃ rec, sf1.assemble = Except.ok rec ∧
          (sf1.Save (sf1.dest ++ ".temp") d).1.files (sf.dest ++ ".temp.parquet") =
            some (File.parquet rec.toTable) ∧
          ops = [FileOp.create (sf.dest ++ ".temp.parquet"),
                 FileOp.rename (sf.dest ++ ".temp.parquet") (sf.dest ++ ".parquet")] ∧
          (sf.Process cs d).1.files (sf.dest ++ ".parquet") =
            some (File.parquet rec.toTable)) := by
  cases hproc : sf.process cs with
  | error e =>
    refine ⟨by simp [ShardFile.Process, hproc], [], by simp [ShardFile.Process, hproc],
      Or.inl rfl, by simp [ShardFile.Process, hproc], ?_, ?_, ?_⟩
    · intro e1 he1
      cases he1
      exact ⟨rfl, by simp [ShardFile.Process, hproc]⟩
    · intro sf1 e1 h1
      cases h1
    · intro sf1 h1
      cases h1
  | ok sf1 =>
    have hdest := process_dest sf sf1 cs hproc
    obtain ⟨hframe, hcf, hwf, hrf, hlog, hok⟩ := Save_spec sf1 (sf1.dest ++ ".temp") d
    rw [hdest, temp_path] at hframe hlog hok
    have hne := temp_ne_canonical sf.dest
    have hcanon : (sf1.Save (sf.dest ++ ".temp") d).1.files (sf.dest ++ ".parquet") =
        d.files (sf.dest ++ ".parquet") := hframe _ (Ne.symm hne)
    have hP : sf.Process cs d =
        (match sf1.Save (sf.dest ++ ".temp") d with
          | (d1, Except.error e) => (d1, Except.error e)
          | (d1, Except.ok _) =>
            Rename d1 (sf.dest ++ ".temp.parquet") (sf.dest ++ ".parquet")) := by
      simp only [ShardFile.Process, hproc, hdest, temp_path]
    rw [hdest] at hcf hwf hrf
    cases hsave : sf1.Save (sf.dest ++ ".temp") d with
    | mk d1 r =>
      rw [hsave] at hframe hlog hok hcanon hrf
      simp only at hframe hlog hok hcanon hrf
      cases r with
      | error e =>
        rw [hP, hsave]
        simp only
        refine ⟨fun p hp _ => hframe p hp, ?_⟩
        rcases hlog with hl | hl
        · refine ⟨[], by simp [hl], Or.inl rfl, fun _ => hcanon, ?_, ?_, ?_⟩
          · intro e1 h1; cases h1
          · intro sf2 e2 h2 hs2
            cases h2
            rw [hdest, hsave] at hs2
            simp only [Except.error.injEq] at hs2
            exact ⟨by simp, by rw [hs2]⟩
          · intro sf2 _ h2
            cases h2
        · refine ⟨[FileOp.create (sf.dest ++ ".temp.parquet")], hl, Or.inr (Or.inl rfl),
            fun _ => hcanon, ?_, ?_, ?_⟩
          · intro e1 h1; cases h1
          · intro sf2 e2 h2 hs2
            cases h2
            rw [hdest, hsave] at hs2
            simp only [Except.error.injEq] at hs2
            exact ⟨by simp, by rw [hs2]⟩
          · intro sf2 _ h2
            cases h2
      | ok u =>
        obtain ⟨rec, hasm, hfile, hlog1⟩ := hok rfl
        rw [hP, hsave]
        simp only [Rename]
        by_cases hr : d1.renameFails (sf.dest ++ ".temp.parquet") = true
        · rw [if_pos hr]
          refine ⟨fun p hp _ => hframe p hp, [FileOp.create (sf.dest ++ ".temp.parquet")], hlog1,
            Or.inr (Or.inl rfl), fun _ => hcanon, ?_, ?_, ?_⟩
          · intro e1 h1; cases h1
          · intro sf2 e2 h2 hs2
            cases h2
            rw [hdest, hsave] at hs2
            cases hs2
          · intro sf2 _ h2
            cases h2
        · rw [if_neg hr, hfile]
          simp only
          refine ⟨?_, [FileOp.create (sf.dest ++ ".temp.parquet"),
            FileOp.rename (sf.dest ++ ".temp.parquet") (sf.dest ++ ".parquet")], by simp [hlog1],
            Or.inr (Or.inr rfl), ?_, ?_, ?_, ?_⟩
          · intro p hp1 hp2
            rw [Function.update_noteq hp2, Function.update_noteq hp1]
            exact hframe p hp1
          · intro hnot
            simp at hnot
          · intro e1 h1; cases h1
          · intro sf2 e2 h2 hs2
            cases h2
            rw [hdest, hsave] at hs2
            cases hs2
          · intro sf2 h2 _
            cases h2
            refine ⟨rec, hasm, ?_, rfl, by simp⟩
            rw [hdest, hsave]
            exact hfile

/-! ### Row counts of any returning run -/

theorem sliceGet_ok_last (cs : ChangesetRequest) (max : Int)
    (h : sliceGet cs.ShardIds ((cs.ShardIds.length : Int) - 1) = Except.ok max) :
    max = cs.maxId := by
  have hne : cs.ShardIds ≠ [] := by
    intro hnil
    rw [hnil] at h
    simp [sliceGet] at h
  rw [sliceGet_last cs hne] at h
  cases h
  rfl

theorem updateExisting_of_ok (sf su : ShardFile) (cs : ChangesetRequest) (fields : List Field)
    (lens : List Nat) (off : Nat) (hschema : sf.schema = some fields)
    (htab : ∀ t, sf.table = some t → TableOK fields lens t)
    (h : updateExisting sf cs = Except.ok (off, su)) :
    ∃ tbl, su = { sf with table := tbl } ∧ (∀ t, tbl = some t → TableOK fields lens t) ∧
      (tbl = none → sf.table = none) ∧ su.committedRows = sf.committedRows := by
  unfold updateExisting at h
  cases ht : sf.table with
  | none =>
    rw [ht] at h
    simp only [Except.ok.injEq, Prod.mk.injEq] at h
    refine ⟨none, ?_, ?_, fun _ => rfl, ?_⟩
    · rw [← h.2]
      cases sf
      simp_all
    · intro t ht1
      cases ht1
    · rw [← h.2]
  | some t =>
    rw [ht] at h
    simp only at h
    cases hc : t.Column 0 with
    | error e => rw [hc] at h; cases h
    | ok column =>
      rw [hc] at h
      simp only at h
      cases hp : updatePass sf.schema (NewChunkResolver column) cs 0 cs.ShardIds (0, t) with
      | error e => rw [hp] at h; cases h
      | ok res =>
        obtain ⟨o, t1⟩ := res
        rw [hp] at h
        simp only [Except.ok.injEq, Prod.mk.injEq] at h
        rw [hschema] at hp
        have ht1 := updatePass_of_ok fields lens _ cs cs.ShardIds 0 0 o t t1 (htab t ht) hp
        refine ⟨some t1, h.2.symm, ?_, ?_, ?_⟩
        · intro t2 ht2
          cases ht2
          exact ht1
        · intro hnone
          cases hnone
        · rw [← h.2]
          simp only [ShardFile.committedRows, ht, Table.NumRows]
          exact ht1.1.trans (htab t ht).1.symm

/-- What a returning `process` leaves behind on a ShardFile as `NewShardFile`
and `EnsureSchema` prepare it, whatever the changeset. -/
theorem process_of_ok (sf sf1 : ShardFile) (cs : ChangesetRequest) (fields : List Field)
    (lens : List Nat) (hschema : sf.schema = some fields)
    (hsup : ∀ f ∈ fields, f.Typ = DataType.int64 ∨ f.Typ = DataType.float64)
    (hcols : sf.columns.length = fields.length) (hbefore : sf.beforeRows = 0)
    (hadded : sf.added = 0) (htab : ∀ t, sf.table = some t → TableOK fields lens t)
    (hfit : sf.Fits cs) (h : sf.process cs = Except.ok sf1) :
    sf1.schema = some fields ∧ sf1.beforeRows = sf.committedRows ∧
    sf1.committedRows = sf.committedRows ∧
    sf1.added =
      (if cs.maxId < sf.committedRows then 0 else cs.maxId - sf.committedRows + 1) ∧
    (∀ t, sf1.table = some t → TableOK fields lens t) ∧
    (sf1.table = none → sf.table = none) ∧
    (0 < sf1.added → ColsOK fields sf1.added.toNat sf1.columns) := by
  unfold ShardFile.process at h
  cases hu : updateExisting sf cs with
  | error e => rw [hu] at h; cases h
  | ok res =>
    obtain ⟨off, su⟩ := res
    rw [hu] at h
    simp only at h
    obtain ⟨tbl, hsu, htbl, hnone, hcr⟩ :=
      updateExisting_of_ok sf su cs fields lens off hschema htab hu
    cases hm : sliceGet cs.ShardIds ((cs.ShardIds.length : Int) - 1) with
    | error e => rw [hm] at h; cases h
    | ok max =>
      rw [hm] at h
      simp only at h
      have hmax := sliceGet_ok_last cs max hm
      subst hmax
      have hn0 : 0 ≤ sf.committedRows := by
        cases ht : sf.table with
        | none => simp [ShardFile.committedRows, ht]
        | some t =>
          have := (htab t ht).1
          simp only [ShardFile.committedRows, ht, Table.NumRows]
          rw [this]
          exact Int.ofNat_nonneg _
      have hba := buildAppenders_ok su fields cs.maxId (by rw [hsu]; exact hschema)
        (by rw [hsu]; exact hcols) hsup (fun _ => by rw [hsu]; exact hbefore)
        (by rw [hcr]; exact fits_limit sf cs hfit hn0)
      rw [hcr] at hba
      rw [hba] at h
      simp only at h
      by_cases hlt : cs.maxId < sf.committedRows
      · rw [if_pos hlt] at h
        have hna : ¬ (su.added > 0) := by
          rw [hsu]
          show ¬ (sf.added > 0)
          rw [hadded]
          omega
        rw [if_neg hna] at h
        cases h
        refine ⟨by rw [hsu]; exact hschema, rfl, ?_, ?_, ?_, ?_, ?_⟩
        · rw [← hcr]
          rfl
        · rw [if_pos hlt, hsu]
          exact hadded
        · intro t ht
          apply htbl t
          rw [hsu] at ht
          exact ht
        · intro hn
          apply hnone
          rw [hsu] at hn
          exact hn
        · intro hpos
          exact absurd hpos hna
      · rw [if_neg hlt] at h
        have hpos : cs.maxId - sf.committedRows + 1 > 0 := by omega
        rw [if_pos hpos] at h
        have hcols0 : ColsOK fields (cs.maxId - sf.committedRows + 1).toNat
            (fields.map (fun f => zeroSlice f.Typ (cs.maxId - sf.committedRows + 1))) := by
          refine ⟨by simp, ?_⟩
          intro k f hf
          exact ⟨zeroSlice f.Typ (cs.maxId - sf.committedRows + 1), by simp [hf], rfl,
            by simp [zeroSlice], hsup f (List.mem_iff_getElem?.mpr ⟨k, hf⟩)⟩
        obtain ⟨cols1, h1, hp1⟩ := appendPass_of_ok cs
          (ColsOK fields (cs.maxId - sf.committedRows + 1).toNat)
          (fun cols col v data hok hv hlen => ColsOK_set fields _ cols col v data hok hv hlen)
          _ _ _ sf1 hcols0 h
        rw [h1]
        refine ⟨by rw [hsu]; exact hschema, rfl, ?_, ?_, ?_, ?_, ?_⟩
        · rw [← hcr]
          rfl
        · rw [if_neg hlt]
        · intro t ht
          apply htbl t
          rw [hsu] at ht
          exact ht
        · intro hn
          apply hnone
          rw [hsu] at hn
          exact hn
        · intro _
          exact hp1

theorem NewRecord_of_ok (schema : Schema) (parts : List Values) (rows : Int) (rec : Record)
    (h0 : 0 ≤ rows) (h : NewRecord schema parts rows = Except.ok rec) :
    rec = { schema := schema, parts := parts, rows := rows } := by
  unfold NewRecord at h
  have hneg : ¬ rows < 0 := by omega
  simp only [hneg, if_false] at h
  split at h
  · cases h; rfl
  · split at h
    · cases h
    · split at h
      · cases h; rfl
      · cases h

theorem saveColumn_of_ok (sf : ShardFile) (fields : List Field) (lens : List Nat) (f : Field)
    (k : Nat) (parts parts1 : List Values)
    (hschema : sf.schema = some fields) (hf : fields[k]? = some f)
    (hsup : f.Typ = DataType.int64 ∨ f.Typ = DataType.float64)
    (htab : ∀ t, sf.table = some t → TableOK fields lens t)
    (hadd : 0 < sf.added → ∃ m, ColsOK fields m sf.columns)
    (h : saveColumn sf k parts = Except.ok parts1) :
    parts1 = parts ++ [{ elem := f.Typ, data := sf.oldData k ++ sf.newData k }] := by
  by_cases hne : sf.added ≤ 0 → sf.table ≠ none ∧ lens ≠ []
  · rw [saveColumn_ok sf fields lens f k parts hschema hf hsup htab hadd hne] at h
    cases h
    rfl
  · exfalso
    simp only [Classical.not_imp, not_and_or, not_not] at hne
    obtain ⟨hle, hcase⟩ := hne
    have hna : ¬ (sf.added > 0) := by omega
    have hchunks : existingChunks sf k = Except.ok [] := by
      cases ht : sf.table with
      | none => simp [existingChunks, ht]
      | some t =>
        rcases hcase with hc | hc
        · rw [ht] at hc
          cases hc
        · obtain ⟨c, hc1, _, hlens, _, _⟩ := (htab t ht).2.2 k f hf
          have hl : c.chunks.map (fun v => v.data.length) = lens := hlens
          rw [hc] at hl
          simp at hl
          simp [existingChunks, ht, Table.Column, hc1, hl]
    rcases hsup with hty | hty <;>
      simp [saveColumn, hchunks, ShardFile.Fields, hschema, getN, hf, hty, saveArm, hna,
        Concatenate, bind, Except.bind] at h

/-- What a returning in-memory half of `Save` assembles. -/
theorem assemble_of_ok (sf : ShardFile) (fields : List Field) (lens : List Nat) (rec : Record)
    (hschema : sf.schema = some fields)
    (hsup : ∀ f ∈ fields, f.Typ = DataType.int64 ∨ f.Typ = DataType.float64)
    (htab : ∀ t, sf.table = some t → TableOK fields lens t)
    (h0 : 0 ≤ sf.added)
    (hadd : 0 < sf.added → ColsOK fields sf.added.toNat sf.columns)
    (hrows : sf.beforeRows = sf.committedRows)
    (h64 : sf.beforeRows + sf.added < 2 ^ 63)
    (h : sf.assemble = Except.ok rec) :
    rec.schema = fields ∧ rec.rows = sf.beforeRows + sf.added ∧
    rec.parts.length = fields.length ∧
    ∀ part ∈ rec.parts, (part.data.length : Int) = sf.beforeRows + sf.added := by
  have hcommitted : 0 ≤ sf.committedRows := by
    cases ht : sf.table with
    | none => simp [ShardFile.committedRows, ht]
    | some t =>
      have := (htab t ht).1
      simp only [ShardFile.committedRows, ht, Table.NumRows]
      rw [this]
      exact Int.ofNat_nonneg _
  unfold ShardFile.assemble at h
  simp only [ShardFile.Fields, hschema] at h
  cases hrun : forRange fields.length (saveColumn sf) [] with
  | error e => rw [hrun] at h; cases h
  | ok parts =>
    rw [hrun] at h
    simp only at h
    have hw : wrap64 (sf.beforeRows + sf.added) = sf.beforeRows + sf.added :=
      wrap64_eq _ (by omega) h64
    rw [hw] at h
    have hrec := NewRecord_of_ok fields parts _ rec (by omega) h
    have hparts : parts.length = fields.length ∧
        ∀ part ∈ parts, (part.data.length : Int) = sf.beforeRows + sf.added :=
      forRange_of_ok (saveColumn sf)
        (fun j (ps : List Values) => ps.length = j ∧
          ∀ part ∈ ps, (part.data.length : Int) = sf.beforeRows + sf.added)
        fields.length [] parts ⟨rfl, by intro part hp; simp at hp⟩
        (by
          intro j ps ps1 hj hall hstep
          have hf : fields[j]? = some fields[j] := List.getElem?_eq_getElem hj
          have heq := saveColumn_of_ok sf fields lens fields[j] j ps ps1 hschema hf
            (hsup _ (List.getElem_mem hj)) htab (fun hp => ⟨_, hadd hp⟩) hstep
          rw [heq]
          refine ⟨by rw [List.length_append, hall.1]; rfl, ?_⟩
          intro part hp
          rcases List.mem_append.mp hp with hp1 | hp1
          · exact hall.2 part hp1
          · simp only [List.mem_singleton] at hp1
            rw [hp1]
            have h1 := oldData_length sf fields lens fields[j] j hf htab
            have h2 := newData_length sf fields fields[j] j hf h0 hadd
            simp only [List.length_append]
            push_cast
            omega)
        hrun
    rw [hrec]
    exact ⟨rfl, rfl, hparts.1, hparts.2⟩

/-- C2: for a ShardFile as `NewShardFile` returns it (table well formed, `n`
committed rows, `n = 0` without file) that passed `EnsureSchema`, and a
changeset whose last row id is `maxId` and whose sizes fit the machine (`n` an
`int64` value, every row id below the largest slice length `make` accepts):
whenever `process` returns, `buildAppenders` has allocated `maxId - n + 1` new
rows when that number is positive and none otherwise (there is one new buffer
per schema field and each has that many cells), and whenever `Save` then
assembles the table, the table has exactly `max n (maxId + 1)` rows, one column
per schema field, and every column's value sequence has exactly that length;
for a valid changeset `process` does return and `Save` does assemble. -/
theorem buildAppenders_row_count (d : Disk) (name : String) (sf0 sf : ShardFile)
    (cs : ChangesetRequest) (hnew : NewShardFile d name = Except.ok sf0)
    (hwf : sf0.WellFormed) (hens : sf0.EnsureSchema cs = (sf, none)) (hfit : sf.Fits cs) :
    (∀ sf1, sf.process cs = Except.ok sf1 →
      sf1.added = (if 0 < cs.maxId - sf.committedRows + 1 then cs.maxId - sf.committedRows + 1
        else 0) ∧
      (0 < sf1.added → sf1.columns.length = cs.ArrowSchema.length ∧
        ∀ v ∈ sf1.columns, (v.data.length : Int) = sf1.added) ∧
      ∀ rec, sf1.assemble = Except.ok rec →
        rec.toTable.NumRows = max sf.committedRows (cs.maxId + 1) ∧
        rec.schema = cs.ArrowSchema ∧
        rec.parts.length = cs.ArrowSchema.length ∧
        rec.toTable.cols.length = cs.ArrowSchema.length ∧
        (∀ part ∈ rec.parts, (part.data.length : Int) = max sf.committedRows (cs.maxId + 1)) ∧
        ∀ c ∈ rec.toTable.cols, (c.flat.length : Int) = max sf.committedRows (cs.maxId + 1)) ∧
    (cs.Valid → ∃ sf1 rec, sf.process cs = Except.ok sf1 ∧ sf1.assemble = Except.ok rec) := by
  constructor
  · intro sf1 hproc
    obtain ⟨lens, hl⟩ := loaded_of_EnsureSchema d name sf0 sf cs hnew hwf hens
    obtain ⟨hschema1, hbefore1, hcr1, hadded1, htab1, _, hcols1⟩ :=
      process_of_ok sf sf1 cs cs.ArrowSchema lens hl.schema hl.sup hl.cols hl.before hl.added
        (fun t ht => (hl.tab t ht).1) hfit hproc
    have hn0 : 0 ≤ sf.committedRows := by
      cases ht : sf.table with
      | none => simp [ShardFile.committedRows, ht]
      | some t =>
        have := (hl.tab t ht).1.1
        simp only [ShardFile.committedRows, ht, Table.NumRows]
        rw [this]
        exact Int.ofNat_nonneg _
    have hlim := fits_maxId sf cs hfit
    have hn64 := hfit.1
    unfold maxSliceLen at hlim
    have hadd0 : 0 ≤ sf1.added := by
      rw [hadded1]
      split <;> omega
    have htotal : sf1.beforeRows + sf1.added = max sf.committedRows (cs.maxId + 1) := by
      rw [hbefore1, hadded1]
      split
      · rw [max_eq_left (by omega)]; omega
      · rw [max_eq_right (by omega)]; omega
    refine ⟨?_, ?_, ?_⟩
    · rw [hadded1]
      by_cases hlt : cs.maxId < sf.committedRows
      · rw [if_pos hlt, if_neg (by omega)]
      · rw [if_neg hlt, if_pos (by omega)]
    · intro hpos
      have hok := hcols1 hpos
      refine ⟨hok.1, ?_⟩
      intro v hv
      obtain ⟨k, hk⟩ := List.mem_iff_getElem?.mp hv
      have hkf : k < cs.ArrowSchema.length := by
        have := (List.getElem?_eq_some.mp hk).1
        rw [hok.1] at this
        exact this
      obtain ⟨v2, hv2, _, hlen, _⟩ := hok.2 k _ (List.getElem?_eq_getElem hkf)
      rw [hk] at hv2
      cases hv2
      rw [hlen]
      omega
    · intro rec hasm
      obtain ⟨hsch, hrows, hplen, hparts⟩ := assemble_of_ok sf1 cs.ArrowSchema lens rec hschema1
        hl.sup htab1 hadd0 hcols1 (hbefore1.trans hcr1.symm)
        (by rw [htotal]; exact max_lt hn64 (by omega)) hasm
      have hcols : rec.toTable.cols.length = cs.ArrowSchema.length := by
        unfold Record.toTable
        simp only [List.length_zipWith]
        rw [hsch, hplen]
        exact Nat.min_self _
      refine ⟨?_, hsch, hplen, hcols, ?_, ?_⟩
      · show rec.rows = _
        rw [hrows, htotal]
      · intro part hp
        rw [hparts part hp, htotal]
      · intro c hc
        unfold Record.toTable at hc
        simp only at hc
        obtain ⟨k, hk⟩ := List.mem_iff_getElem?.mp hc
        rw [List.getElem?_zipWith_eq_some] at hk
        obtain ⟨f, part, _, hp, hcp⟩ := hk
        subst hcp
        have hmem : part ∈ rec.parts := List.mem_iff_getElem?.mpr ⟨k, hp⟩
        have hlen := hparts part hmem
        simp only [Column.flat, List.map_cons, List.map_nil, List.flatten_cons, List.flatten_nil,
          List.append_nil]
        rw [hlen, htotal]
  · intro hvalid
    obtain ⟨lens, h⟩ := ready_of_EnsureSchema d name sf0 sf cs hnew hwf hens hvalid
    obtain ⟨sf1, rec, hproc, hasm, _⟩ := merge_spec h hfit
    exact ⟨sf1, rec, hproc, hasm⟩

/-! ### Applying a changeset twice -/

theorem Save_ok (sf : ShardFile) (name : String) (d : Disk) (rec : Record)
    (hasm : sf.assemble = Except.ok rec)
    (hc : d.createFails (name ++ ".parquet") = false)
    (hw : d.writeFails (name ++ ".parquet") = false) :
    sf.Save name d =
      ({ d with files := Function.update d.files (name ++ ".parquet")
                  (some (File.parquet rec.toTable)),
                log := d.log ++ [FileOp.create (name ++ ".parquet")] }, Except.ok ()) := by
  simp [ShardFile.Save, hasm, hc, hw]

theorem Rename_ok (d : Disk) (src dst : String) (f : File)
    (hr : d.renameFails src = false) (hfile : d.files src = some f) :
    (Rename d src dst).2 = Except.ok () ∧
    (Rename d src dst).1.files dst = some f ∧
    (Rename d src dst).1.createFails = d.createFails ∧
    (Rename d src dst).1.writeFails = d.writeFails ∧
    (Rename d src dst).1.renameFails = d.renameFails := by
  unfold Rename
  rw [if_neg (by simp [hr]), hfile]
  simp

theorem apply_of_merge (w : World) (fname : String) (cs : ChangesetRequest) (shard : Nat)
    (sf0 sf sf1 : ShardFile) (rec : Record)
    (hnew : NewShardFile w.disk fname = Except.ok sf0)
    (hens : sf0.EnsureSchema cs = (sf, none))
    (hproc : sf.process cs = Except.ok sf1) (hasm : sf1.assemble = Except.ok rec)
    (hdest : sf1.dest = fname)
    (hc : w.disk.createFails (fname ++ ".temp.parquet") = false)
    (hw : w.disk.writeFails (fname ++ ".temp.parquet") = false)
    (hr : w.disk.renameFails (fname ++ ".temp.parquet") = false) :
    (ApplyDataframeChangeset w fname cs shard).2 = Except.ok () ∧
    (ApplyDataframeChangeset w fname cs shard).1.disk.files (fname ++ ".parquet") =
      some (File.parquet rec.toTable) ∧
    (ApplyDataframeChangeset w fname cs shard).1.disk.createFails = w.disk.createFails ∧
    (ApplyDataframeChangeset w fname cs shard).1.disk.writeFails = w.disk.writeFails ∧
    (ApplyDataframeChangeset w fname cs shard).1.disk.renameFails = w.disk.renameFails := by
  subst hdest
  have hsave := Save_ok sf1 (sf1.dest ++ ".temp") w.disk rec hasm
    (by rw [temp_path]; exact hc) (by rw [temp_path]; exact hw)
  have hren := Rename_ok
    { w.disk with files := Function.update w.disk.files (sf1.dest ++ ".temp" ++ ".parquet")
                    (some (File.parquet rec.toTable)),
                  log := w.disk.log ++ [FileOp.create (sf1.dest ++ ".temp" ++ ".parquet")] }
    (sf1.dest ++ ".temp" ++ ".parquet") (sf1.dest ++ ".parquet") (File.parquet rec.toTable)
    (by rw [temp_path]; exact hr) (by simp)
  have hP : sf.Process cs w.disk = Rename
      { w.disk with files := Function.update w.disk.files (sf1.dest ++ ".temp" ++ ".parquet")
                      (some (File.parquet rec.toTable)),
                    log := w.disk.log ++ [FileOp.create (sf1.dest ++ ".temp" ++ ".parquet")] }
      (sf1.dest ++ ".temp" ++ ".parquet") (sf1.dest ++ ".parquet") := by
    simp only [ShardFile.Process, hproc, hsave]
  simp only [ApplyDataframeChangeset, hnew, hens, hP]
  exact hren

theorem exists_last_occurrence (ids : List Int) (r : Int) (hr : r ∈ ids) :
    ∃ j : Nat, ids[j]? = some r ∧ ∀ j1 : Nat, j < j1 → ids[j1]? ≠ some r := by
  induction ids with
  | nil => simp at hr
  | cons a rest ih =>
    by_cases hrest : r ∈ rest
    · obtain ⟨j, hj, hlast⟩ := ih hrest
      refine ⟨j + 1, by simpa using hj, ?_⟩
      intro j1 hj1
      cases j1 with
      | zero => omega
      | succ j2 =>
        have := hlast j2 (by omega)
        simpa using this
    · have ha : r = a := by
        rcases List.mem_cons.mp hr with h | h
        · exact h
        · exact absurd h hrest
      refine ⟨0, by simp [ha], ?_⟩
      intro j1 hj1 hcon
      cases j1 with
      | zero => omega
      | succ j2 =>
        simp only [List.getElem?_cons_succ] at hcon
        exact hrest (List.mem_iff_getElem?.mpr ⟨j2, hcon⟩)

theorem toTable_schema (rec : Record) (hlen : rec.parts.length = rec.schema.length) :
    rec.toTable.Schema = rec.schema := by
  unfold Record.toTable Table.Schema
  simp only
  apply List.ext_getElem?
  intro k
  rw [List.getElem?_map, List.getElem?_zipWith]
  by_cases hk : k < rec.schema.length
  · have hkp : k < rec.parts.length := by omega
    rw [List.getElem?_eq_getElem hk, List.getElem?_eq_getElem hkp]
    rfl
  · rw [List.getElem?_eq_none (by omega)]
    rfl

theorem toTable_flat (rec : Record) (k : Nat) (f : Field) (p : Values)
    (hf : rec.schema[k]? = some f) (hp : rec.parts[k]? = some p) :
    ∃ c, rec.toTable.cols[k]? = some c ∧ c.flat = p.data := by
  refine ⟨{ field := f, chunks := [p] }, ?_, by simp [Column.flat]⟩
  unfold Record.toTable
  simp only
  rw [List.getElem?_zipWith, hf, hp]

theorem toTable_wellFormed (rec : Record) (hne : rec.schema ≠ [])
    (hlen : rec.parts.length = rec.schema.length)
    (hall : ∀ (k : Nat) (f : Field) (p : Values), rec.schema[k]? = some f →
      rec.parts[k]? = some p → p.elem = f.Typ ∧ (p.data.length : Int) = rec.rows) :
    rec.toTable.WellFormed := by
  obtain ⟨schema, parts, rows⟩ := rec
  simp only at hne hlen hall
  cases schema with
  | nil => exact absurd rfl hne
  | cons f0 fs =>
    cases parts with
    | nil => simp at hlen
    | cons p0 ps =>
      have h0 := hall 0 f0 p0 (by simp) (by simp)
      unfold Table.WellFormed Record.toTable
      simp only [List.zipWith_cons_cons]
      refine ⟨?_, ?_⟩
      · intro c hc
        obtain ⟨k, hk⟩ := List.mem_iff_getElem?.mp hc
        have hk1 : (List.zipWith (fun (f : Field) (p : Values) =>
            ({ field := f, chunks := [p] } : Column)) (f0 :: fs) (p0 :: ps))[k]? = some c := hk
        rw [List.getElem?_zipWith_eq_some] at hk1
        obtain ⟨f, p, hf, hp, hcp⟩ := hk1
        have hfp := hall k f p hf hp
        subst hcp
        refine ⟨?_, ?_⟩
        · simp only [Column.lens, List.map_cons, List.map_nil, List.cons.injEq, and_true]
          have h1 := hfp.2
          have h2 := h0.2
          omega
        · intro a ha
          simp only [List.mem_singleton] at ha
          rw [ha]
          exact hfp.1
      · simp only [Column.lens, List.map_cons, List.map_nil, List.sum_cons, List.sum_nil]
        have h2 := h0.2
        omega

/-- Applying the changeset to a table that already holds the changeset's
values at the changeset's row ids, and has more rows than `maxId`, leaves every
column as it is. -/
theorem merged_again {sf sf2 : ShardFile} {cs : ChangesetRequest} {fields : List Field}
    {lens lens2 : List Nat} (h1 : Ready sf cs fields lens) (h2 : Ready sf2 cs fields lens2)
    (k : Nat) (f : Field) (src : Values) (hf : fields[k]? = some f)
    (hsrc : cs.Columns[k]? = some src) (added1 added2 : Int)
    (hadded1 : added1 =
      (if cs.maxId < sf.committedRows then 0 else cs.maxId - sf.committedRows + 1))
    (hadded2 : added2 =
      (if cs.maxId < sf2.committedRows then 0 else cs.maxId - sf2.committedRows + 1))
    (hrows : cs.maxId < sf2.committedRows)
    (hold : sf2.oldData k = mergedData (sf.oldData k) added1.toNat cs.ShardIds src.data
      (splitPoint sf.committedRows cs.ShardIds)) :
    mergedData (sf2.oldData k) added2.toNat cs.ShardIds src.data
      (splitPoint sf2.committedRows cs.ShardIds) = sf2.oldData k := by
  obtain ⟨src1, hsrc1, _, hlen⟩ := h1.bufs k f hf
  rw [hsrc] at hsrc1
  cases hsrc1
  apply List.ext_getElem?
  intro q
  by_cases hq : ∃ r ∈ cs.ShardIds, r.toNat = q
  · obtain ⟨r, hr, hrq⟩ := hq
    obtain ⟨j, hj, hlast⟩ := exists_last_occurrence cs.ShardIds r hr
    have hjlt : j < src.data.length := by
      have := (List.getElem?_eq_some.mp hj).1
      omega
    have hx : src.data[j]? = some src.data[j] := List.getElem?_eq_getElem hjlt
    have e2 := h2.merged_get_last k f hf added2 hadded2 src.data j r _ hj hx hlast
    have e1 := h1.merged_get_last k f hf added1 hadded1 src.data j r _ hj hx hlast
    rw [← hrq, e2, hold, e1]
  · have hq1 : ∀ r ∈ cs.ShardIds, r.toNat ≠ q := by
      intro r hr hcon
      exact hq ⟨r, hr, hcon⟩
    have e2 := h2.merged_get_other k f hf added2 hadded2 src.data q hq1
    rw [e2]
    have ha : added2.toNat = 0 := by
      rw [hadded2, if_pos hrows]
      rfl
    rw [ha]
    simp

/-- C4: for a shard whose file is absent or holds a well-formed table, and a
valid changeset with at least one column that `EnsureSchema` accepts and whose
sizes fit the machine (the committed row count an `int64` value, every row id
below the largest slice length `make` accepts), on a file system that refuses
no operation: `ApplyDataframeChangeset` succeeds, applying the same changeset a
second time succeeds too, and the shard file holds the same table (same schema,
same row count, same value in every row and column) after the second
application as after the first. -/
theorem apply_twice_idempotent (w : World) (fname : String) (cs : ChangesetRequest)
    (shard : Nat) (sf0 : ShardFile)
    (hnew : NewShardFile w.disk fname = Except.ok sf0) (hwf : sf0.WellFormed)
    (hens : (sf0.EnsureSchema cs).2 = none) (hvalid : cs.Valid) (hfit : sf0.Fits cs)
    (hcol : cs.SimpleSchema ≠ [])
    (hc : w.disk.createFails (fname ++ ".temp.parquet") = false)
    (hw : w.disk.writeFails (fname ++ ".temp.parquet") = false)
    (hr : w.disk.renameFails (fname ++ ".temp.parquet") = false) :
    (ApplyDataframeChangeset w fname cs shard).2 = Except.ok () ∧
    (ApplyDataframeChangeset (ApplyDataframeChangeset w fname cs shard).1 fname cs shard).2 =
      Except.ok () ∧
    ∃ t, (ApplyDataframeChangeset w fname cs shard).1.disk.files (fname ++ ".parquet") =
        some (File.parquet t) ∧
      (ApplyDataframeChangeset (ApplyDataframeChangeset w fname cs shard).1 fname cs
        shard).1.disk.files (fname ++ ".parquet") = some (File.parquet t) := by
  -- first application
  have hens1 : sf0.EnsureSchema cs = ((sf0.EnsureSchema cs).1, none) := by
    rw [← hens]
  obtain ⟨lens, h1⟩ := ready_of_EnsureSchema w.disk fname sf0 _ cs hnew hwf hens1 hvalid
  have hfit1 : (sf0.EnsureSchema cs).1.Fits cs := by
    refine ⟨?_, hfit.2⟩
    have ht := (EnsureSchema_ok_spec sf0 _ cs hens1).2.1
    have hcr : (sf0.EnsureSchema cs).1.committedRows = sf0.committedRows := by
      simp only [ShardFile.committedRows, ht]
    rw [hcr]
    exact hfit.1
  obtain ⟨sf1, rec1, hproc1, hasm1, hdest1, _, hadded1, hschema1, hrows1, hplen1, _, _, _,
    hdata1⟩ := merge_spec h1 hfit1
  have hdest0 : (sf0.EnsureSchema cs).1.dest = fname := by
    rw [(EnsureSchema_ok_spec sf0 _ cs hens1).2.2.2.2.1]
    exact (NewShardFile_spec w.disk fname sf0 hnew).2.2.2.1
  obtain ⟨hres1, hfile1, hcf1, hwf1, hrf1⟩ := apply_of_merge w fname cs shard sf0 _ sf1 rec1 hnew
    hens1 hproc1 hasm1 (hdest1.trans hdest0) hc hw hr
  -- the table committed by the first application
  have hfields : cs.ArrowSchema ≠ [] := by
    intro hnil
    apply hcol
    have := ArrowSchema_length cs
    rw [hnil] at this
    exact List.length_eq_zero.mp this.symm
  have hn0 := h1.rows_nonneg
  have hmax0 := h1.last_nonneg
  have hpart1 : ∀ (k : Nat) (f : Field) (p : Values), rec1.schema[k]? = some f →
      rec1.parts[k]? = some p → p.elem = f.Typ ∧ (p.data.length : Int) = rec1.rows := by
    intro k f p hf hp
    rw [hschema1] at hf
    obtain ⟨src, hsrc, _, _⟩ := h1.bufs k f hf
    obtain ⟨_, _, hpk⟩ := hdata1 k f src hf hsrc
    rw [hp] at hpk
    cases hpk
    refine ⟨rfl, ?_⟩
    simp only [mergedData_length]
    have hlen := h1.old_length k f hf
    rw [hrows1]
    push_cast
    rw [hlen, hadded1]
    split
    · rw [max_eq_left (by omega)]; simp
    · rw [max_eq_right (by omega)]; omega
  have hwfT : rec1.toTable.WellFormed :=
    toTable_wellFormed rec1 (by rw [hschema1]; exact hfields) (by rw [hplen1, hschema1]) hpart1
  have hschemaT : rec1.toTable.Schema = cs.ArrowSchema := by
    rw [toTable_schema rec1 (by rw [hplen1, hschema1]), hschema1]
  -- second application
  have hnew2 : NewShardFile (ApplyDataframeChangeset w fname cs shard).1.disk fname = Except.ok
      { table := some rec1.toTable, schema := some rec1.toTable.Schema, beforeRows := 0, added := 0,
        columns := [], dest := fname } := by
    simp [NewShardFile, readTableParquet, hfile1]
  have hcmp := (compareSchema_iff rec1.toTable.Schema cs.ArrowSchema).mpr hschemaT
  have hens2 : ShardFile.EnsureSchema
      { table := some rec1.toTable, schema := some rec1.toTable.Schema, beforeRows := 0, added := 0,
        columns := [], dest := fname } cs =
      ({ table := some rec1.toTable, schema := some rec1.toTable.Schema, beforeRows := 0,
         added := 0, columns := List.replicate rec1.toTable.Schema.length nilValue,
         dest := fname }, none) := by
    simp [ShardFile.EnsureSchema, hcmp]
  obtain ⟨lens2, h2⟩ := ready_of_EnsureSchema _ fname _ _ cs hnew2
    (by simp only [ShardFile.WellFormed]; exact hwfT) hens2 hvalid
  have hfit2 : ShardFile.Fits
      { table := some rec1.toTable, schema := some rec1.toTable.Schema, beforeRows := 0,
        added := 0, columns := List.replicate rec1.toTable.Schema.length nilValue,
        dest := fname } cs := by
    refine ⟨?_, hfit.2⟩
    show rec1.rows < 2 ^ 63
    rw [hrows1]
    have hlim := fits_maxId _ cs hfit1
    unfold maxSliceLen at hlim
    exact max_lt hfit1.1 (by omega)
  obtain ⟨sf2, rec2, hproc2, hasm2, hdest2, _, hadded2, hschema2, hrows2, hplen2, _, _, _,
    hdata2⟩ := merge_spec h2 hfit2
  obtain ⟨hres2, hfile2, _, _, _⟩ := apply_of_merge _ fname cs shard _ _ sf2 rec2 hnew2
    hens2 hproc2 hasm2 hdest2 (by rw [hcf1]; exact hc) (by rw [hwf1]; exact hw)
    (by rw [hrf1]; exact hr)
  refine ⟨hres1, hres2, rec1.toTable, hfile1, ?_⟩
  rw [hfile2]
  -- the two records are the same
  have hcr2 : ShardFile.committedRows
      { table := some rec1.toTable, schema := some rec1.toTable.Schema, beforeRows := 0,
        added := 0, columns := List.replicate rec1.toTable.Schema.length nilValue,
        dest := fname } = rec1.rows := rfl
  have hlt2 : cs.maxId < rec1.rows := by
    rw [hrows1]
    have := le_max_right ((sf0.EnsureSchema cs).1.committedRows) (cs.maxId + 1)
    omega
  have hrec : rec2 = rec1 := by
    obtain ⟨schema1, parts1, rows1⟩ := rec1
    obtain ⟨schema2, parts2, rows2⟩ := rec2
    simp only at hschema1 hschema2 hrows1 hrows2 hplen1 hplen2 hdata1 hdata2 hcr2 hlt2
    simp only [Record.mk.injEq]
    refine ⟨by rw [hschema1, hschema2], ?_, ?_⟩
    · apply List.ext_getElem?
      intro k
      by_cases hk : k < cs.ArrowSchema.length
      · have hf : cs.ArrowSchema[k]? = some cs.ArrowSchema[k] := List.getElem?_eq_getElem hk
        obtain ⟨src, hsrc, _, _⟩ := h1.bufs k _ hf
        obtain ⟨_, _, hp1⟩ := hdata1 k _ src hf hsrc
        obtain ⟨_, _, hp2⟩ := hdata2 k _ src hf hsrc
        rw [hp1, hp2]
        congr 2
        have hold : ShardFile.oldData
            { table := some (Record.toTable { schema := schema1, parts := parts1, rows := rows1 }),
              schema := some (Record.toTable
                { schema := schema1, parts := parts1, rows := rows1 }).Schema,
              beforeRows := 0, added := 0,
              columns := List.replicate (Record.toTable
                { schema := schema1, parts := parts1, rows := rows1 }).Schema.length nilValue,
              dest := fname } k =
            mergedData ((sf0.EnsureSchema cs).1.oldData k) sf1.added.toNat cs.ShardIds src.data
              (splitPoint (sf0.EnsureSchema cs).1.committedRows cs.ShardIds) := by
          obtain ⟨c, hc1, hflat⟩ := toTable_flat
            { schema := schema1, parts := parts1, rows := rows1 } k _ _
            (by rw [hschema1]; exact hf) hp1
          simp only [ShardFile.oldData, hc1]
          exact hflat
        rw [merged_again h1 h2 k _ src hf hsrc sf1.added sf2.added hadded1 hadded2
          (by rw [hcr2]; exact hlt2) hold]
        exact hold
      · rw [List.getElem?_eq_none (by omega), List.getElem?_eq_none (by omega)]
    · rw [hrows2, hcr2, hrows1]
      rw [hrows1] at hlt2
      exact max_eq_left (by omega)
  rw [hrec]

/-! ### The claims at the sample data -/

theorem buildAppenders_row_count_witness :
    NewShardFile sampleDisk "shard" = Except.ok sampleShardFile ∧
    sampleShardFile.WellFormed ∧
    sampleShardFile.EnsureSchema sampleChangeset = (sampleReady, none) ∧
    sampleReady.Fits sampleChangeset ∧ sampleChangeset.Valid ∧
    (∀ sf1, sampleReady.process sampleChangeset = Except.ok sf1 →
      sf1.added = (if 0 < sampleChangeset.maxId - sampleReady.committedRows + 1
        then sampleChangeset.maxId - sampleReady.committedRows + 1 else 0) ∧
      (0 < sf1.added → sf1.columns.length = sampleChangeset.ArrowSchema.length ∧
        ∀ v ∈ sf1.columns, (v.data.length : Int) = sf1.added) ∧
      ∀ rec, sf1.assemble = Except.ok rec →
        rec.toTable.NumRows = max sampleReady.committedRows (sampleChangeset.maxId + 1) ∧
        rec.schema = sampleChangeset.ArrowSchema ∧
        rec.parts.length = sampleChangeset.ArrowSchema.length ∧
        rec.toTable.cols.length = sampleChangeset.ArrowSchema.length ∧
        (∀ part ∈ rec.parts,
          (part.data.length : Int) = max sampleReady.committedRows (sampleChangeset.maxId + 1)) ∧
        ∀ c ∈ rec.toTable.cols,
          (c.flat.length : Int) = max sampleReady.committedRows (sampleChangeset.maxId + 1)) ∧
    (∃ sf1 rec, sampleReady.process sampleChangeset = Except.ok sf1 ∧
      sf1.assemble = Except.ok rec) :=
  ⟨by decide, by decide, by decide, by decide, by decide,
    (buildAppenders_row_count sampleDisk "shard" sampleShardFile sampleReady sampleChangeset
      (by decide) (by decide) (by decide) (by decide)).1,
    (buildAppenders_row_count sampleDisk "shard" sampleShardFile sampleReady sampleChangeset
      (by decide) (by decide) (by decide) (by decide)).2 (by decide)⟩

theorem process_frame_witness :
    NewShardFile sampleDisk "shard" = Except.ok sampleShardFile ∧
    sampleShardFile.WellFormed ∧
    sampleShardFile.EnsureSchema sampleChangeset = (sampleReady, none) ∧
    sampleChangeset.Valid ∧ sampleReady.Fits sampleChangeset ∧
    ∃ sf1 rec, sampleReady.process sampleChangeset = Except.ok sf1 ∧
      sf1.assemble = Except.ok rec ∧
      ∀ (k q : Nat), k < sampleChangeset.Columns.length →
        (∀ r ∈ sampleChangeset.ShardIds, r ≠ (q : Int)) →
        ∃ part, rec.parts[k]? = some part ∧
          (((q : Int) < sampleReady.committedRows →
              part.data[q]? = (sampleReady.oldData k)[q]?) ∧
           (sampleReady.committedRows ≤ (q : Int) → (q : Int) ≤ sampleChangeset.maxId →
              part.data[q]? = some 0)) :=
  ⟨by decide, by decide, by decide, by decide, by decide,
    (process_frame sampleDisk "shard" sampleShardFile sampleReady sampleChangeset
      (by decide) (by decide) (by decide) (by decide) (by decide)).1⟩

theorem apply_twice_idempotent_witness :
    NewShardFile sampleWorld.disk "shard" = Except.ok sampleShardFile ∧
    sampleShardFile.WellFormed ∧
    (sampleShardFile.EnsureSchema sampleChangeset).2 = none ∧
    sampleChangeset.Valid ∧ sampleShardFile.Fits sampleChangeset ∧
    sampleChangeset.SimpleSchema ≠ [] ∧
    sampleWorld.disk.createFails ("shard" ++ ".temp.parquet") = false ∧
    sampleWorld.disk.writeFails ("shard" ++ ".temp.parquet") = false ∧
    sampleWorld.disk.renameFails ("shard" ++ ".temp.parquet") = false ∧
    (ApplyDataframeChangeset sampleWorld "shard" sampleChangeset 0).2 = Except.ok () ∧
    (ApplyDataframeChangeset (ApplyDataframeChangeset sampleWorld "shard" sampleChangeset 0).1
      "shard" sampleChangeset 0).2 = Except.ok () ∧
    ∃ t, (ApplyDataframeChangeset sampleWorld "shard" sampleChangeset 0).1.disk.files
        ("shard" ++ ".parquet") = some (File.parquet t) ∧
      (ApplyDataframeChangeset (ApplyDataframeChangeset sampleWorld "shard" sampleChangeset 0).1
        "shard" sampleChangeset 0).1.disk.files ("shard" ++ ".parquet") =
        some (File.parquet t) :=
  ⟨by decide, by decide, by decide, by decide, by decide, by decide, by decide, by decide,
    by decide,
    apply_twice_idempotent sampleWorld "shard" sampleChangeset 0 sampleShardFile
      (by decide) (by decide) (by decide) (by decide) (by decide) (by decide) (by decide)
      (by decide) (by decide)⟩

theorem EnsureSchema_error_iff_witness :
    sampleShardFile.schema = some [{ Name := "a", Typ := DataType.int64 }] ∧
    (sampleShardFile.EnsureSchema floatChangeset).2 =
      some (Fault.error "dataframe schema's don't match") ∧
    (((sampleShardFile.EnsureSchema floatChangeset).2 ≠ none ↔
      (([{ Name := "a", Typ := DataType.int64 }] : Schema).length ≠
          floatChangeset.ArrowSchema.length ∨
        ∃ (i : Nat) (f1 f2 : Field),
          ([{ Name := "a", Typ := DataType.int64 }] : Schema)[i]? = some f1 ∧
          floatChangeset.ArrowSchema[i]? = some f2 ∧
          (f1.Name ≠ f2.Name ∨ f1.Typ ≠ f2.Typ))) ∧
    ((sampleShardFile.EnsureSchema floatChangeset).2 = none ∨
      (sampleShardFile.EnsureSchema floatChangeset).2 =
        some (Fault.error "dataframe schema's don't match")) ∧
    ((∀ nt ∈ floatChangeset.SimpleSchema,
        nt.DataType = DataType.int64 ∨ nt.DataType = DataType.float64) →
      floatChangeset.ArrowSchema =
        floatChangeset.SimpleSchema.map (fun nt => { Name := nt.Name, Typ := nt.DataType }))) :=
  ⟨by decide, by decide,
    EnsureSchema_error_iff sampleShardFile floatChangeset _ (by decide)⟩

theorem EnsureSchema_adopts_witness :
    freshShardFile.schema = none ∧
    (freshShardFile.EnsureSchema sampleChangeset).2 = none ∧
    ∃ s, (freshShardFile.EnsureSchema sampleChangeset).1.schema = some s ∧
      s = sampleChangeset.ArrowSchema ∧
      s.length = sampleChangeset.SimpleSchema.length ∧
      s.map Field.Name = sampleChangeset.SimpleSchema.map NameType.Name ∧
      (freshShardFile.EnsureSchema sampleChangeset).1.columns = List.replicate s.length nilValue ∧
      (freshShardFile.EnsureSchema sampleChangeset).1.columns.length =
        sampleChangeset.SimpleSchema.length :=
  ⟨by decide, EnsureSchema_adopts freshShardFile sampleChangeset (by decide)⟩

theorem ApplyDataframeChangeset_mismatch_witness :
    sampleWorld.disk.files ("shard" ++ ".parquet") = some (File.parquet sampleTable) ∧
    sampleTable.Schema ≠ floatChangeset.ArrowSchema ∧
    (ApplyDataframeChangeset sampleWorld "shard" floatChangeset 0).2 =
      Except.error (Fault.error "dataframe schema's don't match") ∧
    (ApplyDataframeChangeset sampleWorld "shard" floatChangeset 0).1.disk.files =
      sampleWorld.disk.files ∧
    (ApplyDataframeChangeset sampleWorld "shard" floatChangeset 0).1.disk.log =
      sampleWorld.disk.log ∧
    (∃ sf0, NewShardFile sampleWorld.disk "shard" = Except.ok sf0 ∧ sf0.table = some sampleTable ∧
      sf0.schema = some sampleTable.Schema ∧ (sf0.EnsureSchema floatChangeset).1 = sf0) ∧
    ((∀ nt ∈ floatChangeset.SimpleSchema,
        nt.DataType = DataType.int64 ∨ nt.DataType = DataType.float64) →
      floatChangeset.ArrowSchema =
        floatChangeset.SimpleSchema.map (fun nt => { Name := nt.Name, Typ := nt.DataType })) :=
  ⟨by decide, by decide,
    ApplyDataframeChangeset_mismatch sampleWorld "shard" floatChangeset 0 sampleTable
      (by decide) (by decide)⟩

/-! ## The reduction of the read path -/

/-- A nil map result changes nothing and hands `prev` back. -/
theorem reduceFn_nil {V P : Type} (ivy : Ivy V) (r : Reducer V) (prev : P) :
    r.reduceFn ivy prev MapResult.nil = Except.ok (r, Returned.prev prev) := by
  unfold Reducer.reduceFn
  rfl

/-- The first value stored is the map result itself. -/
theorem reduceFn_value_first {V P : Type} (ivy : Ivy V) (r : Reducer V) (prev : P) (val : V)
    (hacc : r.accumulator = none) :
    r.reduceFn ivy prev (MapResult.value val) =
      Except.ok ({ r with accumulator := some val }, Returned.nil) := by
  unfold Reducer.reduceFn
  rw [hacc]

/-- The first dataframe stored is the arrow vector of its first column. -/
theorem reduceFn_dataframe_first {V P : Type} (ivy : Ivy V) (r : Reducer V) (prev : P)
    (col : Column) (rest : List Column) (hacc : r.accumulator = none) :
    r.reduceFn ivy prev (MapResult.dataframe (col :: rest)) =
      Except.ok ({ r with accumulator := some (ivy.NewArrowVector col) }, Returned.nil) := by
  unfold Reducer.reduceFn
  rw [hacc]
  simp only [getN, List.getElem?_cons_zero]

/-- A later value is combined into the accumulator. -/
theorem reduceFn_value_later {V P : Type} (ivy : Ivy V) (r : Reducer V) (prev : P) (a val : V)
    (op : V → V → V) (hacc : r.accumulator = some a) (hop : ivy.BinaryOps r.opCode = some op) :
    r.reduceFn ivy prev (MapResult.value val) =
      Except.ok ({ r with accumulator := some (op a val) }, Returned.nil) := by
  unfold Reducer.reduceFn
  rw [hacc]
  simp only [Reducer.combine, hop]

/-- A later dataframe is combined into the accumulator as the arrow vector of
its first column. -/
theorem reduceFn_dataframe_later {V P : Type} (ivy : Ivy V) (r : Reducer V) (prev : P) (a : V)
    (col : Column) (rest : List Column) (op : V → V → V) (hacc : r.accumulator = some a)
    (hop : ivy.BinaryOps r.opCode = some op) :
    r.reduceFn ivy prev (MapResult.dataframe (col :: rest)) =
      Except.ok ({ r with accumulator := some (op a (ivy.NewArrowVector col)) },
        Returned.nil) := by
  unfold Reducer.reduceFn
  rw [hacc]
  simp only [Reducer.combine, hop, getN, List.getElem?_cons_zero]

/-- A map result of another type leaves the closure state as it is and makes
the reduce function return an error value. -/
theorem reduceFn_other {V P : Type} (ivy : Ivy V) (r : Reducer V) (prev : P) (t : String) :
    ∃ msg : String, r.reduceFn ivy prev (MapResult.other t) = Except.ok (r, Returned.error msg) := by
  unfold Reducer.reduceFn
  cases hacc : r.accumulator with
  | none => exact ⟨_, rfl⟩
  | some a => exact ⟨_, rfl⟩

/-- The closure state after a call does not depend on `prev`. -/
theorem reduceFn_state_indep {V P Q : Type} (ivy : Ivy V) (r : Reducer V) (p : P) (q : Q)
    (v : MapResult V) :
    (r.reduceFn ivy p v).map Prod.fst = (r.reduceFn ivy q v).map Prod.fst := by
  unfold Reducer.reduceFn
  cases v with
  | nil => rfl
  | dataframe df =>
    cases hacc : r.accumulator with
    | none =>
      simp only
      cases getN df 0 <;> rfl
    | some a =>
      simp only
      cases getN df 0 with
      | error e => rfl
      | ok col =>
        simp only
        cases r.combine ivy a (ivy.NewArrowVector col) <;> rfl
  | value val =>
    cases hacc : r.accumulator with
    | none => rfl
    | some a =>
      simp only
      cases r.combine ivy a val <;> rfl
  | other t =>
    cases hacc : r.accumulator with
    | none => rfl
    | some a => rfl

/-- The closure state after a run of calls does not depend on the first
`prev`. -/
theorem feed_state_indep {V : Type} (ivy : Ivy V) (vs : List (MapResult V)) :
    ∀ (r : Reducer V) (p q : Option String),
      (feed ivy r p vs).map Prod.fst = (feed ivy r q vs).map Prod.fst := by
  induction vs with
  | nil => intro r p q; rfl
  | cons v rest ih =>
    intro r p q
    have h := reduceFn_state_indep ivy r p q v
    unfold feed
    cases h1 : r.reduceFn ivy p v with
    | error e =>
      cases h2 : r.reduceFn ivy q v with
      | error e2 =>
        rw [h1, h2] at h
        simpa using h
      | ok x2 =>
        rw [h1, h2] at h
        cases h
    | ok x1 =>
      cases h2 : r.reduceFn ivy q v with
      | error e2 =>
        rw [h1, h2] at h
        cases h
      | ok x2 =>
        rw [h1, h2] at h
        obtain ⟨r1, ret1⟩ := x1
        obtain ⟨r2, ret2⟩ := x2
        have hr : r1 = r2 := by
          simpa [Except.map] using h
        subst hr
        exact ih r1 ret1.held ret2.held

/-- Feeding a run of map results starts with a call on the first of them. -/
theorem feed_cons {V : Type} (ivy : Ivy V) (r : Reducer V) (p : Option String)
    (v : MapResult V) (rest : List (MapResult V)) :
    feed ivy r p (v :: rest) =
      match r.reduceFn ivy p v with
      | Except.ok (r1, ret) => feed ivy r1 ret.held rest
      | Except.error e => Except.error e := by
  rw [feed]

/-- Feeding two runs of map results one after the other. -/
theorem feed_append {V : Type} (ivy : Ivy V) (xs ys : List (MapResult V)) :
    ∀ (r : Reducer V) (p : Option String),
      feed ivy r p (xs ++ ys) =
        match feed ivy r p xs with
        | Except.ok (r1, p1) => feed ivy r1 p1 ys
        | Except.error e => Except.error e := by
  induction xs with
  | nil => intro r p; rfl
  | cons v rest ih =>
    intro r p
    rw [List.cons_append, feed_cons, feed_cons]
    cases h1 : r.reduceFn ivy p v with
    | error e => rfl
    | ok x1 =>
      obtain ⟨r1, ret1⟩ := x1
      exact ih r1 ret1.held

/-- Feeding values only: every value goes into the accumulator. -/
theorem feed_values {V : Type} (ivy : Ivy V) (op : V → V → V) (vs : List V) :
    ∀ (r : Reducer V) (p : Option String), ivy.BinaryOps r.opCode = some op →
      ∃ q : Option String,
        feed ivy r p (vs.map MapResult.value) =
          Except.ok ({ r with accumulator := vs.foldl (accumulate op) r.accumulator }, q) := by
  induction vs with
  | nil => intro r p _; exact ⟨p, rfl⟩
  | cons v rest ih =>
    intro r p hop
    rw [List.map_cons, List.foldl_cons, feed_cons]
    cases hacc : r.accumulator with
    | none =>
      rw [reduceFn_value_first ivy r p v hacc]
      obtain ⟨q, hq⟩ := ih { r with accumulator := some v } Returned.nil.held hop
      exact ⟨q, hq⟩
    | some a =>
      rw [reduceFn_value_later ivy r p a v op hacc hop]
      obtain ⟨q, hq⟩ := ih { r with accumulator := some (op a v) } Returned.nil.held hop
      exact ⟨q, hq⟩

/-- Under an associative and commutative `op` the order of two values does not
matter to the accumulator. -/
theorem accumulate_comm {V : Type} (op : V → V → V)
    (hassoc : ∀ x y z : V, op (op x y) z = op x (op y z)) (hcomm : ∀ x y : V, op x y = op y x)
    (acc : Option V) (x y : V) :
    accumulate op (accumulate op acc x) y = accumulate op (accumulate op acc y) x := by
  cases acc with
  | none => simp only [accumulate, hcomm x y]
  | some a =>
    simp only [accumulate]
    rw [hassoc, hassoc, hcomm x y]

/-- The accumulator of a run of values from the empty accumulator. -/
theorem finalAccumulator_values {V : Type} (ivy : Ivy V) (op : V → V → V) (r : Reducer V)
    (vs : List V) (hop : ivy.BinaryOps r.opCode = some op) :
    finalAccumulator ivy r (vs.map MapResult.value) =
      Except.ok (vs.foldl (accumulate op) r.accumulator) := by
  obtain ⟨q, hq⟩ := feed_values ivy op vs r none hop
  unfold finalAccumulator
  rw [hq]


/-- Feeding any map results whose dataframes have a column: a nil result and a
result of another type are passed over, every other result goes into the
accumulator. -/
theorem feed_spec {V : Type} (ivy : Ivy V) (op : V → V → V) (vs : List (MapResult V)) :
    ∀ (r : Reducer V) (p : Option String), ivy.BinaryOps r.opCode = some op →
      (∀ df : DataFrame, MapResult.dataframe df ∈ vs → df ≠ []) →
      ∃ q : Option String,
        feed ivy r p vs =
          Except.ok ({ r with accumulator :=
            (vs.filterMap (MapResult.contribution ivy)).foldl (accumulate op) r.accumulator },
            q) := by
  induction vs with
  | nil => intro r p _ _; exact ⟨p, rfl⟩
  | cons v rest ih =>
    intro r p hop hdf
    have hdf1 : ∀ df : DataFrame, MapResult.dataframe df ∈ rest → df ≠ [] :=
      fun df h => hdf df (List.mem_cons_of_mem _ h)
    rw [feed_cons]
    cases v with
    | nil =>
      rw [reduceFn_nil]
      rw [List.filterMap_cons_none (by rfl)]
      exact ih r (Returned.prev p).held hop hdf1
    | other t =>
      obtain ⟨msg, hmsg⟩ := reduceFn_other ivy r p t
      rw [hmsg]
      rw [List.filterMap_cons_none (by rfl)]
      exact ih r (Returned.error msg : Returned (Option String)).held hop hdf1
    | value val =>
      rw [List.filterMap_cons_some (by rfl), List.foldl_cons]
      cases hacc : r.accumulator with
      | none =>
        rw [reduceFn_value_first ivy r p val hacc]
        obtain ⟨q, hq⟩ := ih { r with accumulator := some val } Returned.nil.held hop hdf1
        exact ⟨q, hq⟩
      | some a =>
        rw [reduceFn_value_later ivy r p a val op hacc hop]
        obtain ⟨q, hq⟩ := ih { r with accumulator := some (op a val) } Returned.nil.held hop hdf1
        exact ⟨q, hq⟩
    | dataframe df =>
      cases df with
      | nil => exact absurd rfl (hdf [] (List.mem_cons_self _ _))
      | cons col cols =>
        rw [List.filterMap_cons_some (by rfl), List.foldl_cons]
        cases hacc : r.accumulator with
        | none =>
          rw [reduceFn_dataframe_first ivy r p col cols hacc]
          obtain ⟨q, hq⟩ :=
            ih { r with accumulator := some (ivy.NewArrowVector col) } Returned.nil.held hop hdf1
          exact ⟨q, hq⟩
        | some a =>
          rw [reduceFn_dataframe_later ivy r p a col cols op hacc hop]
          obtain ⟨q, hq⟩ :=
            ih { r with accumulator := some (op a (ivy.NewArrowVector col)) } Returned.nil.held
              hop hdf1
          exact ⟨q, hq⟩

/-- Accumulating from a stored value is a left fold of the combine operation. -/
theorem foldl_accumulate_some {V : Type} (op : V → V → V) (rest : List V) :
    ∀ x : V, rest.foldl (accumulate op) (some x) = some (rest.foldl op x) := by
  induction rest with
  | nil => intro x; rfl
  | cons y ys ih =>
    intro x
    rw [List.foldl_cons, List.foldl_cons]
    exact ih (op x y)

/-- C15: the reduce function of `IvyReduce` with combine operation `op`.
A nil result leaves the closure state unchanged and returns `prev`; while
nothing is stored, a value becomes the accumulator as it is and a dataframe as
the arrow vector of its first column, without `op`; once `a` is stored, a
result `x` replaces it by `op a x`; so any sequence of results (its dataframes
having a column) fed to a fresh reduce function leaves the first result that
is a value or a dataframe, combined from the left with the later ones. -/
theorem reduceFn_accumulates {V P : Type} (ivy : Ivy V) (op : V → V → V) (r : Reducer V)
    (hop : ivy.BinaryOps r.opCode = some op) :
    (∀ prev : P, r.reduceFn ivy prev MapResult.nil = Except.ok (r, Returned.prev prev)) ∧
    (r.accumulator = none → ∀ (prev : P) (val : V),
      r.reduceFn ivy prev (MapResult.value val) =
        Except.ok ({ r with accumulator := some val }, Returned.nil)) ∧
    (r.accumulator = none → ∀ (prev : P) (col : Column) (rest : List Column),
      r.reduceFn ivy prev (MapResult.dataframe (col :: rest)) =
        Except.ok ({ r with accumulator := some (ivy.NewArrowVector col) }, Returned.nil)) ∧
    (∀ a : V, r.accumulator = some a → ∀ (prev : P) (val : V),
      r.reduceFn ivy prev (MapResult.value val) =
        Except.ok ({ r with accumulator := some (op a val) }, Returned.nil)) ∧
    (∀ a : V, r.accumulator = some a → ∀ (prev : P) (col : Column) (rest : List Column),
      r.reduceFn ivy prev (MapResult.dataframe (col :: rest)) =
        Except.ok ({ r with accumulator := some (op a (ivy.NewArrowVector col)) },
          Returned.nil)) ∧
    (∀ (reduceCode : String) (remote : Bool) (vs : List (MapResult V)),
      (∀ df : DataFrame, MapResult.dataframe df ∈ vs → df ≠ []) →
      finalAccumulator ivy (IvyReduce reduceCode r.opCode remote) vs =
        Except.ok (match vs.filterMap (MapResult.contribution ivy) with
          | [] => none
          | x :: rest => some (rest.foldl op x))) := by
  refine ⟨fun prev => reduceFn_nil ivy r prev,
    fun hacc prev val => reduceFn_value_first ivy r prev val hacc,
    fun hacc prev col rest => reduceFn_dataframe_first ivy r prev col rest hacc,
    fun a hacc prev val => reduceFn_value_later ivy r prev a val op hacc hop,
    fun a hacc prev col rest => reduceFn_dataframe_later ivy r prev a col rest op hacc hop, ?_⟩
  intro reduceCode remote vs hdf
  obtain ⟨q, hq⟩ := feed_spec ivy op vs (IvyReduce reduceCode r.opCode remote) none hop hdf
  unfold finalAccumulator
  rw [hq]
  simp only [IvyReduce]
  cases vs.filterMap (MapResult.contribution ivy) with
  | nil => rfl
  | cons x rest =>
    rw [List.foldl_cons]
    simp only [accumulate]
    rw [foldl_accumulate_some]

/-- C16: for an associative and commutative combine operation `op` and
three partial results, the accumulator after feeding them to a fresh reduce
function of `IvyReduce` is `op (op a b) c` in every one of the arrival orders
(the lists that are permutations of `[a, b, c]`). -/
theorem reduce_order_independent {V : Type} (ivy : Ivy V) (op : V → V → V)
    (reduceCode opCode : String) (remote : Bool) (a b c : V)
    (hop : ivy.BinaryOps opCode = some op)
    (hassoc : ∀ x y z : V, op (op x y) z = op x (op y z))
    (hcomm : ∀ x y : V, op x y = op y x) :
    ∀ l : List V, l.Perm [a, b, c] →
      finalAccumulator ivy (IvyReduce reduceCode opCode remote) (l.map MapResult.value) =
        Except.ok (some (op (op a b) c)) := by
  intro l hl
  rw [finalAccumulator_values ivy op (IvyReduce reduceCode opCode remote) l hop]
  rw [List.Perm.foldl_eq' hl
    (fun x _ y _ z => accumulate_comm op hassoc hcomm z x y)]
  rfl

/-- C18: a map result that is neither a dataframe nor an ivy value makes
the reduce function of `IvyReduce` return an error value and leaves the closure
state, the accumulator with it, unchanged; the results fed afterwards are
combined as if that result had not been there. -/
theorem reduceFn_unexpected_type {V P : Type} (ivy : Ivy V) (r : Reducer V) (prev : P)
    (t : String) (xs ys : List (MapResult V)) :
    (∃ msg : String,
      r.reduceFn ivy prev (MapResult.other t) = Except.ok (r, Returned.error msg)) ∧
    finalAccumulator ivy r (xs ++ MapResult.other t :: ys) =
      finalAccumulator ivy r (xs ++ ys) := by
  refine ⟨reduceFn_other ivy r prev t, ?_⟩
  unfold finalAccumulator
  rw [feed_append, feed_append]
  cases hx : feed ivy r none xs with
  | error e => rfl
  | ok x1 =>
    obtain ⟨r1, p1⟩ := x1
    simp only
    rw [feed_cons]
    obtain ⟨msg, hmsg⟩ := reduceFn_other ivy r1 p1 t
    rw [hmsg]
    simp only
    have h := feed_state_indep ivy ys r1 (Returned.error msg : Returned (Option String)).held p1
    cases h1 : feed ivy r1 (Returned.error msg : Returned (Option String)).held ys with
    | error e =>
      cases h2 : feed ivy r1 p1 ys with
      | error e2 =>
        rw [h1, h2] at h
        simp only [Except.map] at h
        rw [Except.error.injEq] at h
        rw [h]
      | ok x2 =>
        rw [h1, h2] at h
        cases h
    | ok x3 =>
      cases h2 : feed ivy r1 p1 ys with
      | error e2 =>
        rw [h1, h2] at h
        cases h
      | ok x2 =>
        rw [h1, h2] at h
        simp only [Except.map] at h
        rw [Except.ok.injEq] at h
        obtain ⟨r3, q3⟩ := x3
        obtain ⟨r2, q2⟩ := x2
        simp only at h
        simp only [h]

/-- C19: on a remote request the finalize function of `IvyReduce` starts
no run of the reduce program; its result is what `ToArrowColumn` makes of the
accumulator, handed as the one column to `NewDataFrameFromColumns` (the error of
the conversion if it fails, a nil pointer dereference if it yields no column),
the same for any two reduce programs; for the sample interpreter the
accumulator `[1, 2]` comes back as the one-column dataframe holding `[1, 2]`.
On the initiating node the reduce program is run once, with the accumulator
bound to `_`. -/
theorem tablerFn_remote_forwards {V : Type} (ivy : Ivy V) (reduceCode other opCode : String)
    (acc : Option V) :
    ((Reducer.mk reduceCode opCode true acc).tablerFn ivy).runs = [] ∧
    ((Reducer.mk reduceCode opCode true acc).tablerFn ivy).result =
      (match ivy.ToArrowColumn acc with
       | Except.ok (some col) => ivy.NewDataFrameFromColumns [col]
       | Except.ok none => Except.error nilPanic
       | Except.error e => Except.error e) ∧
    (Reducer.mk reduceCode opCode true acc).tablerFn ivy =
      (Reducer.mk other opCode true acc).tablerFn ivy ∧
    ((Reducer.mk reduceCode opCode true (some [1, 2])).tablerFn vectorIvy).result =
      Except.ok [{ field := { Name := "_", Typ := DataType.int64 },
                   chunks := [{ elem := DataType.int64, data := [1, 2] }] }] ∧
    ((Reducer.mk reduceCode opCode false acc).tablerFn ivy).runs = [(acc, reduceCode)] := by
  refine ⟨rfl, ?_, rfl, rfl, ?_⟩
  · show oneColumnFrame ivy acc = _
    unfold oneColumnFrame
    cases ivy.ToArrowColumn acc with
    | error e => rfl
    | ok c => cases c <;> rfl
  unfold Reducer.tablerFn
  simp only [Bool.false_eq_true, if_false]
  cases runIvyString ivy acc reduceCode with
  | error e => rfl
  | ok ran =>
    simp only
    cases ran.err with
    | some e => rfl
    | none =>
      simp only
      by_cases hok : ran.ok = true
      · rw [if_pos hok]
        cases ran.underscore <;> rfl
      · rw [if_neg hok]

/-- C20 (the code at the failing input): with nothing stored in the
accumulator, the finalize function of `IvyReduce` on a remote request makes no
check: it returns what the column conversion and the dataframe constructor make
of the nil accumulator, a nil pointer dereference for an interpreter that
converts nil to no column; the explicit error "ivy reduction no result " is
returned on the initiating node only, after the reduce program ran and left `_`
nil. -/
theorem tablerFn_remote_nil_accumulator :
    (∀ (V : Type) (ivy : Ivy V) (reduceCode opCode : String),
      (IvyReduce reduceCode opCode true).tablerFn ivy =
        { runs := [], result := oneColumnFrame ivy none }) ∧
    ((IvyReduce "_" "," true).tablerFn vectorIvy).result = Except.error nilPanic ∧
    ((IvyReduce "_" "," false).tablerFn vectorIvy).result =
      Except.error (Fault.error "ivy reduction no result ") := by
  refine ⟨fun _ _ _ _ => rfl, by decide, by decide⟩

/-! ## The filtered resolver -/

/-- Storing a position in a slot of the index. -/
theorem IndexResolver.Set_ok (ir : IndexResolver) (i c o : Nat) (hi : i < ir.index.length) :
    ir.Set i c o = Except.ok { ir with index := ir.index.set i (c, o) } := by
  unfold IndexResolver.Set
  rw [if_pos hi]

/-- The loop of `filterDataframe` from position `i` on, over an index that has
a slot for every remaining position: it returns, keeps the number of slots and
the slots outside the remaining positions, stores the base resolver's position
for an id below the row count and leaves the slot of any other id alone. -/
theorem filterLoop_spec (resolver : Resolver) :
    ∀ (rest : List Int) (i : Nat) (ir : IndexResolver),
      i + rest.length ≤ ir.index.length →
      (∀ id ∈ rest, id < resolver.NumRows → ∃ p, resolver.Resolve id = Except.ok p) →
      ∃ ir1 : IndexResolver, filterLoop resolver i rest ir = Except.ok ir1 ∧
        ir1.mask = ir.mask ∧
        ir1.index.length = ir.index.length ∧
        (∀ j : Nat, j < i → ir1.index[j]? = ir.index[j]?) ∧
        (∀ (k : Nat) (id : Int), rest[k]? = some id →
          (id < resolver.NumRows →
            ∃ p, resolver.Resolve id = Except.ok p ∧ ir1.index[i + k]? = some p) ∧
          (resolver.NumRows ≤ id → ir1.index[i + k]? = ir.index[i + k]?)) := by
  intro rest
  induction rest with
  | nil =>
    intro i ir _ _
    refine ⟨ir, rfl, rfl, rfl, fun _ _ => rfl, ?_⟩
    intro k id hk
    simp at hk
  | cons id0 rest ih =>
    intro i ir hlen hres
    have hlen1 : i + 1 + rest.length ≤ ir.index.length := by
      simp only [List.length_cons] at hlen
      omega
    have hres1 : ∀ id ∈ rest, id < resolver.NumRows → ∃ p, resolver.Resolve id = Except.ok p :=
      fun id hid => hres id (List.mem_cons_of_mem _ hid)
    by_cases hge : id0 ≥ resolver.NumRows
    · obtain ⟨ir1, hrun, hmask, hl, hlow, hslots⟩ := ih (i + 1) ir hlen1 hres1
      refine ⟨ir1, ?_, hmask, hl, fun j hj => hlow j (by omega), ?_⟩
      · rw [filterLoop, if_pos hge]
        exact hrun
      · intro k id hk
        cases k with
        | zero =>
          simp only [List.getElem?_cons_zero, Option.some.injEq] at hk
          subst hk
          refine ⟨fun hlt => absurd hge (by omega), fun _ => ?_⟩
          exact hlow i (by omega)
        | succ k =>
          simp only [List.getElem?_cons_succ] at hk
          have h := hslots k id hk
          have he : i + (k + 1) = i + 1 + k := by omega
          rw [he]
          exact h
    · have hlt : id0 < resolver.NumRows := by omega
      obtain ⟨p, hp⟩ := hres id0 (List.mem_cons_self _ _) hlt
      have hi : i < ir.index.length := by
        simp only [List.length_cons] at hlen
        omega
      have hlen2 : i + 1 + rest.length ≤
          ({ ir with index := ir.index.set i (p.1, p.2) } : IndexResolver).index.length := by
        simp only [List.length_set]
        exact hlen1
      obtain ⟨ir1, hrun, hmask, hl, hlow, hslots⟩ :=
        ih (i + 1) { ir with index := ir.index.set i (p.1, p.2) } hlen2 hres1
      simp only [List.length_set] at hl
      refine ⟨ir1, ?_, hmask, hl, ?_, ?_⟩
      · rw [filterLoop, if_neg hge, hp]
        simp only
        rw [IndexResolver.Set_ok ir i p.1 p.2 hi]
        exact hrun
      · intro j hj
        rw [hlow j (by omega)]
        simp only
        rw [List.getElem?_set_ne (by omega)]
      · intro k id hk
        cases k with
        | zero =>
          simp only [List.getElem?_cons_zero, Option.some.injEq] at hk
          subst hk
          refine ⟨fun _ => ⟨p, hp, ?_⟩, fun hle => absurd hle (by omega)⟩
          rw [Nat.add_zero, hlow i (by omega)]
          simp only
          rw [List.getElem?_set_self hi]
        | succ k =>
          simp only [List.getElem?_cons_succ] at hk
          have h := hslots k id hk
          have he : i + (k + 1) = i + 1 + k := by omega
          rw [he]
          refine ⟨h.1, fun hle => ?_⟩
          rw [h.2 hle]
          simp only
          rw [List.getElem?_set_ne (by omega)]

/-- A chunk resolver resolves every non-negative row id below its row count. -/
theorem ChunkResolver.resolves (r : ChunkResolver) (id : Int) (h0 : 0 ≤ id)
    (hlt : id < r.toResolver.NumRows) : ∃ p, r.toResolver.Resolve id = Except.ok p := by
  have hlt1 : id.toNat < r.lens.sum := by
    simp only [ChunkResolver.toResolver, ChunkResolver.NumRows] at hlt
    omega
  obtain ⟨p, hp⟩ := resolveFrom_exists r.lens 0 id.toNat hlt1
  refine ⟨p, ?_⟩
  simp only [ChunkResolver.toResolver, ChunkResolver.Resolve]
  rw [if_neg (by omega), hp]

/-- Over a base resolver with at least one row that resolves the filter ids
below its row count, `filterDataframe` returns no error and an index with one
slot per position of the filter; the slot of an id below the row count holds
the (chunk, offset) of the base resolver for it, and the slot of an id at or
beyond the row count is never set: it holds the zero `NewIndexResolver` made it
with, which reads as chunk 0, offset 0. -/
theorem filterDataframe_slots (ShardWidth : Nat) (resolver : Resolver) (filter : List Int)
    (hrows : 1 ≤ resolver.NumRows)
    (hres : ∀ id ∈ filter, id < resolver.NumRows → ∃ p, resolver.Resolve id = Except.ok p) :
    ∃ ir : IndexResolver, filterDataframe ShardWidth resolver filter = Except.ok ir ∧
      ir.index.length = filter.length ∧
      ir.NumRows = (filter.length : Nat) ∧
      ∀ (k : Nat) (id : Int), filter[k]? = some id →
        (id < resolver.NumRows →
          ∃ p, resolver.Resolve id = Except.ok p ∧ ir.index[k]? = some p) ∧
        (resolver.NumRows ≤ id → ir.index[k]? = some (0, 0)) := by
  have hne : ¬ resolver.NumRows = 0 := by omega
  have hlen : 0 + filter.length ≤
      (NewIndexResolver filter.length ((ShardWidth - 1) % 2 ^ 32)).index.length := by
    simp only [NewIndexResolver, List.length_replicate]
    omega
  obtain ⟨ir, hrun, _, hl, _, hslots⟩ :=
    filterLoop_spec resolver filter 0 (NewIndexResolver filter.length ((ShardWidth - 1) % 2 ^ 32))
      hlen hres
  simp only [NewIndexResolver, List.length_replicate] at hl
  refine ⟨ir, ?_, hl, ?_, ?_⟩
  · unfold filterDataframe
    rw [if_neg hne]
    exact hrun
  · unfold IndexResolver.NumRows
    rw [hl]
  · intro k id hk
    have h := hslots k id hk
    rw [Nat.zero_add] at h
    refine ⟨h.1, fun hle => ?_⟩
    rw [h.2 hle]
    have hk1 : k < filter.length := by
      rcases Nat.lt_or_ge k filter.length with hlt | hge
      · exact hlt
      · rw [List.getElem?_eq_none hge] at hk
        cases hk
    simp only [NewIndexResolver]
    rw [List.getElem?_replicate, if_pos hk1]

/-- C12 (the code at the failing input): over the two rows of the sample
column the filter `[5]` has no id below the row count, yet `filterDataframe`
returns no error and a resolver of one row, not of none: the slot of the
skipped id is never set and reads as chunk 0, offset 0, the position the base
resolver gives for row id 0, so `executeApplyShard` hands the evaluator a
resolver whose one row is row 0 of the table.  With the filter `[1, 5, 0]` the
resolver has three rows, the skipped one again reading as row 0. -/
theorem filterDataframe_skipped_id_reads_row_zero :
    sampleResolver.NumRows = 2 ∧
    ([5].filter (fun id => decide (id < sampleResolver.NumRows))).length = 0 ∧
    filterDataframe 1048576 sampleResolver [5] =
      Except.ok { index := [(0, 0)], mask := 1048575 } ∧
    (IndexResolver.mk [(0, 0)] 1048575).NumRows = 1 ∧
    (IndexResolver.mk [(0, 0)] 1048575).Resolve 0 = Except.ok (0, 0) ∧
    sampleResolver.Resolve 0 = Except.ok (0, 0) ∧
    filterDataframe 1048576 sampleResolver [1, 5, 0] =
      Except.ok { index := [(1, 0), (0, 0), (0, 0)], mask := 1048575 } ∧
    (executeApplyShard vectorIvy 1048576 sampleDisk
      { emptyFilterCall with bitmap := Except.ok { columns := [5] } }).evaluations =
      [("_", AnyResolver.index { index := [(0, 0)], mask := 1048575 })] := by
  decide

/-! ## executeApplyShard -/

/-- C13: for an Apply call that carries its program and one filter child
whose bitmap has no set bit on the shard (it lists no shard column ids),
`executeApplyShard` returns the empty vector `value.NewVector([]value.Value{})`
with a nil error and invokes the evaluator not once; in the vector model that
value adds no cell to an accumulator. -/
theorem executeApplyShard_empty_filter {V : Type} (ivy : Ivy V) (ShardWidth : Nat) (d : Disk)
    (c : ApplyCall) (ivyProgram : String) (row : Row)
    (hivy : c.ivyArg = (ivyProgram, true, none)) (hchild : c.children = 1)
    (hrow : c.bitmap = Except.ok row)
    (hempty : row.Any = false ∨ ShardColumns (some row) = []) :
    executeApplyShard ivy ShardWidth d c =
      { evaluations := [], result := Except.ok (some (ivy.NewVector [])) } ∧
    ∀ a : List Int, catenate a (vectorIvy.NewVector []) = a ∧
      catenate (vectorIvy.NewVector []) a = a := by
  have hany : row.Any = false := by
    rcases hempty with h | h
    · exact h
    · simp only [ShardColumns] at h
      simp only [Row.Any, h, List.isEmpty_nil, Bool.not_true]
  refine ⟨?_, fun a => ⟨?_, ?_⟩⟩
  · unfold executeApplyShard
    simp only [hivy, Option.isSome_none, Bool.not_true, Bool.or_self, Bool.false_eq_true,
      if_false, hchild, if_true, hrow, hany, Bool.not_false]
  · simp only [catenate, vectorIvy, List.flatten_nil, List.append_nil]
  · simp only [catenate, vectorIvy, List.flatten_nil, List.nil_append]

/-- C14: for a shard of an existing index whose file
`<shardBase>.parquet` does not exist, `executeApplyShard` on a call that
carries its program and whose filter, if it has one, was computed, returns the
empty vector with a nil error and invokes the evaluator not once, and
`NewShardFile` returns a ShardFile with no table, no schema and the destination
set, with a nil error. -/
theorem missing_shard_file_reads_empty {V : Type} (ivy : Ivy V) (ShardWidth : Nat) (d : Disk)
    (c : ApplyCall) (ivyProgram fname : String)
    (hivy : c.ivyArg = (ivyProgram, true, none))
    (hfilter : c.children ≠ 1 ∨ ∃ row, c.bitmap = Except.ok row)
    (hpath : c.dataframePath = some fname)
    (hfile : d.files (fname ++ ".parquet") = none) :
    executeApplyShard ivy ShardWidth d c =
      { evaluations := [], result := Except.ok (some (ivy.NewVector [])) } ∧
    NewShardFile d fname =
      Except.ok { table := none, schema := none, beforeRows := 0, added := 0, columns := [],
                  dest := fname } := by
  have hread : ∀ filter : Option Row, readShard ivy ShardWidth d c ivyProgram filter =
      { evaluations := [], result := Except.ok (some (ivy.NewVector [])) } := by
    intro filter
    unfold readShard
    rw [hpath]
    simp only
    rw [hfile]
  refine ⟨?_, ?_⟩
  · unfold executeApplyShard
    simp only [hivy, Option.isSome_none, Bool.not_true, Bool.or_self, Bool.false_eq_true,
      if_false]
    by_cases hchild : c.children = 1
    · rw [if_pos hchild]
      rcases hfilter with h | ⟨row, hrow⟩
      · exact absurd hchild h
      · rw [hrow]
        simp only
        by_cases hany : (!row.Any) = true
        · rw [if_pos hany]
        · rw [if_neg hany]
          exact hread (some row)
    · rw [if_neg hchild]
      exact hread none
  · unfold NewShardFile
    rw [hfile]

/-! ## The combine operation of executeApply -/

/-- The accumulator of vector results combined by catenation, from a stored
vector on. -/
theorem foldl_catenate (rest : List (List Int)) :
    ∀ x : List Int, rest.foldl catenate x = x ++ rest.flatten := by
  induction rest with
  | nil => intro x; simp
  | cons y ys ih =>
    intro x
    rw [List.foldl_cons, ih, List.flatten_cons]
    simp only [catenate, List.append_assoc]

/-- C17 (at an explicit input): catenation is not commutative, and the
reduction `executeApply` sets up leaves `[1, 2]` when the results `[1]` and
`[2]` arrive in this order and `[2, 1]` when they arrive in the other. -/
theorem catenate_order_dependent :
    catenate [1] [2] ≠ catenate [2] [1] ∧
    finalAccumulator vectorIvy (applyReducer "" false false)
      [MapResult.value [1], MapResult.value [2]] = Except.ok (some [1, 2]) ∧
    finalAccumulator vectorIvy (applyReducer "" false false)
      [MapResult.value [2], MapResult.value [1]] = Except.ok (some [2, 1]) := by
  decide

/-- C17 (amended): `executeApply` always sets the reduction up with the
operation code `,`; catenation is associative; the accumulator of an Apply
query is the catenation of the shards' results in arrival order, so the
accumulators of two arrival orders hold the same cells, in a possibly different
order. -/
theorem apply_reduction_catenates (ivy : Ivy (List Int)) (ivyReduce : String) (ok remote : Bool)
    (hcat : ivy.BinaryOps "," = some catenate) :
    (applyReducer ivyReduce ok remote : Reducer (List Int)).opCode = "," ∧
    (∀ x y z : List Int, catenate (catenate x y) z = catenate x (catenate y z)) ∧
    (∀ l : List (List Int),
      finalAccumulator ivy (applyReducer ivyReduce ok remote) (l.map MapResult.value) =
        Except.ok (if l = [] then none else some l.flatten)) ∧
    (∀ l1 l2 : List (List Int), l1.Perm l2 →
      ∃ a1 a2 : Option (List Int),
        finalAccumulator ivy (applyReducer ivyReduce ok remote) (l1.map MapResult.value) =
          Except.ok a1 ∧
        finalAccumulator ivy (applyReducer ivyReduce ok remote) (l2.map MapResult.value) =
          Except.ok a2 ∧
        (a1.getD []).Perm (a2.getD [])) := by
  have hcode : (applyReducer ivyReduce ok remote : Reducer (List Int)).opCode = "," := by
    unfold applyReducer
    cases ok <;> rfl
  have hacc : (applyReducer ivyReduce ok remote : Reducer (List Int)).accumulator = none := by
    unfold applyReducer
    cases ok <;> rfl
  have hop : ivy.BinaryOps (applyReducer ivyReduce ok remote : Reducer (List Int)).opCode =
      some catenate := by
    rw [hcode]
    exact hcat
  have hfinal : ∀ l : List (List Int),
      finalAccumulator ivy (applyReducer ivyReduce ok remote) (l.map MapResult.value) =
        Except.ok (if l = [] then none else some l.flatten) := by
    intro l
    rw [finalAccumulator_values ivy catenate _ l hop, hacc]
    cases l with
    | nil => rfl
    | cons x rest =>
      rw [List.foldl_cons]
      simp only [accumulate]
      rw [foldl_accumulate_some, foldl_catenate]
      simp
  refine ⟨hcode, ?_, hfinal, ?_⟩
  · intro x y z
    simp only [catenate, List.append_assoc]
  · intro l1 l2 hperm
    refine ⟨_, _, hfinal l1, hfinal l2, ?_⟩
    by_cases h1 : l1 = []
    · have h2 : l2 = [] := by
        subst h1
        exact hperm.symm.eq_nil
      subst h1
      subst h2
      simp
    · have h2 : ¬ l2 = [] := by
        intro h
        subst h
        exact h1 hperm.eq_nil
      rw [if_neg h1, if_neg h2]
      simp only [Option.getD_some]
      exact hperm.flatten

/-! ### The claims of the reduction at the sample data -/

theorem reduceFn_accumulates_witness :
    scalarIvy.BinaryOps (IvyReduce "_" "+" false : Reducer Int).opCode =
      some (fun a x => a + x) ∧
    finalAccumulator scalarIvy (IvyReduce "_" "+" false)
      [MapResult.value 5, MapResult.nil, MapResult.dataframe [cellsColumn [3, 4]],
        MapResult.other "string", MapResult.value 7] = Except.ok (some 19) :=
  ⟨rfl, (@reduceFn_accumulates Int Unit scalarIvy (fun a x => a + x) (IvyReduce "_" "+" false)
    rfl).2.2.2.2.2 "_" false
      [MapResult.value 5, MapResult.nil, MapResult.dataframe [cellsColumn [3, 4]],
        MapResult.other "string", MapResult.value 7]
      (by
        intro df h hnil
        subst hnil
        simp at h)⟩

theorem reduce_order_independent_witness :
    scalarIvy.BinaryOps "+" = some (fun a x => a + x) ∧
    finalAccumulator scalarIvy (IvyReduce "_" "+" false)
      ([5, 7, 3].map MapResult.value) = Except.ok (some 15) ∧
    finalAccumulator scalarIvy (IvyReduce "_" "+" false)
      ([5, 3, 7].map MapResult.value) = Except.ok (some 15) ∧
    finalAccumulator scalarIvy (IvyReduce "_" "+" false)
      ([7, 5, 3].map MapResult.value) = Except.ok (some 15) ∧
    finalAccumulator scalarIvy (IvyReduce "_" "+" false)
      ([7, 3, 5].map MapResult.value) = Except.ok (some 15) ∧
    finalAccumulator scalarIvy (IvyReduce "_" "+" false)
      ([3, 5, 7].map MapResult.value) = Except.ok (some 15) ∧
    finalAccumulator scalarIvy (IvyReduce "_" "+" false)
      ([3, 7, 5].map MapResult.value) = Except.ok (some 15) :=
  ⟨rfl,
    reduce_order_independent scalarIvy (fun a x => a + x) "_" "+" false 5 7 3 rfl
      (fun x y z => Int.add_assoc x y z) (fun x y => Int.add_comm x y) [5, 7, 3] (by decide),
    reduce_order_independent scalarIvy (fun a x => a + x) "_" "+" false 5 7 3 rfl
      (fun x y z => Int.add_assoc x y z) (fun x y => Int.add_comm x y) [5, 3, 7] (by decide),
    reduce_order_independent scalarIvy (fun a x => a + x) "_" "+" false 5 7 3 rfl
      (fun x y z => Int.add_assoc x y z) (fun x y => Int.add_comm x y) [7, 5, 3] (by decide),
    reduce_order_independent scalarIvy (fun a x => a + x) "_" "+" false 5 7 3 rfl
      (fun x y z => Int.add_assoc x y z) (fun x y => Int.add_comm x y) [7, 3, 5] (by decide),
    reduce_order_independent scalarIvy (fun a x => a + x) "_" "+" false 5 7 3 rfl
      (fun x y z => Int.add_assoc x y z) (fun x y => Int.add_comm x y) [3, 5, 7] (by decide),
    reduce_order_independent scalarIvy (fun a x => a + x) "_" "+" false 5 7 3 rfl
      (fun x y z => Int.add_assoc x y z) (fun x y => Int.add_comm x y) [3, 7, 5] (by decide)⟩

theorem filterDataframe_slots_witness :
    1 ≤ sampleResolver.NumRows ∧
    ∃ ir : IndexResolver, filterDataframe 1048576 sampleResolver [1, 5, 0] = Except.ok ir ∧
      ir.index.length = [1, 5, 0].length ∧
      ir.NumRows = ([1, 5, 0].length : Nat) ∧
      ∀ (k : Nat) (id : Int), [1, 5, 0][k]? = some id →
        (id < sampleResolver.NumRows →
          ∃ p, sampleResolver.Resolve id = Except.ok p ∧ ir.index[k]? = some p) ∧
        (sampleResolver.NumRows ≤ id → ir.index[k]? = some (0, 0)) :=
  ⟨by decide,
    filterDataframe_slots 1048576 sampleResolver [1, 5, 0] (by decide)
      (by
        intro id hid hlt
        simp only [List.mem_cons, List.mem_singleton, List.mem_nil_iff, or_false] at hid
        rcases hid with h | h | h
        · subst h
          exact ⟨(1, 0), by decide⟩
        · subst h
          exact absurd hlt (by decide)
        · subst h
          exact ⟨(0, 0), by decide⟩)⟩

theorem executeApplyShard_empty_filter_witness :
    emptyFilterCall.ivyArg = ("_", true, none) ∧
    emptyFilterCall.children = 1 ∧
    emptyFilterCall.bitmap = Except.ok { columns := [] } ∧
    (Row.mk []).Any = false ∧
    executeApplyShard vectorIvy 1048576 sampleDisk emptyFilterCall =
      { evaluations := [], result := Except.ok (some (vectorIvy.NewVector [])) } :=
  ⟨rfl, rfl, rfl, rfl,
    (executeApplyShard_empty_filter vectorIvy 1048576 sampleDisk emptyFilterCall "_"
      { columns := [] } rfl rfl rfl (Or.inl rfl)).1⟩

theorem missing_shard_file_reads_empty_witness :
    unfilteredCall.ivyArg = ("_", true, none) ∧
    unfilteredCall.children ≠ 1 ∧
    unfilteredCall.dataframePath = some "shard" ∧
    emptyDisk.files ("shard" ++ ".parquet") = none ∧
    executeApplyShard vectorIvy 1048576 emptyDisk unfilteredCall =
      { evaluations := [], result := Except.ok (some (vectorIvy.NewVector [])) } ∧
    NewShardFile emptyDisk "shard" =
      Except.ok { table := none, schema := none, beforeRows := 0, added := 0, columns := [],
                  dest := "shard" } :=
  ⟨rfl, by decide, rfl, rfl,
    missing_shard_file_reads_empty vectorIvy 1048576 emptyDisk unfilteredCall "_" "shard" rfl
      (Or.inl (by decide)) rfl rfl⟩

theorem apply_reduction_catenates_witness :
    vectorIvy.BinaryOps "," = some catenate ∧
    finalAccumulator vectorIvy (applyReducer "" false false)
      ([[1, 2], [], [3]].map MapResult.value) = Except.ok (some [1, 2, 3]) :=
  ⟨rfl,
    (apply_reduction_catenates vectorIvy "" false false rfl).2.2.1 [[1, 2], [], [3]]⟩


/-! ## Row ids the merge is not specified for -/

/-- A changeset whose first row id is at or beyond the row count of the table
and whose last row id is below it: the update pass stops at once, no row is
added, and `process` returns with nothing written. -/
theorem process_skips_all (sf : ShardFile) (cs : ChangesetRequest) (t : Table) (first : Int)
    (rest : List Int) (ht : sf.table = some t) (hcols : t.cols ≠ []) (hadded : sf.added = 0)
    (hids : cs.ShardIds = first :: rest) (hfirst : t.NumRows ≤ first)
    (hlast : cs.maxId < t.NumRows) :
    sf.process cs = Except.ok { sf with beforeRows := t.NumRows } := by
  have hsf : ({ sf with table := some t } : ShardFile) = sf := by
    cases sf
    simp_all
  obtain ⟨c0, crest, hc⟩ := List.exists_cons_of_ne_nil hcols
  have hcol : t.Column 0 = Except.ok c0 := by
    unfold Table.Column
    rw [hc, List.getElem?_cons_zero]
  have hupd : updateExisting sf cs = Except.ok (0, sf) := by
    unfold updateExisting
    rw [ht]
    simp only
    rw [hcol]
    simp only
    rw [hids, updatePass, if_pos hfirst]
    simp only
    rw [hsf]
  have hne : cs.ShardIds ≠ [] := by
    rw [hids]
    simp
  unfold ShardFile.process
  rw [hupd]
  simp only
  rw [sliceGet_last cs hne]
  simp only
  have hb : sf.buildAppenders cs.maxId = Except.ok { sf with beforeRows := t.NumRows } := by
    unfold ShardFile.buildAppenders
    simp only [ht]
    rw [if_pos hlast]
  rw [hb]
  simp only
  rw [if_neg (by rw [hadded]; decide)]

/-- C23: `process` does not check that the row ids are sorted.  Whenever the
first row id of a changeset is at or beyond the row count of the table and the
last one is below it, `process` returns no error and has written nothing.  On
the two committed rows `[10, 20]` the changeset with ids `[3, 1]` passes
`EnsureSchema`, `process` returns, no row was added and the table still holds
`[10, 20]` (row 1 was not updated with its value 88, row 3 was not appended with
its value 77), and the record `Save` assembles is the old table. -/
theorem process_accepts_unsorted_ids :
    (∀ (sf : ShardFile) (cs : ChangesetRequest) (t : Table) (first : Int) (rest : List Int),
      sf.table = some t → t.cols ≠ [] → sf.added = 0 → cs.ShardIds = first :: rest →
      t.NumRows ≤ first → cs.maxId < t.NumRows →
      sf.process cs = Except.ok { sf with beforeRows := t.NumRows }) ∧
    ¬ unsortedChangeset.ShardIds.Pairwise (fun a b => a ≤ b) ∧
    sampleShardFile.committedRows = 2 ∧
    (sampleShardFile.EnsureSchema unsortedChangeset).2 = none ∧
    (sampleShardFile.EnsureSchema unsortedChangeset).1.process unsortedChangeset =
      Except.ok { table := some sampleTable, schema := some sampleTable.Schema, beforeRows := 2,
                  added := 0, columns := [nilValue], dest := "shard" } ∧
    ((sampleShardFile.EnsureSchema unsortedChangeset).1.process unsortedChangeset).bind
      ShardFile.assemble =
      Except.ok { schema := [{ Name := "a", Typ := DataType.int64 }],
                  parts := [{ elem := DataType.int64, data := [10, 20] }],
                  rows := 2 } := by
  refine ⟨fun sf cs t first rest ht hcols hadded hids hfirst hlast =>
    process_skips_all sf cs t first rest ht hcols hadded hids hfirst hlast, ?_⟩
  decide

/-- The split point is the length of the list when every row id is below `n`. -/
theorem splitPoint_all_lt (n : Int) (ids : List Int) (h : ∀ r ∈ ids, r < n) :
    splitPoint n ids = ids.length := by
  induction ids with
  | nil => rfl
  | cons r rest ih =>
    rw [splitPoint_cons_lt n r rest (h r (List.mem_cons_self _ _)),
      ih (fun x hx => h x (List.mem_cons_of_mem _ hx)), List.length_cons]

/-- An entry before the split point has a row id below `n`. -/
theorem lt_of_lt_splitPoint (n : Int) (ids : List Int) (j : Nat) (r : Int)
    (hj : j < splitPoint n ids) (hr : ids[j]? = some r) : r < n := by
  apply mem_take_splitPoint n ids r
  rw [List.mem_iff_getElem?]
  refine ⟨j, ?_⟩
  rw [List.getElem?_take_of_lt hj]
  exact hr

/-- In a sorted list an entry from the split point on has a row id at or
beyond `n`. -/
theorem le_of_splitPoint_le (n : Int) (ids : List Int) (j : Nat) (r : Int)
    (hs : ids.Pairwise (fun a b => a ≤ b)) (hj : splitPoint n ids ≤ j)
    (hr : ids[j]? = some r) : n ≤ r := by
  apply mem_drop_splitPoint n ids hs r
  rw [List.mem_iff_getElem?]
  refine ⟨j - splitPoint n ids, ?_⟩
  rw [List.getElem?_drop]
  have he : splitPoint n ids + (j - splitPoint n ids) = j := by omega
  rw [he]
  exact hr

/-- The update pass of `process` over an existing table: it returns, and the
offset it leaves is the split point, capped at the last position. -/
theorem updateExisting_offset {sf : ShardFile} {cs : ChangesetRequest} {fields : List Field}
    {lens : List Nat} (h : Ready sf cs fields lens) (t : Table) (ht : sf.table = some t) :
    ∃ off su, updateExisting sf cs = Except.ok (off, su) ∧
      off = min (splitPoint t.NumRows cs.ShardIds) (cs.ShardIds.length - 1) := by
  obtain ⟨htOK, c0, hc0, hlens0⟩ := h.tab t ht
  obtain ⟨off, t1, hpass, _, hoff, _, _⟩ :=
    updatePass_ok fields lens cs h.bufs cs.ShardIds 0 0 t (by simp) h.nonneg htOK
  have hres : NewChunkResolver c0 = { lens := lens } := by
    simp only [NewChunkResolver]
    exact congrArg ChunkResolver.mk hlens0
  have hupd : updateExisting sf cs = Except.ok (off, { sf with table := some t1 }) := by
    simp only [updateExisting, ht, Table.Column, hc0, hres, h.schema, hpass]
  refine ⟨off, _, hupd, ?_⟩
  have hn : t.NumRows = (lens.sum : Int) := htOK.1
  rw [hoff h.ne, hn]
  simp only [Nat.zero_add]

/-- C24 (at an explicit input): on the two committed rows of the sample table
the changeset with ids `[0, 1]`, both below 2, leaves the update pass with
offset 1, and the entry at position 1 has the row id 1, which is below 2. -/
theorem updateExisting_offset_all_below :
    sampleShardFile.committedRows = 2 ∧
    inPlaceChangeset.ShardIds.Pairwise (fun a b => a ≤ b) ∧
    (updateExisting (sampleShardFile.EnsureSchema inPlaceChangeset).1 inPlaceChangeset).map
      Prod.fst = Except.ok 1 ∧
    inPlaceChangeset.ShardIds[1]? = some 1 := by
  decide

/-- C24 (amended): for a ShardFile as `NewShardFile` returns it, with an
existing well-formed table of `n` rows, that accepted a valid changeset (row
ids non-negative and non-decreasing), the update pass returns with an offset
such that every entry before it has a row id below `n`; when some row id is at
or beyond `n` the offset is the position of the first such id and every entry
from it onward has a row id at or beyond `n`; when all row ids are below `n` the
offset is the last position, whose row id is below `n`. -/
theorem updatePass_split_offset (d : Disk) (name : String) (sf0 sf : ShardFile)
    (cs : ChangesetRequest) (t : Table) (hnew : NewShardFile d name = Except.ok sf0)
    (hwf : sf0.WellFormed) (hens : sf0.EnsureSchema cs = (sf, none)) (hvalid : cs.Valid)
    (ht : sf.table = some t) :
    ∃ off su, updateExisting sf cs = Except.ok (off, su) ∧
      (∀ (j : Nat) (r : Int), j < off → cs.ShardIds[j]? = some r → r < t.NumRows) ∧
      ((∃ r ∈ cs.ShardIds, t.NumRows ≤ r) →
        off = splitPoint t.NumRows cs.ShardIds ∧
        (∃ r, cs.ShardIds[off]? = some r ∧ t.NumRows ≤ r) ∧
        ∀ (j : Nat) (r : Int), off ≤ j → cs.ShardIds[j]? = some r → t.NumRows ≤ r) ∧
      ((∀ r ∈ cs.ShardIds, r < t.NumRows) →
        off = cs.ShardIds.length - 1 ∧
        ∃ r, cs.ShardIds[off]? = some r ∧ r < t.NumRows) := by
  obtain ⟨lens, h⟩ := ready_of_EnsureSchema d name sf0 sf cs hnew hwf hens hvalid
  obtain ⟨off, su, hupd, hoff⟩ := updateExisting_offset h t ht
  have hcr : sf.committedRows = t.NumRows := by
    simp only [ShardFile.committedRows, ht]
  have hlen : 0 < cs.ShardIds.length := List.length_pos.mpr h.ne
  refine ⟨off, su, hupd, ?_, ?_, ?_⟩
  · intro j r hj hr
    exact lt_of_lt_splitPoint t.NumRows cs.ShardIds j r (by omega) hr
  · intro hex
    obtain ⟨r0, hr0, hge0⟩ := hex
    have hmax : t.NumRows ≤ cs.maxId := le_trans hge0 (le_maxId cs h.sorted r0 hr0)
    have hsp := splitPoint_lt_of_maxId cs t.NumRows h.ne hmax
    have hoff1 : off = splitPoint t.NumRows cs.ShardIds := by omega
    refine ⟨hoff1, ?_, ?_⟩
    · refine ⟨cs.ShardIds[splitPoint t.NumRows cs.ShardIds], ?_, ?_⟩
      · rw [hoff1]
        exact List.getElem?_eq_getElem hsp
      · exact le_of_splitPoint_le t.NumRows cs.ShardIds _ _ h.sorted (le_refl _)
          (List.getElem?_eq_getElem hsp)
    · intro j r hj hr
      exact le_of_splitPoint_le t.NumRows cs.ShardIds j r h.sorted (by omega) hr
  · intro hall
    have hsp := splitPoint_all_lt t.NumRows cs.ShardIds hall
    have hoff1 : off = cs.ShardIds.length - 1 := by omega
    refine ⟨hoff1, cs.ShardIds[cs.ShardIds.length - 1], ?_, ?_⟩
    · rw [hoff1]
      exact List.getElem?_eq_getElem (by omega)
    · exact hall _ (List.getElem_mem _)

/-- C26: for a changeset with no row id, `process` computes the maximum row id
by reading position `len - 1 = -1` of the empty list, an index fault: it fails
with the run-time panic "index out of range" for every ShardFile, and `Process`
fails with it before any file operation. -/
theorem process_empty_changeset (sf : ShardFile) (cs : ChangesetRequest) (d : Disk)
    (hempty : cs.ShardIds = []) :
    (cs.ShardIds.length : Int) - 1 = -1 ∧
    sliceGet cs.ShardIds ((cs.ShardIds.length : Int) - 1) = Except.error indexPanic ∧
    sf.process cs = Except.error indexPanic ∧
    sf.Process cs d = (d, Except.error indexPanic) := by
  have hproc : sf.process cs = Except.error indexPanic := by
    unfold ShardFile.process updateExisting
    rw [hempty]
    cases sf.table with
    | none => rfl
    | some t =>
      simp only [Table.Column]
      cases t.cols[0]? with
      | none => rfl
      | some column =>
        simp only [updatePass_nil_aux]
        rfl
  refine ⟨by rw [hempty]; rfl, by rw [hempty]; rfl, hproc, ?_⟩
  unfold ShardFile.Process
  rw [hproc]

/-! ## Which faults process can raise -/

theorem getN_of_error {α : Type} (xs : List α) (i : Nat) (e : Fault)
    (h : getN xs i = Except.error e) : e = indexPanic := by
  unfold getN at h
  cases hx : xs[i]? with
  | none => rw [hx] at h; cases h; rfl
  | some x => rw [hx] at h; cases h

theorem setN_of_error {α : Type} (xs : List α) (i : Nat) (v : α) (e : Fault)
    (h : setN xs i v = Except.error e) : e = indexPanic := by
  unfold setN at h
  by_cases hi : i < xs.length
  · rw [if_pos hi] at h; cases h
  · rw [if_neg hi] at h; cases h; rfl

theorem sliceGet_of_error {α : Type} (xs : List α) (i : Int) (e : Fault)
    (h : sliceGet xs i = Except.error e) : e = indexPanic := by
  unfold sliceGet at h
  by_cases hi : i < 0
  · rw [if_pos hi] at h; cases h; rfl
  · rw [if_neg hi] at h
    cases hx : xs[i.toNat]? with
    | none => rw [hx] at h; cases h; rfl
    | some x => rw [hx] at h; cases h

theorem sliceSet_of_error {α : Type} (xs : List α) (i : Int) (v : α) (e : Fault)
    (h : sliceSet xs i v = Except.error e) : e = indexPanic := by
  unfold sliceSet at h
  by_cases hi : i < 0
  · rw [if_pos hi] at h; cases h; rfl
  · rw [if_neg hi] at h
    by_cases hl : i.toNat < xs.length
    · rw [if_pos hl] at h; cases h
    · rw [if_neg hl] at h; cases h; rfl

theorem writeChunk_of_error (ty : DataType) (t : Table) (cs : ChangesetRequest) (c : Column)
    (chunk l i col : Nat) (e : Fault)
    (h : writeChunk ty t cs c chunk l i col = Except.error e) : e.Runtime := by
  unfold writeChunk at h
  cases harr : getN c.chunks chunk with
  | error e1 =>
    rw [harr] at h
    cases h
    exact Or.inl (getN_of_error _ _ _ harr)
  | ok arr =>
    rw [harr] at h
    simp only [bind, Except.bind] at h
    by_cases he : arr.elem ≠ ty
    · rw [if_pos he] at h; cases h; exact Or.inr (Or.inl rfl)
    · rw [if_neg he] at h
      cases hsrc : getN cs.Columns col with
      | error e1 =>
        rw [hsrc] at h
        cases h
        exact Or.inl (getN_of_error _ _ _ hsrc)
      | ok src =>
        rw [hsrc] at h
        simp only at h
        by_cases hse : src.elem ≠ ty
        · rw [if_pos hse] at h; cases h; exact Or.inr (Or.inl rfl)
        · rw [if_neg hse] at h
          cases hx : getN src.data i with
          | error e1 =>
            rw [hx] at h
            cases h
            exact Or.inl (getN_of_error _ _ _ hx)
          | ok x =>
            rw [hx] at h
            simp only at h
            cases hd : setN arr.data l x with
            | error e1 =>
              rw [hd] at h
              cases h
              exact Or.inl (setN_of_error _ _ _ _ hd)
            | ok data =>
              rw [hd] at h
              cases h

theorem updateCell_of_error (cs : ChangesetRequest) (chunk l i col : Nat) (t : Table)
    (e : Fault) (hsup : t.Supported) (h : updateCell cs chunk l i col t = Except.error e) :
    e.Runtime := by
  unfold updateCell at h
  cases hc : t.Column col with
  | error e1 =>
    rw [hc] at h
    cases h
    unfold Table.Column at hc
    cases hx : t.cols[col]? with
    | none => rw [hx] at hc; cases hc; exact Or.inl rfl
    | some y => rw [hx] at hc; cases hc
  | ok c =>
    rw [hc] at h
    simp only [bind, Except.bind] at h
    have hmem : c ∈ t.cols := by
      unfold Table.Column at hc
      cases hx : t.cols[col]? with
      | none => rw [hx] at hc; cases hc
      | some y =>
        rw [hx] at hc
        cases hc
        exact List.mem_iff_getElem?.mpr ⟨col, hx⟩
    cases hty : c.DataType with
    | int64 =>
      rw [hty] at h
      exact writeChunk_of_error _ _ _ _ _ _ _ _ _ h
    | float64 =>
      rw [hty] at h
      exact writeChunk_of_error _ _ _ _ _ _ _ _ _ h
    | other name =>
      rcases hsup c hmem with h1 | h1
      · rw [Column.DataType, h1] at hty; cases hty
      · rw [Column.DataType, h1] at hty; cases hty

theorem updateCell_supported (cs : ChangesetRequest) (chunk l i col : Nat) (t t1 : Table)
    (hsup : t.Supported) (h : updateCell cs chunk l i col t = Except.ok t1) : t1.Supported := by
  obtain ⟨c, arr, data, hc, _, _, ht1⟩ := updateCell_of_ok cs chunk l i col t t1 h
  rw [ht1]
  intro c1 hc1
  simp only at hc1
  rcases List.mem_or_eq_of_mem_set hc1 with hm | heq
  · exact hsup c1 hm
  · rw [heq]
    exact hsup c (List.mem_iff_getElem?.mpr ⟨col, hc⟩)

/-- A counted loop whose body keeps `Inv` and raises only faults in `P` raises
only faults in `P`. -/
theorem loopFrom_of_error {σ : Type} (body : Nat → σ → Except Fault σ) (Inv : σ → Prop)
    (P : Fault → Prop)
    (hok : ∀ i s s1, Inv s → body i s = Except.ok s1 → Inv s1)
    (herr : ∀ i s e, Inv s → body i s = Except.error e → P e) :
    ∀ k i s e, Inv s → loopFrom body k i s = Except.error e → P e := by
  intro k
  induction k with
  | zero =>
    intro i s e _ h
    simp only [loopFrom] at h
    cases h
  | succ k ih =>
    intro i s e hinv h
    rw [loopFrom] at h
    cases hb : body i s with
    | error e1 =>
      rw [hb] at h
      cases h
      exact herr i s _ hinv hb
    | ok s1 =>
      rw [hb] at h
      exact ih (i + 1) s1 e (hok i s s1 hinv hb) h

theorem loopFrom_keeps {σ : Type} (body : Nat → σ → Except Fault σ) (Inv : σ → Prop)
    (hok : ∀ i s s1, Inv s → body i s = Except.ok s1 → Inv s1) :
    ∀ k i s s1, Inv s → loopFrom body k i s = Except.ok s1 → Inv s1 := by
  intro k
  induction k with
  | zero =>
    intro i s s1 hinv h
    simp only [loopFrom, Except.ok.injEq] at h
    rw [← h]
    exact hinv
  | succ k ih =>
    intro i s s1 hinv h
    rw [loopFrom] at h
    cases hb : body i s with
    | error e1 => rw [hb] at h; cases h
    | ok s2 =>
      rw [hb] at h
      exact ih (i + 1) s2 s1 (hok i s s2 hinv hb) h

theorem updatePass_of_error (schema : Option Schema) (resolver : ChunkResolver)
    (cs : ChangesetRequest) :
    ∀ (suffix : List Int) (i o : Nat) (t : Table) (e : Fault), t.Supported →
      updatePass schema resolver cs i suffix (o, t) = Except.error e → e.Runtime := by
  intro suffix
  induction suffix with
  | nil =>
    intro i o t e _ h
    rw [updatePass_nil_aux] at h
    cases h
  | cons rowid rest ih =>
    intro i o t e hsup h
    rw [updatePass] at h
    by_cases hge : rowid ≥ t.NumRows
    · rw [if_pos hge] at h; cases h
    · rw [if_neg hge] at h
      cases hres : resolver.Resolve rowid with
      | error e1 =>
        rw [hres] at h
        cases h
        unfold ChunkResolver.Resolve at hres
        by_cases hneg : rowid < 0
        · rw [if_pos hneg] at hres; cases hres; exact Or.inl rfl
        · rw [if_neg hneg] at hres
          cases hx : resolveFrom resolver.lens 0 rowid.toNat with
          | none => rw [hx] at hres; cases hres; exact Or.inl rfl
          | some p => rw [hx] at hres; cases hres
      | ok p =>
        rw [hres] at h
        obtain ⟨chunk, l⟩ := p
        simp only at h
        cases schema with
        | none =>
          simp only at h
          cases h
          exact Or.inr (Or.inr (Or.inl rfl))
        | some fields =>
          simp only at h
          cases hloop : forRange fields.length (updateCell cs chunk l i) t with
          | error e1 =>
            rw [hloop] at h
            cases h
            exact loopFrom_of_error (updateCell cs chunk l i) Table.Supported Fault.Runtime
              (fun col s s1 hs hb => updateCell_supported cs chunk l i col s s1 hs hb)
              (fun col s e2 hs hb => updateCell_of_error cs chunk l i col s e2 hs hb)
              fields.length 0 t _ hsup hloop
          | ok t1 =>
            rw [hloop] at h
            have hsup1 : t1.Supported :=
              loopFrom_keeps (updateCell cs chunk l i) Table.Supported
                (fun col s s1 hs hb => updateCell_supported cs chunk l i col s s1 hs hb)
                fields.length 0 t t1 hsup hloop
            exact ih (i + 1) i t1 e hsup1 h

theorem updateExisting_of_error (sf : ShardFile) (cs : ChangesetRequest) (e : Fault)
    (hsup : ∀ t, sf.table = some t → t.Supported)
    (h : updateExisting sf cs = Except.error e) : e.Runtime := by
  unfold updateExisting at h
  cases ht : sf.table with
  | none => rw [ht] at h; cases h
  | some t =>
    rw [ht] at h
    simp only at h
    cases hc : t.Column 0 with
    | error e1 =>
      rw [hc] at h
      cases h
      unfold Table.Column at hc
      cases hx : t.cols[0]? with
      | none => rw [hx] at hc; cases hc; exact Or.inl rfl
      | some y => rw [hx] at hc; cases hc
    | ok column =>
      rw [hc] at h
      simp only at h
      cases hp : updatePass sf.schema (NewChunkResolver column) cs 0 cs.ShardIds (0, t) with
      | error e1 =>
        rw [hp] at h
        cases h
        exact updatePass_of_error _ _ _ _ _ _ _ _ (hsup t ht) hp
      | ok p =>
        rw [hp] at h
        cases h

theorem allocColumn_of_error (fields : List Field) (newSize : Int) (i : Nat)
    (columns : List Values) (e : Fault)
    (h : allocColumn fields newSize i columns = Except.error e) : e.Runtime := by
  unfold allocColumn at h
  cases hf : getN fields i with
  | error e1 =>
    rw [hf] at h
    cases h
    exact Or.inl (getN_of_error _ _ _ hf)
  | ok f =>
    rw [hf] at h
    simp only [bind, Except.bind] at h
    cases hty : f.Typ with
    | int64 =>
      rw [hty] at h
      simp only at h
      cases hm : makeSlice DataType.int64 newSize with
      | error e1 =>
        rw [hm] at h
        cases h
        exact Or.inr (Or.inr (Or.inr (makeSlice_of_error _ _ _ hm)))
      | ok v =>
        rw [hm] at h
        exact Or.inl (setN_of_error _ _ _ _ h)
    | float64 =>
      rw [hty] at h
      simp only at h
      cases hm : makeSlice DataType.float64 newSize with
      | error e1 =>
        rw [hm] at h
        cases h
        exact Or.inr (Or.inr (Or.inr (makeSlice_of_error _ _ _ hm)))
      | ok v =>
        rw [hm] at h
        exact Or.inl (setN_of_error _ _ _ _ h)
    | other name =>
      rw [hty] at h
      cases h

theorem buildAppenders_of_error (sf : ShardFile) (maxid : Int) (e : Fault)
    (h : sf.buildAppenders maxid = Except.error e) : e.Runtime := by
  unfold ShardFile.buildAppenders at h
  simp only at h
  split at h
  · cases h
  · split at h
    · rename_i e1 hf
      cases h
      unfold ShardFile.Fields at hf
      split at hf
      · cases hf
      · cases hf
        exact Or.inr (Or.inr (Or.inl rfl))
    · rename_i fields hf
      split at h
      · rename_i e1 hloop
        cases h
        exact loopFrom_of_error _ (fun _ => True) Fault.Runtime
          (fun _ _ _ _ _ => trivial)
          (fun i s e2 _ hb => allocColumn_of_error _ _ i s e2 hb)
          fields.length 0 _ _ trivial hloop
      · cases h

theorem setValue_of_error (ty : DataType) (sf : ShardFile) (col : Nat) (row val : Int)
    (e : Fault) (h : sf.setValue ty col row val = Except.error e) : e.Runtime := by
  unfold ShardFile.setValue at h
  cases hv : getN sf.columns col with
  | error e1 =>
    rw [hv] at h
    cases h
    exact Or.inl (getN_of_error _ _ _ hv)
  | ok v =>
    rw [hv] at h
    simp only [bind, Except.bind] at h
    by_cases he : v.elem ≠ ty
    · rw [if_pos he] at h; cases h; exact Or.inr (Or.inl rfl)
    · rw [if_neg he] at h
      cases hd : sliceSet v.data (wrap64 (row - sf.beforeRows)) val with
      | error e1 =>
        rw [hd] at h
        cases h
        exact Or.inl (sliceSet_of_error _ _ _ _ hd)
      | ok data =>
        rw [hd] at h
        cases h

theorem changesetCell_of_error (ty : DataType) (cs : ChangesetRequest) (col i : Nat)
    (e : Fault) (h : changesetCell ty cs col i = Except.error e) : e.Runtime := by
  unfold changesetCell at h
  cases hsrc : getN cs.Columns col with
  | error e1 =>
    rw [hsrc] at h
    cases h
    exact Or.inl (getN_of_error _ _ _ hsrc)
  | ok src =>
    rw [hsrc] at h
    simp only [bind, Except.bind] at h
    by_cases he : src.elem ≠ ty
    · rw [if_pos he] at h; cases h; exact Or.inr (Or.inl rfl)
    · rw [if_neg he] at h
      exact Or.inl (getN_of_error _ _ _ h)

theorem appendCell_of_error (cs : ChangesetRequest) (rowid : Int) (i col : Nat)
    (sf : ShardFile) (fields : List Field) (e : Fault) (hschema : sf.schema = some fields)
    (hsup : ∀ f ∈ fields, f.Typ = DataType.int64 ∨ f.Typ = DataType.float64)
    (h : appendCell cs rowid i col sf = Except.error e) : e.Runtime := by
  unfold appendCell at h
  have hf : sf.Fields = Except.ok fields := by
    unfold ShardFile.Fields
    rw [hschema]
  rw [hf] at h
  simp only [bind, Except.bind] at h
  cases hg : getN fields col with
  | error e1 =>
    rw [hg] at h
    cases h
    exact Or.inl (getN_of_error _ _ _ hg)
  | ok f =>
    rw [hg] at h
    simp only at h
    have hmem : f ∈ fields := List.mem_iff_getElem?.mpr ⟨col, getN_of_ok _ _ _ hg⟩
    cases hty : f.Typ with
    | int64 =>
      rw [hty] at h
      simp only at h
      cases hx : changesetCell DataType.int64 cs col i with
      | error e1 =>
        rw [hx] at h
        cases h
        exact changesetCell_of_error _ _ _ _ _ hx
      | ok x =>
        rw [hx] at h
        exact setValue_of_error _ _ _ _ _ _ h
    | float64 =>
      rw [hty] at h
      simp only at h
      cases hx : changesetCell DataType.float64 cs col i with
      | error e1 =>
        rw [hx] at h
        cases h
        exact changesetCell_of_error _ _ _ _ _ hx
      | ok x =>
        rw [hx] at h
        exact setValue_of_error _ _ _ _ _ _ h
    | other name =>
      rcases hsup f hmem with h1 | h1
      · rw [h1] at hty; cases hty
      · rw [h1] at hty; cases hty

theorem appendCell_schema (cs : ChangesetRequest) (rowid : Int) (i col : Nat)
    (sf s1 : ShardFile) (h : appendCell cs rowid i col sf = Except.ok s1) :
    s1.schema = sf.schema := by
  obtain ⟨v, data, _, _, hs1⟩ := appendCell_of_ok cs rowid i col sf s1 h
  rw [hs1]

theorem appendPass_of_error (cs : ChangesetRequest) (fields : List Field)
    (hsup : ∀ f ∈ fields, f.Typ = DataType.int64 ∨ f.Typ = DataType.float64) :
    ∀ (suffix : List Int) (i : Nat) (s : ShardFile) (e : Fault), s.schema = some fields →
      appendPass cs i suffix s = Except.error e → e.Runtime := by
  intro suffix
  induction suffix with
  | nil =>
    intro i s e _ h
    simp only [appendPass] at h
    cases h
  | cons rowid rest ih =>
    intro i s e hschema h
    rw [appendPass] at h
    have hf : s.Fields = Except.ok fields := by
      unfold ShardFile.Fields
      rw [hschema]
    rw [hf] at h
    simp only at h
    cases hloop : forRange fields.length (appendCell cs rowid i) s with
    | error e1 =>
      rw [hloop] at h
      cases h
      exact loopFrom_of_error (appendCell cs rowid i) (fun x => x.schema = some fields)
        Fault.Runtime
        (fun col x x1 hx hb => (appendCell_schema cs rowid i col x x1 hb).trans hx)
        (fun col x e2 hx hb => appendCell_of_error cs rowid i col x fields e2 hx hsup hb)
        fields.length 0 s _ hschema hloop
    | ok s1 =>
      rw [hloop] at h
      have hs1 : s1.schema = some fields :=
        loopFrom_keeps (appendCell cs rowid i) (fun x => x.schema = some fields)
          (fun col x x1 hx hb => (appendCell_schema cs rowid i col x x1 hb).trans hx)
          fields.length 0 s s1 hschema hloop
      exact ih (i + 1) s1 e hs1 h

/-- On a ShardFile whose schema and table columns are all of a supported type,
`process` raises only faults of the run time, for any changeset. -/
theorem process_of_error (sf : ShardFile) (cs : ChangesetRequest) (fields : List Field)
    (e : Fault) (hschema : sf.schema = some fields)
    (hsup : ∀ f ∈ fields, f.Typ = DataType.int64 ∨ f.Typ = DataType.float64)
    (htab : ∀ t, sf.table = some t → t.Supported)
    (h : sf.process cs = Except.error e) : e.Runtime := by
  unfold ShardFile.process at h
  cases hupd : updateExisting sf cs with
  | error e1 =>
    rw [hupd] at h
    cases h
    exact updateExisting_of_error sf cs _ htab hupd
  | ok p =>
    rw [hupd] at h
    obtain ⟨offset, sf1⟩ := p
    simp only at h
    obtain ⟨tbl, hsf1, _⟩ := updateExisting_same sf sf1 cs offset hupd
    cases hmax : sliceGet cs.ShardIds ((cs.ShardIds.length : Int) - 1) with
    | error e1 =>
      rw [hmax] at h
      cases h
      exact Or.inl (sliceGet_of_error _ _ _ hmax)
    | ok max =>
      rw [hmax] at h
      simp only at h
      cases hb : sf1.buildAppenders max with
      | error e1 =>
        rw [hb] at h
        cases h
        exact buildAppenders_of_error _ _ _ hb
      | ok sf2 =>
        rw [hb] at h
        simp only at h
        have hs2 : sf2.schema = some fields := by
          rw [(buildAppenders_same sf1 sf2 max hb).2.2, hsf1]
          exact hschema
        by_cases hadd : sf2.added > 0
        · rw [if_pos hadd] at h
          exact appendPass_of_error cs fields hsup _ _ _ _ hs2 h
        · rw [if_neg hadd] at h
          cases h

/-- A call of `process` that returns leaves the schema as it was. -/
theorem process_schema (sf sf1 : ShardFile) (cs : ChangesetRequest)
    (h : sf.process cs = Except.ok sf1) : sf1.schema = sf.schema := by
  unfold ShardFile.process at h
  cases hupd : updateExisting sf cs with
  | error e1 => rw [hupd] at h; cases h
  | ok p =>
    rw [hupd] at h
    obtain ⟨offset, su⟩ := p
    simp only at h
    obtain ⟨tbl, hsu, _⟩ := updateExisting_same sf su cs offset hupd
    cases hmax : sliceGet cs.ShardIds ((cs.ShardIds.length : Int) - 1) with
    | error e1 => rw [hmax] at h; cases h
    | ok max =>
      rw [hmax] at h
      simp only at h
      cases hb : su.buildAppenders max with
      | error e1 => rw [hb] at h; cases h
      | ok sf2 =>
        rw [hb] at h
        simp only at h
        have hs2 : sf2.schema = sf.schema := by
          rw [(buildAppenders_same su sf2 max hb).2.2, hsu]
        by_cases hadd : sf2.added > 0
        · rw [if_pos hadd] at h
          obtain ⟨cols1, hs1, _⟩ :=
            appendPass_of_ok cs (fun _ => True) (fun _ _ _ _ _ _ _ => trivial) _ _ sf2 sf1
              trivial h
          rw [hs1]
          exact hs2
        · rw [if_neg hadd] at h
          cases h
          exact hs2

/-- On a ShardFile whose field at `col` has a supported type, the column loop
of `Save` takes the arm of that type. -/
theorem saveColumn_arm (s : ShardFile) (col : Nat) (parts : List Values) (fields : List Field)
    (f : Field) (hschema : s.schema = some fields) (hf : fields[col]? = some f)
    (hsup : f.Typ = DataType.int64 ∨ f.Typ = DataType.float64) :
    saveColumn s col parts =
      match existingChunks s col with
      | Except.ok chunks => saveArm f.Typ s col chunks parts
      | Except.error e => Except.error e := by
  unfold saveColumn
  have hfields : s.Fields = Except.ok fields := by
    unfold ShardFile.Fields
    rw [hschema]
  have hget : getN fields col = Except.ok f := by
    unfold getN
    rw [hf]
  cases existingChunks s col with
  | error e => rfl
  | ok chunks =>
    simp only [bind, Except.bind, hfields, hget]
    rcases hsup with h1 | h1
    · rw [h1]
    · rw [h1]

/-- C27: for a ShardFile as `NewShardFile` returns it (fresh, or loaded from a
file whose columns have any types) on which `EnsureSchema` returned no error,
every field of the schema and every column of the table has the type Int64 or
Float64; so `process` never raises one of its two "Unknown Type" panics, for
any changeset, it leaves the schema unchanged, and the column loop of `Save`
takes the arm of the field's type at every field, never the default arm. -/
theorem EnsureSchema_supported_types (d : Disk) (name : String) (sf0 sf : ShardFile)
    (cs : ChangesetRequest) (hnew : NewShardFile d name = Except.ok sf0)
    (hens : sf0.EnsureSchema cs = (sf, none)) :
    ∃ fields, sf.schema = some fields ∧
      (∀ f ∈ fields, f.Typ = DataType.int64 ∨ f.Typ = DataType.float64) ∧
      (∀ t, sf.table = some t →
        ∀ c ∈ t.cols, c.DataType = DataType.int64 ∨ c.DataType = DataType.float64) ∧
      (∀ (cs2 : ChangesetRequest) (e : Fault), sf.process cs2 = Except.error e →
        e ≠ Fault.panic "Unknown Type" ∧ e ≠ Fault.panic "2 Unknown Type") ∧
      (∀ (cs2 : ChangesetRequest) (sf1 : ShardFile), sf.process cs2 = Except.ok sf1 →
        sf1.schema = some fields) ∧
      (∀ (s : ShardFile) (col : Nat) (f : Field) (parts : List Values),
        s.schema = some fields → fields[col]? = some f →
        saveColumn s col parts =
          match existingChunks s col with
          | Except.ok chunks => saveArm f.Typ s col chunks parts
          | Except.error e => Except.error e) := by
  obtain ⟨hschema, htable, _, _, _, _, hold⟩ := EnsureSchema_ok_spec sf0 sf cs hens
  obtain ⟨_, _, _, _, hsch0, _⟩ := NewShardFile_spec d name sf0 hnew
  have hsup := ArrowSchema_supported cs
  have htab : ∀ t, sf.table = some t → t.Supported := by
    intro t ht
    rw [htable] at ht
    rw [ht] at hsch0
    have heq : t.Schema = cs.ArrowSchema := hold t.Schema hsch0
    intro c hc
    apply hsup
    rw [← heq]
    exact List.mem_map_of_mem Column.field hc
  refine ⟨cs.ArrowSchema, hschema, hsup, ?_, ?_, ?_, ?_⟩
  · intro t ht c hc
    exact htab t ht c hc
  · intro cs2 e he
    have hr := process_of_error sf cs2 cs.ArrowSchema e hschema hsup htab he
    refine ⟨?_, ?_⟩
    · intro hcon
      rw [hcon] at hr
      unfold Fault.Runtime at hr
      revert hr
      decide
    · intro hcon
      rw [hcon] at hr
      unfold Fault.Runtime at hr
      revert hr
      decide
  · intro cs2 sf1 hp
    rw [process_schema sf sf1 cs2 hp]
    exact hschema
  · intro s col f parts hs hf
    exact saveColumn_arm s col parts cs.ArrowSchema f hs hf
      (hsup f (List.mem_iff_getElem?.mpr ⟨col, hf⟩))

/-! ## The indices process uses -/

/-- Every column of a table under update is chunked like the others. -/
theorem TableOK.column_lens {fields : List Field} {lens : List Nat} {t : Table}
    (h : TableOK fields lens t) (k : Nat) (c : Column) (hc : t.cols[k]? = some c) :
    c.lens = lens := by
  have hk : k < t.cols.length := by
    rcases Nat.lt_or_ge k t.cols.length with hlt | hge
    · exact hlt
    · rw [List.getElem?_eq_none hge] at hc
      cases hc
  rw [h.2.1] at hk
  obtain ⟨c1, hc1, hok⟩ := h.2.2 k fields[k] (List.getElem?_eq_getElem hk)
  rw [hc] at hc1
  cases hc1
  exact hok.2.1

/-- The position the resolver of a column gives for a row id below the row
count exists in every column that is chunked like it. -/
theorem resolve_target (lens : List Nat) (c0 : Column) (hc0 : c0.lens = lens) (r : Int)
    (h0 : 0 ≤ r) (hlt : r < (lens.sum : Int)) :
    ∃ chunk l, (NewChunkResolver c0).Resolve r = Except.ok (chunk, l) ∧
      ∀ c : Column, c.lens = lens →
        ∃ arr, c.chunks[chunk]? = some arr ∧ l < arr.data.length := by
  have hidx : ∀ c : Column, c.lens = lens →
      r.toNat < ((c.chunks.map Values.data).flatten).length := by
    intro c hc
    rw [flat_length]
    have : c.chunks.map (fun v => v.data.length) = lens := hc
    rw [this]
    omega
  obtain ⟨k0, l0, arr0, hres0, _, _, _, _⟩ := resolveFrom_flat c0.chunks 0 r.toNat (hidx c0 hc0)
  have hl0 : c0.chunks.map (fun v => v.data.length) = lens := hc0
  rw [hl0, Nat.zero_add] at hres0
  refine ⟨k0, l0, ?_, ?_⟩
  · unfold ChunkResolver.Resolve NewChunkResolver
    simp only
    rw [if_neg (by omega), hl0, hres0]
  · intro c hc
    obtain ⟨k, l, arr, hres, harr, hl, _, _⟩ := resolveFrom_flat c.chunks 0 r.toNat (hidx c hc)
    have hl1 : c.chunks.map (fun v => v.data.length) = lens := hc
    rw [hl1, Nat.zero_add, hres0] at hres
    simp only [Option.some.injEq, Prod.mk.injEq] at hres
    obtain ⟨hk, hll⟩ := hres
    subst hk
    subst hll
    exact ⟨arr, harr, hl⟩

/-- Beyond the sizes that fit: with the largest `int64` as row id the number
of rows to add over the two committed rows is too large a length and `process`
panics in `make`; on a fresh shard the number wraps around to -2^63, so with a
column `process` panics in `make` as well, and without any column no slice is
made and `process` returns with `added` at -2^63. -/
theorem process_beyond_limit :
    hugeChangeset.Valid ∧ hugeBareChangeset.Valid ∧
    (sampleShardFile.EnsureSchema hugeChangeset).1.process hugeChangeset =
      Except.error makeslicePanic ∧
    (freshShardFile.EnsureSchema hugeChangeset).1.process hugeChangeset =
      Except.error makeslicePanic ∧
    ((freshShardFile.EnsureSchema hugeBareChangeset).1.process hugeBareChangeset).map
      (fun s => s.added) = Except.ok (-9223372036854775808) := by
  decide

/-- C25: for a ShardFile as `NewShardFile` returns it (table well formed) that
accepted a valid changeset (non-empty, row ids non-negative and
non-decreasing, one buffer of the field's type per field with one value per
row id): every row id of the update pass resolves to a chunk and an offset that
exist in every column of the table; whenever the number of rows to add,
`maxId - n + 1`, is a length `make` accepts, `process` returns, so it raised no
index fault, and every row id `r` of the append pass has
`0 ≤ r - beforeRows < added`, the `int64` index the source computes being that
difference; and in any case, the row ids being `int64` values, a fault of
`process` is the length panic of `make`, never an index out of range. -/
theorem process_in_range (d : Disk) (name : String) (sf0 sf : ShardFile)
    (cs : ChangesetRequest) (hnew : NewShardFile d name = Except.ok sf0)
    (hwf : sf0.WellFormed) (hens : sf0.EnsureSchema cs = (sf, none)) (hvalid : cs.Valid) :
    (∀ (t : Table) (r : Int), sf.table = some t →
      r ∈ cs.ShardIds.take (splitPoint t.NumRows cs.ShardIds) →
      ∃ column0 chunk l, t.Column 0 = Except.ok column0 ∧
        (NewChunkResolver column0).Resolve r = Except.ok (chunk, l) ∧
        ∀ (col : Nat) (column : Column), t.cols[col]? = some column →
          ∃ arr, column.chunks[chunk]? = some arr ∧ l < arr.data.length) ∧
    (cs.maxId - sf.committedRows < maxSliceLen →
      ∃ sf1, sf.process cs = Except.ok sf1 ∧
        ∀ r ∈ cs.ShardIds.drop (splitPoint sf.committedRows cs.ShardIds),
          0 ≤ r - sf1.beforeRows ∧ r - sf1.beforeRows < sf1.added ∧
          wrap64 (r - sf1.beforeRows) = r - sf1.beforeRows) ∧
    ((∀ r ∈ cs.ShardIds, r < 2 ^ 63) →
      ∀ e, sf.process cs = Except.error e → e = makeslicePanic ∧ e ≠ indexPanic) := by
  obtain ⟨lens, h⟩ := ready_of_EnsureSchema d name sf0 sf cs hnew hwf hens hvalid
  refine ⟨?_, ?_, ?_⟩
  · intro t r ht hr
    obtain ⟨htOK, c0, hc0, hlens0⟩ := h.tab t ht
    have hn : t.NumRows = (lens.sum : Int) := htOK.1
    have hlt : r < t.NumRows := mem_take_splitPoint t.NumRows cs.ShardIds r hr
    have h0 : 0 ≤ r := h.nonneg r (List.mem_of_mem_take hr)
    obtain ⟨chunk, l, hres, hall⟩ := resolve_target lens c0 hlens0 r h0 (by omega)
    refine ⟨c0, chunk, l, ?_, hres, ?_⟩
    · unfold Table.Column
      rw [hc0]
    · intro col column hcol
      exact hall column (htOK.column_lens col column hcol)
  · intro hlim
    obtain ⟨sf1, hproc, _, _, hbefore, _, hadded, _, _, _, _⟩ := process_spec h hlim
    refine ⟨sf1, hproc, ?_⟩
    intro r hr
    have hge := mem_drop_splitPoint sf.committedRows cs.ShardIds h.sorted r hr
    have hle := le_maxId cs h.sorted r (List.mem_of_mem_drop hr)
    unfold maxSliceLen at hlim
    rw [hbefore, hadded]
    by_cases hm : cs.maxId < sf.committedRows
    · omega
    · rw [if_neg hm]
      exact ⟨by omega, by omega, wrap64_eq _ (by omega) (by omega)⟩
  · intro hids e he
    have hmk := process_fault_is_makeslice h hids e he
    refine ⟨hmk, ?_⟩
    rw [hmk]
    decide

/-! ## The schema endpoint -/

/-- The file loop of `GetDataframeSchema` reads the first listed name that ends
in ".parquet", whatever file that is, and no other. -/
theorem schemaOfFirst_find (base : String) (d : Disk) (files : List String) :
    schemaOfFirst base d files =
      match files.find? (fun name => HasSuffix name ".parquet") with
      | none => Except.ok []
      | some name =>
        match readTableParquet d (Join base (TrimSuffix name (Ext name))) with
        | Except.ok table => Except.ok (schemaParts table)
        | Except.error e => Except.error e := by
  induction files with
  | nil => rfl
  | cons name rest ih =>
    rw [schemaOfFirst]
    by_cases h : HasSuffix name ".parquet" = true
    · rw [if_pos h]
      simp only [List.find?_cons, h]
    · rw [if_neg h]
      simp only [List.find?_cons, h]
      exact ih

/-- C21 (the code at the failing input): after a first changeset for shard
`df/0` whose rename was refused there is no shard file, only the temporary file
`df/0.temp.parquet`, and `GetDataframeSchema` returns the columns of that
temporary file instead of the empty list; with a half-written temporary file
listed before the committed file `df/1.parquet` it returns the read error of
the temporary file, and the schema of the committed file only when that file is
listed first. -/
theorem GetDataframeSchema_reads_temporary_file :
    (ApplyDataframeChangeset renameRefused "df/0" sampleChangeset 0).2 =
      Except.error (Fault.error "rename failed") ∧
    uncommittedDisk.files "df/0.parquet" = none ∧
    (uncommittedDisk.files "df/0.temp.parquet").isSome = true ∧
    GetDataframeSchema (Except.ok "df") ["0.temp.parquet"] uncommittedDisk =
      Except.ok [{ Name := "a", Typ := "int64" }] ∧
    GetDataframeSchema (Except.ok "df") ["0.temp.parquet", "1.parquet"] halfWrittenDisk =
      Except.error (Fault.error "parquet: invalid file") ∧
    GetDataframeSchema (Except.ok "df") ["1.parquet", "0.temp.parquet"] halfWrittenDisk =
      Except.ok [{ Name := "a", Typ := "int64" }] := by
  decide

/-! ## executeApplyShard without a program -/

/-- C28 (the code at the failing input): when the lookup of `_ivy` reports
not-found without an error, `errors.Wrap` is given a nil error and returns nil,
so `executeApplyShard` returns the nil value together with a nil error; the
error "finding ivy program" is returned only when the lookup itself returned an
error. -/
theorem executeApplyShard_missing_program {V : Type} (ivy : Ivy V) (ShardWidth : Nat)
    (d : Disk) (c : ApplyCall) (s : String) :
    wrapError none "finding ivy program" = none ∧
    executeApplyShard ivy ShardWidth d { c with ivyArg := (s, false, none) } =
      { evaluations := [], result := Except.ok none } ∧
    ∀ (found : Bool) (e : String),
      executeApplyShard ivy ShardWidth d { c with ivyArg := (s, found, some e) } =
        { evaluations := [],
          result := Except.error (Fault.error ("finding ivy program" ++ ": " ++ e)) } := by
  refine ⟨rfl, rfl, ?_⟩
  intro found e
  unfold executeApplyShard
  simp only [Option.isSome_some, Bool.true_or, if_true]
  rfl

/-! ## The queryer -/

/-- The loop of `parseAndQueryPQL` over a non-empty rest of `sql`: it stops at
the first ']' when there is one, and returns the error of the loop body when
there is none. -/
theorem scanTable_spec (sql : Bytes) :
    ∀ (rest : Bytes) (i : Nat), rest ≠ [] → i + rest.length = sql.length →
      (∀ table query : Bytes, rest = table ++ ']' :: query → ']' ∉ table →
        scanTable sql rest i = Except.ok (i + table.length)) ∧
      (']' ∉ rest →
        scanTable sql rest i = Except.error (Fault.error
          ("couldn't parse table name out of '" ++ String.mk sql ++ "'"))) := by
  intro rest
  induction rest with
  | nil => intro i h; exact absurd rfl h
  | cons ch rest1 ih =>
    intro i _ hlen
    simp only [List.length_cons] at hlen
    refine ⟨?_, ?_⟩
    · intro table query hsplit hnot
      cases table with
      | nil =>
        simp only [List.nil_append, List.cons.injEq] at hsplit
        rw [scanTable, hsplit.1]
        simp
      | cons t table1 =>
        simp only [List.cons_append, List.cons.injEq] at hsplit
        obtain ⟨hch, hrest⟩ := hsplit
        have hne : ch ≠ ']' := by
          rw [hch]
          intro hcon
          exact hnot (by rw [hcon]; exact List.mem_cons_self _ _)
        have hrest1 : rest1 ≠ [] := by
          rw [hrest]
          simp
        have hpos : 0 < rest1.length := List.length_pos.mpr hrest1
        rw [scanTable, if_pos hne, if_neg (by omega)]
        have h1 := (ih (i + 1) hrest1 (by omega)).1 table1 query hrest
          (fun hm => hnot (List.mem_cons_of_mem _ hm))
        rw [h1, List.length_cons]
        congr 1
        omega
    · intro hnot
      have hne : ch ≠ ']' := by
        intro hcon
        exact hnot (by rw [hcon]; exact List.mem_cons_self _ _)
      rw [scanTable, if_pos hne]
      cases rest1 with
      | nil =>
        simp only [List.length_nil] at hlen
        rw [if_pos (by omega)]
      | cons c2 rest2 =>
        simp only [List.length_cons] at hlen
        rw [if_neg (by omega)]
        exact (ih (i + 1) (by simp) (by simp only [List.length_cons]; omega)).2
          (fun hm => hnot (List.mem_cons_of_mem _ hm))

/-- For a string of at least two bytes that starts with '[', table name and
query are the parts before and after the first ']', and without a ']' the
error of the loop body is returned. -/
theorem parseAndQueryPQL_split (q : Queryer) (rest : Bytes) (hne : rest ≠ []) :
    (∀ table query : Bytes, rest = table ++ ']' :: query → ']' ∉ table →
      q.parseAndQueryPQL ('[' :: rest) = q.QueryPQL table query) ∧
    (']' ∉ rest →
      q.parseAndQueryPQL ('[' :: rest) = Except.error (Fault.error
        ("couldn't parse table name out of '" ++ String.mk ('[' :: rest) ++ "'"))) := by
  obtain ⟨hfound, hnone⟩ := scanTable_spec ('[' :: rest) rest 1 hne
    (by simp only [List.length_cons]; omega)
  refine ⟨?_, ?_⟩
  · intro table query hsplit hnot
    unfold Queryer.parseAndQueryPQL
    simp only [List.drop_succ_cons, List.drop_zero]
    rw [hfound table query hsplit hnot]
    simp only
    have h1 : (List.take (1 + table.length) ('[' :: rest)).drop 1 = table := by
      rw [Nat.add_comm, List.take_succ_cons, List.drop_succ_cons, List.drop_zero, hsplit,
        List.take_left]
    have h2 : List.drop (1 + table.length) rest = query := by
      rw [hsplit]
      have hl : table ++ ']' :: query = (table ++ [']']) ++ query := by simp
      rw [hl]
      have hlen : 1 + table.length = (table ++ [']']).length := by
        simp only [List.length_append, List.length_singleton]
        omega
      rw [hlen, List.drop_left]
    rw [h1, h2]
  · intro hnot
    unfold Queryer.parseAndQueryPQL
    simp only [List.drop_succ_cons, List.drop_zero]
    rw [hnone hnot]

/-- C29 (the code at the failing input): on the one-byte string "[" the loop
of `parseAndQueryPQL` starts by reading `sql[1]`, past the end of the string:
the call, and `QuerySQL` with it, ends in the run-time panic "index out of
range" instead of the error "couldn't parse table name", which the two-byte
string "[a" does get. -/
theorem parseAndQueryPQL_single_bracket (q : Queryer) :
    q.parseAndQueryPQL ['['] = Except.error indexPanic ∧
    q.QuerySQL ['['] = Except.error indexPanic ∧
    q.QuerySQL ['[', 'a'] =
      Except.error (Fault.error "couldn't parse table name out of '[a'") := by
  refine ⟨rfl, rfl, ?_⟩
  have h := (parseAndQueryPQL_split q ['a'] (by simp)).2 (by decide)
  exact h

/-- The schema loop of `QuerySQL` fails with the error of a column whose base
type name is not known. -/
theorem schemaFields_error (q : Queryer) :
    ∀ (cols : List PlanColumn) (e : String), q.schemaFields cols = Except.error e →
      ∃ col ∈ cols, q.BaseTypeFromString col.BaseTypeName = Except.error e := by
  intro cols
  induction cols with
  | nil => intro e h; simp only [Queryer.schemaFields] at h; cases h
  | cons col rest ih =>
    intro e h
    rw [Queryer.schemaFields] at h
    cases hb : q.BaseTypeFromString col.BaseTypeName with
    | error e1 =>
      rw [hb] at h
      cases h
      exact ⟨col, List.mem_cons_self _ _, hb⟩
    | ok b =>
      rw [hb] at h
      simp only at h
      cases hr : q.schemaFields rest with
      | error e1 =>
        rw [hr] at h
        cases h
        obtain ⟨c, hc, hce⟩ := ih _ hr
        exact ⟨c, List.mem_cons_of_mem _ hc, hce⟩
      | ok fields =>
        rw [hr] at h
        cases h

/-- The schema loop of `QuerySQL` fails when the base type name of some column
is not known. -/
theorem schemaFields_fails (q : Queryer) :
    ∀ cols : List PlanColumn,
      (∃ col ∈ cols, ∃ e, q.BaseTypeFromString col.BaseTypeName = Except.error e) →
      ∃ e, q.schemaFields cols = Except.error e := by
  intro cols
  induction cols with
  | nil =>
    intro h
    obtain ⟨col, hc, _⟩ := h
    cases hc
  | cons col rest ih =>
    intro h
    rw [Queryer.schemaFields]
    cases hb : q.BaseTypeFromString col.BaseTypeName with
    | error e1 => exact ⟨e1, rfl⟩
    | ok b =>
      simp only
      obtain ⟨c, hc, e, hce⟩ := h
      have hrest : ∃ col ∈ rest, ∃ e, q.BaseTypeFromString col.BaseTypeName = Except.error e := by
        rcases List.mem_cons.mp hc with heq | hm
        · rw [heq, hb] at hce
          cases hce
        · exact ⟨c, hm, e, hce⟩
      obtain ⟨e1, he1⟩ := ih hrest
      rw [he1]
      exact ⟨e1, rfl⟩

/-- On the SQL path `QuerySQL` is its SQL part. -/
theorem QuerySQL_sql_path (q : Queryer) (sql : Bytes) (hsql : sql.head? ≠ some '[') :
    q.QuerySQL sql = q.querySQLPath := by
  unfold Queryer.QuerySQL
  split
  · rename_i rest
    exact absurd rfl hsql
  · rfl

/-- C22: on the SQL path of `QuerySQL` (the string does not start with '[')
every failure of a step is returned inside the response, with a nil error: the
failure of the request id, of parsing, of compiling the plan, of getting the
iterator, of mapping the base type of a column and of fetching a row each give
the response whose `Error` is the step's message followed by the failure's
message; and with the orchestrator set the call always returns a response and a
nil error. -/
theorem QuerySQL_failure_in_response (q : Queryer) (sql : Bytes)
    (hsql : sql.head? ≠ some '[') :
    (∀ e, q.NewV4 = Except.error e →
      q.QuerySQL sql = Except.ok
        { Schema := [], Data := [], Error := "creating requestID" ++ ": " ++ e,
          ExecutionTime := q.elapsed }) ∧
    (∀ id e, q.NewV4 = Except.ok id → q.ParseStatement = Except.error e →
      q.QuerySQL sql = Except.ok
        { Schema := [], Data := [], Error := "parsing sql" ++ ": " ++ e,
          ExecutionTime := q.elapsed }) ∧
    (∀ id e, q.NewV4 = Except.ok id → q.ParseStatement = Except.ok () →
      q.orchestrator = true → q.CompilePlan = Except.error e →
      q.QuerySQL sql = Except.ok
        { Schema := [], Data := [], Error := "compiling plan" ++ ": " ++ e,
          ExecutionTime := q.elapsed }) ∧
    (∀ id planOp e, q.NewV4 = Except.ok id → q.ParseStatement = Except.ok () →
      q.orchestrator = true → q.CompilePlan = Except.ok planOp →
      planOp.Iterator = Except.error e →
      q.QuerySQL sql = Except.ok
        { Schema := [], Data := [], Error := "getting iterator" ++ ": " ++ e,
          ExecutionTime := q.elapsed }) ∧
    (∀ id planOp iter, q.NewV4 = Except.ok id → q.ParseStatement = Except.ok () →
      q.orchestrator = true → q.CompilePlan = Except.ok planOp →
      planOp.Iterator = Except.ok iter →
      (∃ col ∈ planOp.Schema, ∃ e, q.BaseTypeFromString col.BaseTypeName = Except.error e) →
      ∃ col ∈ planOp.Schema, ∃ e, q.BaseTypeFromString col.BaseTypeName = Except.error e ∧
        q.QuerySQL sql = Except.ok
          { Schema := [], Data := [], Error := "getting fieldtype from string" ++ ": " ++ e,
            ExecutionTime := q.elapsed }) ∧
    (∀ id planOp iter fields e, q.NewV4 = Except.ok id → q.ParseStatement = Except.ok () →
      q.orchestrator = true → q.CompilePlan = Except.ok planOp →
      planOp.Iterator = Except.ok iter → q.schemaFields planOp.Schema = Except.ok fields →
      iter.stop = some e →
      q.QuerySQL sql = Except.ok
        { Schema := [], Data := [], Error := "getting row" ++ ": " ++ e,
          ExecutionTime := q.elapsed }) ∧
    (q.orchestrator = true → ∃ ret, q.QuerySQL sql = Except.ok ret) := by
  rw [QuerySQL_sql_path q sql hsql]
  refine ⟨?_, ?_, ?_, ?_, ?_, ?_, ?_⟩
  · intro e h1
    unfold Queryer.querySQLPath
    rw [h1]
    rfl
  · intro id e h1 h2
    unfold Queryer.querySQLPath
    rw [h1, h2]
    rfl
  · intro id e h1 h2 h3 h4
    unfold Queryer.querySQLPath
    rw [h1, h2, h3, h4]
    rfl
  · intro id planOp e h1 h2 h3 h4 h5
    unfold Queryer.querySQLPath
    rw [h1, h2, h3, h4]
    simp only [Bool.not_true, Bool.false_eq_true, if_false]
    rw [h5]
    rfl
  · intro id planOp iter h1 h2 h3 h4 h5 hex
    obtain ⟨e, he⟩ := schemaFields_fails q planOp.Schema hex
    obtain ⟨col, hcol, hce⟩ := schemaFields_error q planOp.Schema e he
    refine ⟨col, hcol, e, hce, ?_⟩
    unfold Queryer.querySQLPath
    rw [h1, h2, h3, h4]
    simp only [Bool.not_true, Bool.false_eq_true, if_false]
    rw [h5]
    simp only
    rw [he]
    rfl
  · intro id planOp iter fields e h1 h2 h3 h4 h5 h6 h7
    unfold Queryer.querySQLPath
    rw [h1, h2, h3, h4]
    simp only [Bool.not_true, Bool.false_eq_true, if_false]
    rw [h5]
    simp only
    rw [h6]
    simp only
    rw [h7]
    rfl
  · intro h3
    unfold Queryer.querySQLPath
    cases q.NewV4 with
    | error e => exact ⟨_, rfl⟩
    | ok id =>
      simp only
      cases q.ParseStatement with
      | error e => exact ⟨_, rfl⟩
      | ok u =>
        simp only
        rw [h3]
        simp only [Bool.not_true, Bool.false_eq_true, if_false]
        cases q.CompilePlan with
        | error e => exact ⟨_, rfl⟩
        | ok planOp =>
          simp only
          cases planOp.Iterator with
          | error e => exact ⟨_, rfl⟩
          | ok iter =>
            simp only
            cases q.schemaFields planOp.Schema with
            | error e => exact ⟨_, rfl⟩
            | ok fields =>
              simp only
              cases iter.stop with
              | some e => exact ⟨_, rfl⟩
              | none => exact ⟨_, rfl⟩

/-! ## Table responses -/

/-- The datatypes for which both `datatypeToBaseType` and `rowToSliceInterface`
have a case. -/
theorem datatypeToBaseType_ok (s : String)
    (hs : s ∈ ["string", "uint64", "int64", "bool", "[]uint64", "[]string", "decimal",
      "timestamp"]) :
    ∃ b, datatypeToBaseType s = Except.ok b := by
  simp only [List.mem_cons, List.mem_singleton, List.mem_nil_iff, or_false] at hs
  rcases hs with h | h | h | h | h | h | h | h <;> subst h <;> exact ⟨_, rfl⟩

theorem headerFields_ok :
    ∀ headers : List ColumnInfo,
      (∀ h ∈ headers, h.Datatype ∈ ["string", "uint64", "int64", "bool", "[]uint64",
        "[]string", "decimal", "timestamp"]) →
      ∃ fields, headerFields headers = Except.ok fields ∧ fields.length = headers.length := by
  intro headers
  induction headers with
  | nil => intro _; exact ⟨[], rfl, rfl⟩
  | cons ci rest ih =>
    intro hh
    obtain ⟨b, hb⟩ := datatypeToBaseType_ok ci.Datatype (hh ci (List.mem_cons_self _ _))
    obtain ⟨fields, hf, hlen⟩ := ih (fun h hm => hh h (List.mem_cons_of_mem _ hm))
    refine ⟨{ Name := ci.Name, Typ := FieldType.base b, BaseType := b, TypeInfo := "" } :: fields,
      ?_, by simp only [List.length_cons, hlen]⟩
    rw [headerFields, hb]
    simp only
    rw [hf]

theorem columnValue_ok (datatype : String) (col : ColumnResponse)
    (hs : datatype ∈ ["string", "uint64", "int64", "bool", "[]uint64", "[]string", "decimal",
      "timestamp"])
    (hdec : datatype = "decimal" → col.DecimalVal ≠ none) :
    ∃ v, columnValue datatype col = Except.ok v := by
  simp only [List.mem_cons, List.mem_singleton, List.mem_nil_iff, or_false] at hs
  rcases hs with h | h | h | h | h | h | h | h
  · subst h; exact ⟨_, rfl⟩
  · subst h; exact ⟨_, rfl⟩
  · subst h; exact ⟨_, rfl⟩
  · subst h; exact ⟨_, rfl⟩
  · subst h; exact ⟨_, rfl⟩
  · subst h; exact ⟨_, rfl⟩
  · have hd := hdec h
    subst h
    cases hv : col.DecimalVal with
    | none => exact absurd hv hd
    | some dec =>
      refine ⟨WireValue.decimal dec.1 dec.2, ?_⟩
      unfold columnValue
      simp only [hv]
      rfl
  · subst h; exact ⟨_, rfl⟩

theorem rowValues_ok (header : List ColumnInfo)
    (hh : ∀ h ∈ header, h.Datatype ∈ ["string", "uint64", "int64", "bool", "[]uint64",
      "[]string", "decimal", "timestamp"]) :
    ∀ (row : List ColumnResponse) (i : Nat), i + row.length ≤ header.length →
      (∀ (k : Nat) (col : ColumnResponse) (h : ColumnInfo), row[k]? = some col →
        header[i + k]? = some h → h.Datatype = "decimal" → col.DecimalVal ≠ none) →
      ∃ vs, rowValues header i row = Except.ok vs ∧ vs.length = row.length := by
  intro row
  induction row with
  | nil => intro i _ _; exact ⟨[], rfl, rfl⟩
  | cons col rest ih =>
    intro i hlen hdec
    simp only [List.length_cons] at hlen
    have hi : i < header.length := by omega
    have hget : getN header i = Except.ok header[i] := by
      unfold getN
      rw [List.getElem?_eq_getElem hi]
    obtain ⟨v, hv⟩ := columnValue_ok header[i].Datatype col (hh _ (List.getElem_mem _))
      (fun hd => hdec 0 col header[i] (List.getElem?_cons_zero)
        (by rw [Nat.add_zero]; exact List.getElem?_eq_getElem hi) hd)
    obtain ⟨vs, hvs, hl⟩ := ih (i + 1) (by omega)
      (fun k c h hk hhk hd => hdec (k + 1) c h
        (by rw [List.getElem?_cons_succ]; exact hk)
        (by
          have he : i + (k + 1) = i + 1 + k := by omega
          rw [he]
          exact hhk) hd)
    refine ⟨v :: vs, ?_, by simp only [List.length_cons, hl]⟩
    rw [rowValues, hget]
    simp only
    rw [hv]
    simp only
    rw [hvs]

theorem rowsData_ok (header : List ColumnInfo)
    (hh : ∀ h ∈ header, h.Datatype ∈ ["string", "uint64", "int64", "bool", "[]uint64",
      "[]string", "decimal", "timestamp"]) :
    ∀ rows : List (List ColumnResponse),
      (∀ row ∈ rows, row.length ≤ header.length) →
      (∀ row ∈ rows, ∀ (k : Nat) (col : ColumnResponse) (h : ColumnInfo), row[k]? = some col →
        header[k]? = some h → h.Datatype = "decimal" → col.DecimalVal ≠ none) →
      ∃ data, rowsData header rows = Except.ok data ∧ data.length = rows.length := by
  intro rows
  induction rows with
  | nil => intro _ _; exact ⟨[], rfl, rfl⟩
  | cons row rest ih =>
    intro hlen hdec
    obtain ⟨vs, hvs, _⟩ := rowValues_ok header hh row 0
      (by
        have := hlen row (List.mem_cons_self _ _)
        omega)
      (fun k c h hk hhk hd => hdec row (List.mem_cons_self _ _) k c h hk
        (by rw [Nat.zero_add] at hhk; exact hhk) hd)
    obtain ⟨data, hdata, hl⟩ := ih (fun r hr => hlen r (List.mem_cons_of_mem _ hr))
      (fun r hr => hdec r (List.mem_cons_of_mem _ hr))
    refine ⟨vs :: data, ?_, by simp only [List.length_cons, hl]⟩
    rw [rowsData]
    unfold rowToSliceInterface
    rw [hvs]
    simp only
    rw [hdata]

/-- C30 (at an explicit input): `rowToSliceInterface` converts a column of
datatype "float64" and one of datatype "[]byte", but `datatypeToBaseType`
panics on both, so `tableResponseToQueryResult` panics on a response with a
"float64" header and no row; and on a "decimal" column that holds no decimal
the row conversion dereferences the nil pointer `GetDecimalVal` returns. -/
theorem tableResponseToQueryResult_float64_header :
    columnValue "float64" stringColumn = Except.ok (WireValue.float64 0) ∧
    columnValue "[]byte" stringColumn = Except.ok (WireValue.blob []) ∧
    datatypeToBaseType "float64" =
      Except.error (Fault.panic "float64 doesn't have sql3 field type?") ∧
    datatypeToBaseType "[]byte" =
      Except.error (Fault.panic "unknown ColumnInfo Datatype: []byte") ∧
    tableResponseToQueryResult { Headers := [{ Name := "x", Datatype := "float64" }], Rows := [] } =
      Except.error (Fault.panic "float64 doesn't have sql3 field type?") ∧
    tableResponseToQueryResult { sampleResponse with Rows := [[stringColumn, stringColumn]] } =
      Except.error nilPanic := by
  decide

/-- C30 (amended): for each of the datatypes string, uint64, int64, bool,
[]uint64, []string, decimal and timestamp `datatypeToBaseType` returns a base
type without panicking, while it panics on float64 and on []byte, which
`rowToSliceInterface` converts; so `tableResponseToQueryResult` returns, with
one field per header and one data row per row, on every table response whose
headers use only those eight datatypes, whose rows have no more columns than
headers and whose decimal columns hold a decimal. -/
theorem tableResponseToQueryResult_total (t : TableResponse)
    (hheaders : ∀ h ∈ t.Headers, h.Datatype ∈ ["string", "uint64", "int64", "bool", "[]uint64",
      "[]string", "decimal", "timestamp"])
    (hrows : ∀ row ∈ t.Rows, row.length ≤ t.Headers.length)
    (hdec : ∀ row ∈ t.Rows, ∀ (k : Nat) (col : ColumnResponse) (h : ColumnInfo),
      row[k]? = some col → t.Headers[k]? = some h → h.Datatype = "decimal" →
      col.DecimalVal ≠ none) :
    (∀ s ∈ ["string", "uint64", "int64", "bool", "[]uint64", "[]string", "decimal",
        "timestamp"], ∃ b, datatypeToBaseType s = Except.ok b) ∧
    (∃ m, datatypeToBaseType "float64" = Except.error (Fault.panic m)) ∧
    (∃ m, datatypeToBaseType "[]byte" = Except.error (Fault.panic m)) ∧
    ∃ qr, tableResponseToQueryResult t = Except.ok qr ∧
      qr.Schema.length = t.Headers.length ∧ qr.Data.length = t.Rows.length := by
  obtain ⟨fields, hf, hfl⟩ := headerFields_ok t.Headers hheaders
  obtain ⟨data, hd, hdl⟩ := rowsData_ok t.Headers hheaders t.Rows hrows hdec
  refine ⟨fun s hs => datatypeToBaseType_ok s hs, ⟨_, rfl⟩, ⟨_, rfl⟩, ?_⟩
  refine ⟨{ Schema := fields, Data := data, Error := "", ExecutionTime := 0 }, ?_, hfl, hdl⟩
  unfold tableResponseToQueryResult
  rw [hf]
  simp only
  rw [hd]

/-! ### The later claims at the sample data -/

theorem process_accepts_unsorted_ids_witness :
    (sampleShardFile.EnsureSchema unsortedChangeset).1.table = some sampleTable ∧
    sampleTable.cols ≠ [] ∧
    (sampleShardFile.EnsureSchema unsortedChangeset).1.added = 0 ∧
    unsortedChangeset.ShardIds = [3, 1] ∧
    sampleTable.NumRows ≤ 3 ∧
    unsortedChangeset.maxId < sampleTable.NumRows ∧
    (sampleShardFile.EnsureSchema unsortedChangeset).1.process unsortedChangeset =
      Except.ok { (sampleShardFile.EnsureSchema unsortedChangeset).1 with
        beforeRows := sampleTable.NumRows } :=
  ⟨by decide, by decide, by decide, by decide, by decide, by decide,
    process_accepts_unsorted_ids.1 (sampleShardFile.EnsureSchema unsortedChangeset).1
      unsortedChangeset sampleTable 3 [1] (by decide) (by decide) (by decide) (by decide)
      (by decide) (by decide)⟩

theorem updatePass_split_offset_witness :
    NewShardFile sampleDisk "shard" = Except.ok sampleShardFile ∧
    sampleShardFile.WellFormed ∧
    sampleShardFile.EnsureSchema sampleChangeset = (sampleReady, none) ∧
    sampleChangeset.Valid ∧
    sampleReady.table = some sampleTable ∧
    ∃ off su, updateExisting sampleReady sampleChangeset = Except.ok (off, su) ∧
      (∀ (j : Nat) (r : Int), j < off → sampleChangeset.ShardIds[j]? = some r →
        r < sampleTable.NumRows) ∧
      ((∃ r ∈ sampleChangeset.ShardIds, sampleTable.NumRows ≤ r) →
        off = splitPoint sampleTable.NumRows sampleChangeset.ShardIds ∧
        (∃ r, sampleChangeset.ShardIds[off]? = some r ∧ sampleTable.NumRows ≤ r) ∧
        ∀ (j : Nat) (r : Int), off ≤ j → sampleChangeset.ShardIds[j]? = some r →
          sampleTable.NumRows ≤ r) ∧
      ((∀ r ∈ sampleChangeset.ShardIds, r < sampleTable.NumRows) →
        off = sampleChangeset.ShardIds.length - 1 ∧
        ∃ r, sampleChangeset.ShardIds[off]? = some r ∧ r < sampleTable.NumRows) :=
  ⟨by decide, by decide, by decide, by decide, by decide,
    updatePass_split_offset sampleDisk "shard" sampleShardFile sampleReady sampleChangeset
      sampleTable (by decide) (by decide) (by decide) (by decide) (by decide)⟩

theorem process_in_range_witness :
    NewShardFile sampleDisk "shard" = Except.ok sampleShardFile ∧
    sampleShardFile.WellFormed ∧
    sampleShardFile.EnsureSchema sampleChangeset = (sampleReady, none) ∧
    sampleChangeset.Valid ∧
    sampleChangeset.maxId - sampleReady.committedRows < maxSliceLen ∧
    (∀ r ∈ sampleChangeset.ShardIds, r < 2 ^ 63) ∧
    (∀ (t : Table) (r : Int), sampleReady.table = some t →
      r ∈ sampleChangeset.ShardIds.take (splitPoint t.NumRows sampleChangeset.ShardIds) →
      ∃ column0 chunk l, t.Column 0 = Except.ok column0 ∧
        (NewChunkResolver column0).Resolve r = Except.ok (chunk, l) ∧
        ∀ (col : Nat) (column : Column), t.cols[col]? = some column →
          ∃ arr, column.chunks[chunk]? = some arr ∧ l < arr.data.length) ∧
    (∃ sf1, sampleReady.process sampleChangeset = Except.ok sf1 ∧
      ∀ r ∈ sampleChangeset.ShardIds.drop
          (splitPoint sampleReady.committedRows sampleChangeset.ShardIds),
        0 ≤ r - sf1.beforeRows ∧ r - sf1.beforeRows < sf1.added ∧
        wrap64 (r - sf1.beforeRows) = r - sf1.beforeRows) ∧
    (∀ e, sampleReady.process sampleChangeset = Except.error e →
      e = makeslicePanic ∧ e ≠ indexPanic) :=
  ⟨by decide, by decide, by decide, by decide, by decide, by decide,
    (process_in_range sampleDisk "shard" sampleShardFile sampleReady sampleChangeset
      (by decide) (by decide) (by decide) (by decide)).1,
    (process_in_range sampleDisk "shard" sampleShardFile sampleReady sampleChangeset
      (by decide) (by decide) (by decide) (by decide)).2.1 (by decide),
    (process_in_range sampleDisk "shard" sampleShardFile sampleReady sampleChangeset
      (by decide) (by decide) (by decide) (by decide)).2.2 (by decide)⟩

theorem process_empty_changeset_witness :
    emptyChangeset.ShardIds = [] ∧
    (sampleShardFile.EnsureSchema emptyChangeset).2 = none ∧
    (sampleShardFile.EnsureSchema emptyChangeset).1.process emptyChangeset =
      Except.error indexPanic ∧
    ((sampleShardFile.EnsureSchema emptyChangeset).1.Process emptyChangeset sampleDisk).2 =
      Except.error indexPanic :=
  ⟨rfl, by decide,
    (process_empty_changeset (sampleShardFile.EnsureSchema emptyChangeset).1 emptyChangeset
      sampleDisk rfl).2.2.1,
    congrArg Prod.snd
      (process_empty_changeset (sampleShardFile.EnsureSchema emptyChangeset).1 emptyChangeset
        sampleDisk rfl).2.2.2⟩

theorem EnsureSchema_supported_types_witness :
    NewShardFile sampleDisk "shard" = Except.ok sampleShardFile ∧
    sampleShardFile.EnsureSchema sampleChangeset = (sampleReady, none) ∧
    ∃ fields, sampleReady.schema = some fields ∧
      (∀ f ∈ fields, f.Typ = DataType.int64 ∨ f.Typ = DataType.float64) ∧
      (∀ t, sampleReady.table = some t →
        ∀ c ∈ t.cols, c.DataType = DataType.int64 ∨ c.DataType = DataType.float64) ∧
      (∀ (cs2 : ChangesetRequest) (e : Fault), sampleReady.process cs2 = Except.error e →
        e ≠ Fault.panic "Unknown Type" ∧ e ≠ Fault.panic "2 Unknown Type") :=
  ⟨by decide, by decide,
    (EnsureSchema_supported_types sampleDisk "shard" sampleShardFile sampleReady sampleChangeset
      (by decide) (by decide)).elim
      (fun fields h => ⟨fields, h.1, h.2.1, h.2.2.1, h.2.2.2.1⟩)⟩

theorem QuerySQL_failure_in_response_witness :
    ("select 1".data).head? ≠ some '[' ∧
    failingQueryer.NewV4 = Except.ok "id" ∧
    failingQueryer.ParseStatement = Except.error "bad" ∧
    failingQueryer.QuerySQL "select 1".data = Except.ok
      { Schema := [], Data := [], Error := "parsing sql" ++ ": " ++ "bad",
        ExecutionTime := failingQueryer.elapsed } :=
  ⟨by decide, rfl, rfl,
    (QuerySQL_failure_in_response failingQueryer "select 1".data (by decide)).2.1 "id" "bad"
      rfl rfl⟩

theorem tableResponseToQueryResult_total_witness :
    (∀ h ∈ sampleResponse.Headers, h.Datatype ∈ ["string", "uint64", "int64", "bool",
      "[]uint64", "[]string", "decimal", "timestamp"]) ∧
    (∀ row ∈ sampleResponse.Rows, row.length ≤ sampleResponse.Headers.length) ∧
    ∃ qr, tableResponseToQueryResult sampleResponse = Except.ok qr ∧
      qr.Schema.length = sampleResponse.Headers.length ∧
      qr.Data.length = sampleResponse.Rows.length :=
  ⟨by decide, by decide,
    (tableResponseToQueryResult_total sampleResponse (by decide) (by decide)
      (by
        intro row hrow k col h hk hh hd
        simp only [sampleResponse, List.mem_singleton] at hrow
        subst hrow
        cases k with
        | zero =>
          simp only [sampleResponse, List.getElem?_cons_zero, Option.some.injEq] at hh
          subst hh
          exact absurd hd (by decide)
        | succ k =>
          cases k with
          | zero =>
            simp only [List.getElem?_cons_succ, List.getElem?_cons_zero,
              Option.some.injEq] at hk
            subst hk
            decide
          | succ k =>
            simp only [List.getElem?_cons_succ, List.getElem?_nil] at hk
            cases hk)).2.2.2⟩


end Featurebase
